/-
Verification of the nova-framework specification against its source.

The file contains shallow embeddings of the framework's bookkeeping logic:
- `Nova.Progress`: Task / ProgressMonitor (src/progress.cpp)
- `Nova.Notif`: Notification / Notifier (src/notification.cpp)
- `Nova.Content`: ContentTabView / ContentSplitView tree (src/contentpage.cpp)
- `Nova.Actions`: ActionGroup / ActionProvider (src/actionprovider.cpp)

Machine integers are modelled as unbounded Int/Nat: the verified properties
are counting and ordering facts whose values grow by one per UI event, so
wrap-around is unreachable in any realistic trace and is not modelled.
-/
import Mathlib

namespace Nova

namespace Progress

/-- Operations performed on a `ProgressMonitor`: `ProgressMonitor::Enable`
appends the task to the monitor's list, `ProgressMonitor::Disable` removes
all its occurrences (`QList::removeAll`).  Tasks are identified by ids. -/
inductive MOp where
  | enable (t : Nat)
  | disable (t : Nat)
deriving Repr, DecidableEq

/-- One monitor operation, acting on the `tasks` list
(src/progress.cpp, `Enable` = `tasks << task`, `Disable` = `tasks.removeAll(task)`). -/
def mstep (l : List Nat) (op : MOp) : List Nat :=
  match op with
  | .enable t => l ++ [t]
  | .disable t => l.filter (fun u => u ≠ t)

/-- The monitor's `tasks` list after a sequence of Enable/Disable calls,
starting from the empty monitor. -/
def mrun (ops : List MOp) : List Nat :=
  ops.foldl mstep []

/-- `ProgressMonitor::get_current_task`:
`tasks.isEmpty() ? nullptr : tasks[0]` (src/progress.cpp:49-51). -/
def getCurrentTask (l : List Nat) : Option Nat :=
  if l.isEmpty then none else l.head?

/-- The task handed to `UpdateProgressView` by `ProgressMonitor::UpdateTasks`
(src/progress.cpp:70-73): `nullptr` when the list is empty, else `tasks[0]`. -/
def updateTasksShown (l : List Nat) : Option Nat :=
  if l.isEmpty then none else l.head?

/-- Task ids of the `enable` events of a trace, in order. -/
def enables (ops : List MOp) : List Nat :=
  ops.filterMap (fun op => match op with | .enable t => some t | .disable _ => none)

/-- Whether task `t` is still running after the trace `ops`:
enabled, and not disabled since its last enable. -/
def liveAfter (ops : List MOp) (t : Nat) : Bool :=
  ops.foldl
    (fun b op =>
      match op with
      | .enable u => if u = t then true else b
      | .disable u => if u = t then false else b)
    false

/-- Modelled from the spec (`ProgressMonitor ... always presents only the most
recently enabled one`): the most recently enabled task still running. -/
def mostRecentEnabledRunning (ops : List MOp) : Option Nat :=
  ((enables ops).filter (liveAfter ops)).getLast?

/-- The earliest enabled task still running. -/
def earliestEnabledRunning (ops : List MOp) : Option Nat :=
  ((enables ops).filter (liveAfter ops)).head?

theorem mrun_append (ops : List MOp) (op : MOp) :
    mrun (ops ++ [op]) = mstep (mrun ops) op := by
  simp [mrun, List.foldl_append]

theorem enables_append (ops : List MOp) (op : MOp) :
    enables (ops ++ [op]) = enables ops ++ enables [op] := by
  simp [enables]

theorem liveAfter_append_enable (ops : List MOp) (t u : Nat) :
    liveAfter (ops ++ [.enable t]) u = if u = t then true else liveAfter ops u := by
  by_cases h : u = t
  · subst h; simp [liveAfter, List.foldl_append]
  · have h2 : t ≠ u := fun he => h he.symm
    simp [liveAfter, List.foldl_append, h, h2]

theorem liveAfter_append_disable (ops : List MOp) (t u : Nat) :
    liveAfter (ops ++ [.disable t]) u = if u = t then false else liveAfter ops u := by
  by_cases h : u = t
  · subst h; simp [liveAfter, List.foldl_append]
  · have h2 : t ≠ u := fun he => h he.symm
    simp [liveAfter, List.foldl_append, h, h2]

/-- Main characterization: when no task is enabled twice, the monitor's list is
exactly the enable-ordered list of still-running tasks. -/
theorem mrun_eq_filter (ops : List MOp) (h : (enables ops).Nodup) :
    mrun ops = (enables ops).filter (liveAfter ops) := by
  induction ops using List.reverseRecOn with
  | nil => simp [mrun, enables]
  | append_singleton ops op ih =>
    match op with
    | .enable t =>
      have hsplit : enables (ops ++ [MOp.enable t]) = enables ops ++ [t] := by
        simp [enables]
      rw [hsplit] at h ⊢
      have hnd : (enables ops).Nodup := (List.nodup_append.mp h).1
      have hnotmem : t ∉ enables ops := by
        intro hm
        have := (List.nodup_append.mp h).2.2
        exact this hm (List.mem_singleton.mpr rfl)
      rw [mrun_append, ih hnd]
      simp only [mstep]
      rw [List.filter_append]
      congr 1
      · apply List.filter_congr
        intro u hu
        have hut : u ≠ t := fun he => hnotmem (he ▸ hu)
        rw [liveAfter_append_enable]
        simp [hut]
      · simp [liveAfter_append_enable]
    | .disable t =>
      have hsplit : enables (ops ++ [MOp.disable t]) = enables ops := by
        simp [enables]
      rw [hsplit] at h ⊢
      rw [mrun_append, ih h]
      simp only [mstep]
      rw [List.filter_filter]
      apply List.filter_congr
      intro u hu
      rw [liveAfter_append_disable]
      by_cases hut : u = t
      · simp [hut]
      · simp [hut]

theorem getCurrentTask_eq_head (l : List Nat) : getCurrentTask l = l.head? := by
  cases l <;> simp [getCurrentTask]

theorem head_filter_ne (l : List Nat) (t : Nat) (h : l.head? ≠ some t) :
    (l.filter (fun u => u ≠ t)).head? = l.head? := by
  cases l with
  | nil => simp
  | cons a rest =>
    have hat : a ≠ t := by
      intro he
      exact h (by simp [he])
    simp [List.filter_cons, hat]

/-- C1 (counterexample): after enabling task 0 and then task 1 (both still
running), `get_current_task` returns task 0 (`tasks[0]`, src/progress.cpp:49-51),
not the most recently enabled task 1 as the claim states. -/
theorem monitor_current_not_most_recent :
    getCurrentTask (mrun [MOp.enable 0, MOp.enable 1]) = some 0 ∧
    mostRecentEnabledRunning [MOp.enable 0, MOp.enable 1] = some 1 ∧
    getCurrentTask (mrun [MOp.enable 0, MOp.enable 1]) ≠
      mostRecentEnabledRunning [MOp.enable 0, MOp.enable 1] := by
  refine ⟨by decide, by decide, by decide⟩

/-- C1 (amended): for every sequence of Enable/Disable calls (each task enabled
at most once), `get_current_task` — which is also what `UpdateTasks` presents —
is the LEAST recently enabled task still running; disabling a task that is not
at the front leaves the presented task unchanged; and when no task is running,
`get_current_task` is null. -/
theorem monitor_current_is_earliest (ops : List MOp)
    (h : (enables ops).Nodup) :
    getCurrentTask (mrun ops) = earliestEnabledRunning ops ∧
    updateTasksShown (mrun ops) = getCurrentTask (mrun ops) ∧
    (mrun ops = [] → getCurrentTask (mrun ops) = none) ∧
    (∀ t : Nat, (mrun ops).head? ≠ some t →
      getCurrentTask (mrun (ops ++ [MOp.disable t])) = getCurrentTask (mrun ops)) := by
  refine ⟨?_, rfl, ?_, ?_⟩
  · rw [getCurrentTask_eq_head, mrun_eq_filter ops h, earliestEnabledRunning]
  · intro he; rw [he]; rfl
  · intro t ht
    rw [mrun_append]
    simp only [mstep]
    rw [getCurrentTask_eq_head, getCurrentTask_eq_head]
    exact head_filter_ne _ t ht

/-- Witness for `monitor_current_is_earliest` at a concrete trace. -/
theorem monitor_current_is_earliest_witness :
    (enables [MOp.enable 3, MOp.enable 5, MOp.disable 3]).Nodup ∧
    getCurrentTask (mrun [MOp.enable 3, MOp.enable 5, MOp.disable 3]) =
      earliestEnabledRunning [MOp.enable 3, MOp.enable 5, MOp.disable 3] :=
  ⟨by decide, (monitor_current_is_earliest [MOp.enable 3, MOp.enable 5, MOp.disable 3]
      (by decide)).1⟩

end Progress

namespace Notif

/-- A notification action callback.  `closeCb` is the lambda the constructor
installs under the key "Close" (src/notification.cpp:18-20); `userCb` is a
caller-supplied lambda; `nullCb` is a default-constructed `std::function`
(what `QMap::operator[]` inserts for a missing key) — invoking it throws
`std::bad_function_call`. -/
inductive Cb where
  | closeCb
  | userCb (k : Nat)
  | nullCb
deriving Repr, DecidableEq

/-- `nova::ActionList`: a map from action names to callbacks
(`QMap<QString, std::function<void(Notification*)>>`). -/
abbrev AMap := List (String × Cb)

/-- `QMap` lookup of the first (unique) binding of a key. -/
def lookup : AMap → String → Option Cb
  | [], _ => none
  | p :: rest, k => if p.1 = k then some p.2 else lookup rest k

/-- `QMap::contains`. -/
def containsKey (m : AMap) (k : String) : Bool :=
  (lookup m k).isSome

/-- `QMap::operator[] = v`: overwrite the binding of `k`, inserting it if
missing. -/
def upsert : AMap → String → Cb → AMap
  | [], k, v => [(k, v)]
  | p :: rest, k, v => if p.1 = k then (k, v) :: rest else p :: upsert rest k v

/-- The action map built by `Notification::Notification`
(src/notification.cpp:14-21): the caller-supplied actions, with the implicit
"Close" action written over any caller-supplied binding of that key. -/
def mkNotification (userActions : AMap) : AMap :=
  upsert userActions "Close" Cb.closeCb

/-- Outcome of `Notification::ActivateAction`: either some callback object was
invoked (possibly a default-constructed one) or nothing happened. -/
inductive ActResult where
  | invoked (cb : Cb)
  | noop
deriving Repr, DecidableEq

/-- `Notification::ActivateAction` (src/notification.cpp:51-55):
```
if (actions.contains("Close")) { actions[action](this); }
```
Note the guard tests the literal key "Close", not `action`; for a missing
`action` key, `QMap::operator[]` inserts a default-constructed
`std::function` and the call invokes it. -/
def activateAction (m : AMap) (a : String) : AMap × ActResult :=
  if containsKey m "Close" then
    match lookup m a with
    | some cb => (m, .invoked cb)
    | none => (upsert m a .nullCb, .invoked .nullCb)
  else (m, .noop)

theorem lookup_upsert (m : AMap) (k : String) (v : Cb) :
    lookup (upsert m k v) k = some v := by
  induction m with
  | nil => simp [upsert, lookup]
  | cons p rest ih =>
    by_cases h : p.1 = k
    · simp [upsert, lookup, h]
    · simp [upsert, lookup, h, ih]

/-- C2 (code evaluated at the failing input): the implicit "Close" action is
present from construction onward and triggering it runs the close callback —
but triggering an unknown action name is NOT a no-op: the guard in
`ActivateAction` tests `actions.contains("Close")` (always true) instead of
`actions.contains(action)`, so `actions[action]` inserts a default-constructed
callback into the map (a state change) and invokes it
(`std::bad_function_call`). -/
theorem activate_unknown_action_not_noop :
    (∀ acts : AMap, lookup (mkNotification acts) "Close" = some Cb.closeCb) ∧
    (∀ acts : AMap,
      activateAction (mkNotification acts) "Close" =
        (mkNotification acts, ActResult.invoked Cb.closeCb)) ∧
    activateAction (mkNotification []) "Unknown" =
      ([("Close", Cb.closeCb), ("Unknown", Cb.nullCb)], ActResult.invoked Cb.nullCb) ∧
    activateAction (mkNotification []) "Unknown" ≠ (mkNotification [], ActResult.noop) := by
  refine ⟨fun acts => lookup_upsert acts "Close" Cb.closeCb, ?_, by decide, by decide⟩
  intro acts
  have hl : lookup (mkNotification acts) "Close" = some Cb.closeCb :=
    lookup_upsert acts "Close" Cb.closeCb
  simp [activateAction, containsKey, hl]

/-- Observable events at a `Notifier`. -/
inductive NEvent where
  | closed (n : Nat)
  | popup (n : Nat)
  | viewUpdate (n : Option Nat)
deriving Repr, DecidableEq

/-- A `nova::Notifier`: the current notification (or none) plus the trace of
emitted events. -/
structure Notifier where
  current : Option Nat
  events : List NEvent
deriving Repr, DecidableEq

/-- `Notifier::Disable` (src/notification.cpp:72-77): clears the view only
when the disabled notification is the current one. -/
def disableN (s : Notifier) (n : Nat) : Notifier :=
  if s.current = some n then
    { current := none, events := s.events ++ [.viewUpdate none] }
  else s

/-- `Notification::Close` (src/notification.cpp:60-63): records that `n`
received a Close, then runs `Notifier::Disable` (the notification then deletes
itself). -/
def closeN (s : Notifier) (n : Nat) : Notifier :=
  disableN { s with events := s.events ++ [.closed n] } n

/-- `Notifier::Enable` (src/notification.cpp:65-70): closes the current
notification if any, then makes `n` current, shows its popup and updates the
view. -/
def enableN (s : Notifier) (n : Nat) : Notifier :=
  let s1 := match s.current with
    | some m => closeN s m
    | none => s
  { current := some n, events := s1.events ++ [.popup n, .viewUpdate (some n)] }

/-- `Notification::Show` (src/notification.cpp:57-59) delegates to
`Notifier::Enable`. -/
def showN (s : Notifier) (n : Nat) : Notifier :=
  enableN s n

/-- C7: `Enable(new)` closes any currently active notification and makes the
new one current (the `current` field is a single option, so at most one
notification is active and nothing is queued).  In particular, showing N1 and
then N2 without closing N1 sends N1 an implicit Close and leaves
`get_current_notification()` = N2. -/
theorem notifier_enable_closes_previous (s : Notifier) (n : Nat) :
    (enableN s n).current = some n ∧
    (∀ m, s.current = some m → NEvent.closed m ∈ (enableN s n).events) ∧
    (showN (showN ⟨none, []⟩ 1) 2).current = some 2 ∧
    NEvent.closed 1 ∈ (showN (showN ⟨none, []⟩ 1) 2).events := by
  refine ⟨rfl, ?_, by decide, by decide⟩
  intro m hm
  simp [enableN, hm, closeN, disableN]

/-- Witness for `notifier_enable_closes_previous` at a concrete notifier. -/
theorem notifier_enable_closes_previous_witness :
    (enableN ⟨some 5, []⟩ 7).current = some 7 ∧
    NEvent.closed 5 ∈ (enableN ⟨some 5, []⟩ 7).events :=
  ⟨(notifier_enable_closes_previous ⟨some 5, []⟩ 7).1,
   (notifier_enable_closes_previous ⟨some 5, []⟩ 7).2.1 5 rfl⟩

/-- C9: disabling a notification that is not the current one leaves the
notifier completely unchanged — same current notification, no view update
(src/notification.cpp:72-77, the body is guarded by
`current_notification == notification`). -/
theorem notifier_disable_noncurrent_frame (s : Notifier) (n : Nat)
    (h : s.current ≠ some n) :
    disableN s n = s := by
  simp [disableN, h]

/-- Witness for `notifier_disable_noncurrent_frame`. -/
theorem notifier_disable_noncurrent_frame_witness :
    (Notifier.mk (some 1) []).current ≠ some 2 ∧
    disableN ⟨some 1, []⟩ 2 = ⟨some 1, []⟩ :=
  ⟨by decide, notifier_disable_noncurrent_frame ⟨some 1, []⟩ 2 (by decide)⟩

end Notif

namespace Content

/-- A `nova::ContentPage`, reduced to its identity and the result of its
`CanClose()` veto (contentpage.h:175, applications override it). -/
structure CPage where
  pid : Nat
  canClose : Bool
deriving Repr, DecidableEq

/-- A `nova::ContentView`: either a `ContentTabView` (ordered pages plus the
current tab index) or a `ContentSplitView` (orientation and exactly two child
views `view_1`, `view_2`). -/
inductive CView where
  | leaf (pages : List CPage) (cur : Nat)
  | split (vert : Bool) (v1 v2 : CView)
deriving Repr, DecidableEq

/-- `ContentView::ListPages`, flattened to page ids
(src/contentpage.cpp:336-341 for split views). -/
def pids : CView → List Nat
  | .leaf ps _ => ps.map (fun p => p.pid)
  | .split _ a b => pids a ++ pids b

def countLeaves : CView → Nat
  | .leaf _ _ => 1
  | .split _ a b => countLeaves a + countLeaves b

def countInternals : CView → Nat
  | .leaf _ _ => 0
  | .split _ a b => countInternals a + countInternals b + 1

/-- Structural well-formedness of a view tree: every tab view holds at least
one page and its current index is in range. -/
def wfV : CView → Bool
  | .leaf ps c => !ps.isEmpty && c < ps.length
  | .split _ a b => wfV a && wfV b

/-- The subtree addressed by a path of child selectors
(`false` = `view_1`, `true` = `view_2`). -/
def viewAt : CView → List Bool → Option CView
  | v, [] => some v
  | .leaf _ _, _ :: _ => none
  | .split _ a _, false :: rest => viewAt a rest
  | .split _ _ b, true :: rest => viewAt b rest

/-- Replace the subtree addressed by a path. -/
def replaceAt : CView → List Bool → CView → CView
  | _, [], nv => nv
  | .leaf ps c, _ :: _, _ => .leaf ps c
  | .split o a b, false :: rest, nv => .split o (replaceAt a rest nv) b
  | .split o a b, true :: rest, nv => .split o a (replaceAt b rest nv)

/-- Current tab index after `QTabWidget::removeTab(idx)` on a tab widget
whose current index was `cur` and which now holds `len'` tabs (Qt's default
`selectionBehaviorOnRemove = SelectRightTab`). -/
def removeAdjust (cur idx len' : Nat) : Nat :=
  if idx < cur then cur - 1
  else if idx = cur then min idx (len' - 1)
  else cur

/-- Id of the current page of the leftmost tab view of a tree — the view
`ContentSplitView::Merge` reactivates (src/contentpage.cpp:354-359: descend
`view_1` while the node is a split view, then `get_current_page()`). -/
def leftLeafCur : CView → Option Nat
  | .leaf ps c => (ps.get? c).map (fun p => p.pid)
  | .split _ a _ => leftLeafCur a

/-- Result of a `ContentTabView::Close(index)` call on a subtree:
the replacement subtree (`none` when the tab view emptied and merged away),
the returned bool, the page activations performed (in order), and the pages
whose `CanClose()` veto was queried. -/
structure CloseRes where
  view : Option CView
  ok : Bool
  acts : List Nat
  asked : List Nat
deriving Repr, DecidableEq

/-- `ContentTabView::Close(index)` (src/contentpage.cpp:182-206), executed on
the leaf addressed by `path`; merge handling follows
`ContentSplitView::Merge` (src/contentpage.cpp:343-362).  The root-level
replacement (`Workbench::RootSplitMergeHelper`) and the final reactivation
are applied by `closeW` below.  The index is an `int`: negative or too-large
values fail fast (line 183). -/
def closeV : CView → List Bool → Int → CloseRes
  | .leaf ps c, [], idx =>
    if idx < 0 ∨ (ps.length : Int) ≤ idx then ⟨some (.leaf ps c), false, [], []⟩
    else
      let i : Nat := idx.toNat
      match ps.get? i with
      | none => ⟨some (.leaf ps c), false, [], []⟩
      | some pg =>
        if pg.canClose then
          let ps' := ps.eraseIdx i
          if ps'.isEmpty then ⟨none, true, [pg.pid], [pg.pid]⟩
          else
            let c' := min i (ps'.length - 1)
            match ps'.get? c' with
            | some pg' => ⟨some (.leaf ps' c'), true, [pg.pid, pg'.pid], [pg.pid]⟩
            | none => ⟨some (.leaf ps' c'), true, [pg.pid], [pg.pid]⟩
        else ⟨some (.leaf ps i), false, [pg.pid], [pg.pid]⟩
  | .leaf ps c, _ :: _, _ => ⟨some (.leaf ps c), false, [], []⟩
  | .split o a b, [], _ => ⟨some (.split o a b), false, [], []⟩
  | .split o a b, false :: rest, idx =>
    let r := closeV a rest idx
    match r.view with
    | some a' => ⟨some (.split o a' b), r.ok, r.acts, r.asked⟩
    | none =>
      ⟨some b, r.ok,
        r.acts ++ (match leftLeafCur b with | some p => [p] | none => []), r.asked⟩
  | .split o a b, true :: rest, idx =>
    let r := closeV b rest idx
    match r.view with
    | some b' => ⟨some (.split o a b'), r.ok, r.acts, r.asked⟩
    | none =>
      ⟨some a, r.ok,
        r.acts ++ (match leftLeafCur a with | some p => [p] | none => []), r.asked⟩

/-- The workbench around the view tree: the single optional root and the
workbench-wide active page.  Modelled from the spec: the bodies of
`Workbench::RootSplitMergeHelper` (replace/clear the root reference) and
`Workbench::MoveContentPage` ("Moves a content page from one view to another
(and activates it)", workbench.h:221-226) are not in the sources, only their
declarations and callers; they are modelled after those doc comments and
spec section 4.2. -/
structure WB where
  root : Option CView
  active : Option Nat
deriving Repr, DecidableEq

/-- Workbench-level close: run `closeV`, install the resulting root (the tree
becomes rootless when the last tab view merged away), and track the last
activation as the workbench-wide active page. -/
def closeW (w : WB) (path : List Bool) (idx : Int) : WB × Bool × List Nat :=
  match w.root with
  | none => (w, false, [])
  | some t =>
    let r := closeV t path idx
    match r.view with
    | none => (⟨none, none⟩, r.ok, r.asked)
    | some t' =>
      (⟨some t', if r.acts.isEmpty then w.active else r.acts.getLast?⟩, r.ok, r.asked)

/-- `ContentTabView::Split(index, orientation)` (src/contentpage.cpp:232-253)
on the leaf addressed by `path`: no-op when the leaf has at most one page;
otherwise wrap {host, new empty leaf} in a split view in the host's old slot
and move the page at `index` into the new leaf, activating it there (the move
is `Workbench::MoveContentPage`, modelled from the spec).  Returns the new
subtree and the activated page id. -/
def splitV : CView → List Bool → Nat → Bool → Option (CView × Nat)
  | .leaf ps c, [], idx, o =>
    if ps.length ≤ 1 then none
    else
      match ps.get? idx with
      | none => none
      | some pg =>
        let ps' := ps.eraseIdx idx
        some (.split o (.leaf ps' (removeAdjust c idx ps'.length)) (.leaf [pg] 0), pg.pid)
  | .leaf _ _, _ :: _, _, _ => none
  | .split _ _ _, [], _, _ => none
  | .split o a b, false :: rest, idx, orient =>
    (splitV a rest idx orient).map (fun r => (.split o r.1 b, r.2))
  | .split o a b, true :: rest, idx, orient =>
    (splitV b rest idx orient).map (fun r => (.split o a r.1, r.2))

def splitW (w : WB) (path : List Bool) (idx : Nat) (o : Bool) : WB :=
  match w.root with
  | none => w
  | some t =>
    match splitV t path idx o with
    | none => w
    | some (t', p) => ⟨some t', some p⟩

/-- `ContentTabView::Open(page)` (src/contentpage.cpp:255-262) on the leaf
addressed by `path`: append the page as the last tab and activate it. -/
def openV : CView → List Bool → CPage → Option CView
  | .leaf ps _, [], pg => some (.leaf (ps ++ [pg]) ps.length)
  | .leaf _ _, _ :: _, _ => none
  | .split _ _ _, [], _ => none
  | .split o a b, false :: rest, pg => (openV a rest pg).map (fun v => .split o v b)
  | .split o a b, true :: rest, pg => (openV b rest pg).map (fun v => .split o a v)

/-- `Workbench::OpenContentPage` (src/workbench.cpp:102-112): create a root
tab view when there is none, else open into an existing tab view. -/
def openW (w : WB) (path : List Bool) (pg : CPage) : WB :=
  match w.root with
  | none => ⟨some (.leaf [pg] 0), some pg.pid⟩
  | some t =>
    match openV t path pg with
    | none => w
    | some t' => ⟨some t', some pg.pid⟩

/-- The content-view operations reachable from the public API (Merge is not
directly callable: it is triggered inside Close when a tab view empties). -/
inductive VOp where
  | openPage (pg : CPage) (path : List Bool)
  | closePage (path : List Bool) (idx : Int)
  | splitPage (path : List Bool) (idx : Nat) (vert : Bool)
deriving Repr, DecidableEq

def vstep (w : WB) (op : VOp) : WB :=
  match op with
  | .openPage pg path => openW w path pg
  | .closePage path idx => (closeW w path idx).1
  | .splitPage path idx o => splitW w path idx o

/-- The workbench after a sequence of operations, starting with no root. -/
def vrun (ops : List VOp) : WB :=
  ops.foldl vstep ⟨none, none⟩

/-- Workbench well-formedness: when there is no root nothing is active; when
there is a root, every tab view in it holds at least one page with its current
index in range, and exactly one page — one that lives in the tree — is
active. -/
def wfW (w : WB) : Prop :=
  match w.root with
  | none => w.active = none
  | some t => wfV t = true ∧ ∃ p, w.active = some p ∧ p ∈ pids t

theorem closeV_oob : ∀ (t : CView) (path : List Bool) (ps : List CPage) (c : Nat)
    (idx : Int), viewAt t path = some (.leaf ps c) →
    (idx < 0 ∨ (ps.length : Int) ≤ idx) →
    closeV t path idx = ⟨some t, false, [], []⟩ := by
  intro t
  induction t with
  | leaf ps0 c0 =>
    intro path ps c idx hv hoob
    cases path with
    | nil =>
      simp only [viewAt, Option.some_inj, CView.leaf.injEq] at hv
      obtain ⟨h1, h2⟩ := hv
      subst h1; subst h2
      simp only [closeV]
      rw [if_pos hoob]
    | cons d rest => simp [viewAt] at hv
  | split o a b iha ihb =>
    intro path ps c idx hv hoob
    cases path with
    | nil => simp [viewAt] at hv
    | cons d rest =>
      cases d
      · simp only [viewAt] at hv
        have h := iha rest ps c idx hv hoob
        simp [closeV, h]
      · simp only [viewAt] at hv
        have h := ihb rest ps c idx hv hoob
        simp [closeV, h]

/-- C10: `ContentTabView::Close(index)` with a negative or too-large index
returns false and changes nothing — tree, current indices and the active page
are untouched, and no page is asked its `CanClose` veto
(src/contentpage.cpp:183). -/
theorem close_out_of_range_noop (w : WB) (t : CView) (ps : List CPage) (c : Nat)
    (path : List Bool) (idx : Int)
    (hroot : w.root = some t) (hv : viewAt t path = some (.leaf ps c))
    (hoob : idx < 0 ∨ (ps.length : Int) ≤ idx) :
    closeW w path idx = (w, false, []) := by
  have h := closeV_oob t path ps c idx hv hoob
  cases w with
  | mk root active =>
    simp only at hroot
    subst hroot
    simp [closeW, h]

/-- Witness for `close_out_of_range_noop`: index 2 on a two-page view. -/
theorem close_out_of_range_noop_witness :
    closeW ⟨some (.leaf [⟨0, true⟩, ⟨1, true⟩] 0), some 0⟩ [] 2 =
      (⟨some (.leaf [⟨0, true⟩, ⟨1, true⟩] 0), some 0⟩, false, []) :=
  close_out_of_range_noop ⟨some (.leaf [⟨0, true⟩, ⟨1, true⟩] 0), some 0⟩
    (.leaf [⟨0, true⟩, ⟨1, true⟩] 0) [⟨0, true⟩, ⟨1, true⟩] 0 [] 2 rfl rfl
    (by decide)

theorem wfV_leaf_iff (ps : List CPage) (c : Nat) :
    wfV (.leaf ps c) = true ↔ ps ≠ [] ∧ c < ps.length := by
  simp [wfV]

theorem wfV_split_iff (o : Bool) (a b : CView) :
    wfV (.split o a b) = true ↔ wfV a = true ∧ wfV b = true := by
  simp [wfV]

theorem get?_of_lt (ps : List CPage) (n : Nat) (h : n < ps.length) :
    ∃ pg, ps.get? n = some pg := by
  cases hg : ps.get? n with
  | none => rw [List.get?_eq_none] at hg; omega
  | some pg => exact ⟨pg, rfl⟩

theorem removeAdjust_lt (c idx len' : Nat) (hc : c ≤ len') (hidx : idx ≤ len')
    (hlen : 1 ≤ len') : removeAdjust c idx len' < len' := by
  unfold removeAdjust
  split_ifs with h1 h2
  · omega
  · have := Nat.min_le_right idx (len' - 1); omega
  · omega

theorem wfV_leftLeafCur : ∀ v : CView, wfV v = true →
    ∃ p, leftLeafCur v = some p ∧ p ∈ pids v := by
  intro v
  induction v with
  | leaf ps c =>
    intro h
    rw [wfV_leaf_iff] at h
    obtain ⟨pg, hget⟩ := get?_of_lt ps c h.2
    refine ⟨pg.pid, ?_, ?_⟩
    · show (ps.get? c).map (fun p => p.pid) = some pg.pid
      rw [hget]
      rfl
    · exact List.mem_map.mpr ⟨pg, List.get?_mem hget, rfl⟩
  | split o a b iha ihb =>
    intro h
    rw [wfV_split_iff] at h
    obtain ⟨p, h1, h2⟩ := iha h.1
    refine ⟨p, ?_, ?_⟩
    · simp [leftLeafCur, h1]
    · simp only [pids, List.mem_append]
      exact Or.inl h2

theorem openV_wf : ∀ (v : CView) (path : List Bool) (pg : CPage) (v' : CView),
    openV v path pg = some v' → wfV v = true → wfV v' = true ∧ pg.pid ∈ pids v' := by
  intro v
  induction v with
  | leaf ps c =>
    intro path pg v' ho _
    cases path with
    | nil =>
      simp only [openV, Option.some_inj] at ho
      subst ho
      refine ⟨?_, ?_⟩
      · rw [wfV_leaf_iff]
        refine ⟨by simp, by simp⟩
      · simp [pids]
    | cons d rest => simp [openV] at ho
  | split o a b iha ihb =>
    intro path pg v' ho hw
    rw [wfV_split_iff] at hw
    cases path with
    | nil => simp [openV] at ho
    | cons d rest =>
      cases d
      · simp only [openV, Option.map_eq_some'] at ho
        obtain ⟨a', ha, heq⟩ := ho
        subst heq
        obtain ⟨hwa, hmem⟩ := iha rest pg a' ha hw.1
        refine ⟨?_, ?_⟩
        · rw [wfV_split_iff]; exact ⟨hwa, hw.2⟩
        · simp only [pids, List.mem_append]; exact Or.inl hmem
      · simp only [openV, Option.map_eq_some'] at ho
        obtain ⟨b', hb, heq⟩ := ho
        subst heq
        obtain ⟨hwb, hmem⟩ := ihb rest pg b' hb hw.2
        refine ⟨?_, ?_⟩
        · rw [wfV_split_iff]; exact ⟨hw.1, hwb⟩
        · simp only [pids, List.mem_append]; exact Or.inr hmem

theorem splitV_wf : ∀ (v : CView) (path : List Bool) (idx : Nat) (o : Bool)
    (v' : CView) (p : Nat), splitV v path idx o = some (v', p) →
    wfV v = true → wfV v' = true ∧ p ∈ pids v' := by
  intro v
  induction v with
  | leaf ps c =>
    intro path idx o v' p hs hw
    cases path with
    | nil =>
      rw [wfV_leaf_iff] at hw
      simp only [splitV] at hs
      by_cases hlen : ps.length ≤ 1
      · rw [if_pos hlen] at hs; exact absurd hs (by simp)
      · rw [if_neg hlen] at hs
        cases hg : ps.get? idx with
        | none => rw [hg] at hs; exact absurd hs (by simp)
        | some pg =>
          rw [hg] at hs
          simp only [Option.some_inj, Prod.mk.injEq] at hs
          obtain ⟨hv', hp⟩ := hs
          subst hv'; subst hp
          have hidx : idx < ps.length := by
            by_contra hcon
            rw [List.get?_eq_none.mpr (by omega)] at hg
            exact absurd hg (by simp)
          have herase : (ps.eraseIdx idx).length = ps.length - 1 := by
            rw [List.length_eraseIdx]
            rw [if_pos hidx]
          refine ⟨?_, ?_⟩
          · rw [wfV_split_iff]
            refine ⟨?_, ?_⟩
            · rw [wfV_leaf_iff]
              refine ⟨?_, ?_⟩
              · intro hnil
                rw [hnil] at herase
                simp at herase
                omega
              · exact removeAdjust_lt c idx (ps.eraseIdx idx).length
                  (by omega) (by omega) (by omega)
            · rw [wfV_leaf_iff]; exact ⟨by simp, by simp⟩
          · simp [pids]
    | cons d rest => simp [splitV] at hs
  | split o a b iha ihb =>
    intro path idx orr v' p hs hw
    rw [wfV_split_iff] at hw
    cases path with
    | nil => simp [splitV] at hs
    | cons d rest =>
      cases d
      · simp only [splitV, Option.map_eq_some'] at hs
        obtain ⟨⟨a', p0⟩, ha, heq⟩ := hs
        simp only [Prod.mk.injEq] at heq
        obtain ⟨hv', hp⟩ := heq
        subst hv'; subst hp
        obtain ⟨hwa, hmem⟩ := iha rest idx orr a' p0 ha hw.1
        refine ⟨?_, ?_⟩
        · rw [wfV_split_iff]; exact ⟨hwa, hw.2⟩
        · simp only [pids, List.mem_append]; exact Or.inl hmem
      · simp only [splitV, Option.map_eq_some'] at hs
        obtain ⟨⟨b', p0⟩, hb, heq⟩ := hs
        simp only [Prod.mk.injEq] at heq
        obtain ⟨hv', hp⟩ := heq
        subst hv'; subst hp
        obtain ⟨hwb, hmem⟩ := ihb rest idx orr b' p0 hb hw.2
        refine ⟨?_, ?_⟩
        · rw [wfV_split_iff]; exact ⟨hw.1, hwb⟩
        · simp only [pids, List.mem_append]; exact Or.inr hmem

theorem closeV_wf : ∀ (v : CView) (path : List Bool) (idx : Int), wfV v = true →
    ((closeV v path idx).acts = [] → (closeV v path idx).view = some v) ∧
    (∀ v', (closeV v path idx).view = some v' → wfV v' = true) ∧
    (∀ v', (closeV v path idx).view = some v' → (closeV v path idx).acts ≠ [] →
      ∃ p, (closeV v path idx).acts.getLast? = some p ∧ p ∈ pids v') := by
  intro v
  induction v with
  | leaf ps c =>
    intro path idx hw
    rw [wfV_leaf_iff] at hw
    cases path with
    | cons d rest =>
      refine ⟨fun _ => rfl, ?_, ?_⟩
      · intro v' hv'
        have : CView.leaf ps c = v' := Option.some_inj.mp hv'
        subst this
        rw [wfV_leaf_iff]; exact hw
      · intro v' _ hacts
        exact absurd rfl hacts
    | nil =>
      by_cases hoob : idx < 0 ∨ (ps.length : Int) ≤ idx
      · have heq : closeV (.leaf ps c) [] idx = ⟨some (.leaf ps c), false, [], []⟩ := by
          simp only [closeV]; rw [if_pos hoob]
        rw [heq]
        refine ⟨fun _ => rfl, ?_, ?_⟩
        · intro v' hv'
          have : CView.leaf ps c = v' := Option.some_inj.mp hv'
          subst this
          rw [wfV_leaf_iff]; exact hw
        · intro v' _ hacts
          exact absurd rfl hacts
      · have hlt : idx.toNat < ps.length := by omega
        obtain ⟨pg, hg⟩ := get?_of_lt ps idx.toNat hlt
        by_cases hcc : pg.canClose = true
        · by_cases hemp : (ps.eraseIdx idx.toNat).isEmpty = true
          · have heq : closeV (.leaf ps c) [] idx = ⟨none, true, [pg.pid], [pg.pid]⟩ := by
              simp only [closeV]; rw [if_neg hoob, hg]; simp [hcc, hemp]
            rw [heq]
            refine ⟨by simp, ?_, ?_⟩
            · intro v' hv'; simp at hv'
            · intro v' hv'; simp at hv'
          · have hlen' : 1 ≤ (ps.eraseIdx idx.toNat).length := by
              cases hE : ps.eraseIdx idx.toNat with
              | nil => rw [hE] at hemp; simp at hemp
              | cons x xs => simp [hE]
            have hc' : min idx.toNat ((ps.eraseIdx idx.toNat).length - 1) <
                (ps.eraseIdx idx.toNat).length := by
              have := Nat.min_le_right idx.toNat ((ps.eraseIdx idx.toNat).length - 1)
              omega
            obtain ⟨pg', hg'⟩ := get?_of_lt _ _ hc'
            have heq : closeV (.leaf ps c) [] idx =
                ⟨some (.leaf (ps.eraseIdx idx.toNat)
                    (min idx.toNat ((ps.eraseIdx idx.toNat).length - 1))), true,
                  [pg.pid, pg'.pid], [pg.pid]⟩ := by
              simp only [closeV]; rw [if_neg hoob, hg]; simp [hcc, hemp]
              rw [List.get?_eq_getElem?] at hg'
              rw [hg']
            rw [heq]
            refine ⟨by simp, ?_, ?_⟩
            · intro v' hv'
              have hv2 := Option.some_inj.mp hv'
              subst hv2
              rw [wfV_leaf_iff]
              refine ⟨?_, hc'⟩
              intro hnil
              rw [hnil] at hlen'
              simp at hlen'
            · intro v' hv' _
              have hv2 := Option.some_inj.mp hv'
              subst hv2
              refine ⟨pg'.pid, by simp, ?_⟩
              exact List.mem_map.mpr ⟨pg', List.get?_mem hg', rfl⟩
        · have heq : closeV (.leaf ps c) [] idx =
              ⟨some (.leaf ps idx.toNat), false, [pg.pid], [pg.pid]⟩ := by
            simp only [closeV]; rw [if_neg hoob, hg]; simp [hcc]
          rw [heq]
          refine ⟨by simp, ?_, ?_⟩
          · intro v' hv'
            have hv2 := Option.some_inj.mp hv'
            subst hv2
            rw [wfV_leaf_iff]; exact ⟨hw.1, hlt⟩
          · intro v' hv' _
            have hv2 := Option.some_inj.mp hv'
            subst hv2
            refine ⟨pg.pid, by simp, ?_⟩
            exact List.mem_map.mpr ⟨pg, List.get?_mem hg, rfl⟩
  | split o a b iha ihb =>
    intro path idx hw
    rw [wfV_split_iff] at hw
    cases path with
    | nil =>
      refine ⟨fun _ => rfl, ?_, ?_⟩
      · intro v' hv'
        have hv2 := Option.some_inj.mp hv'
        subst hv2
        rw [wfV_split_iff]; exact hw
      · intro v' _ hacts
        exact absurd rfl hacts
    | cons d rest =>
      cases d
      · obtain ⟨ih1, ih2, ih3⟩ := iha rest idx hw.1
        cases hrv : (closeV a rest idx).view with
        | some a' =>
          have heq : closeV (.split o a b) (false :: rest) idx =
              ⟨some (.split o a' b), (closeV a rest idx).ok,
                (closeV a rest idx).acts, (closeV a rest idx).asked⟩ := by
            simp only [closeV, hrv]
          rw [heq]
          refine ⟨?_, ?_, ?_⟩
          · intro hacts
            have h2 := ih1 hacts
            rw [hrv] at h2
            have h3 := Option.some_inj.mp h2
            rw [h3]
          · intro v' hv'
            have hv2 := Option.some_inj.mp hv'
            subst hv2
            rw [wfV_split_iff]
            exact ⟨ih2 a' hrv, hw.2⟩
          · intro v' hv' hacts
            have hv2 := Option.some_inj.mp hv'
            subst hv2
            obtain ⟨p, hp1, hp2⟩ := ih3 a' hrv hacts
            exact ⟨p, hp1, by simp only [pids, List.mem_append]; exact Or.inl hp2⟩
        | none =>
          obtain ⟨p0, hll, hmem⟩ := wfV_leftLeafCur b hw.2
          have heq : closeV (.split o a b) (false :: rest) idx =
              ⟨some b, (closeV a rest idx).ok,
                (closeV a rest idx).acts ++ [p0], (closeV a rest idx).asked⟩ := by
            simp only [closeV, hrv, hll]
          rw [heq]
          refine ⟨?_, ?_, ?_⟩
          · intro hacts; simp at hacts
          · intro v' hv'
            have hv2 := Option.some_inj.mp hv'
            subst hv2
            exact hw.2
          · intro v' hv' _
            have hv2 := Option.some_inj.mp hv'
            subst hv2
            exact ⟨p0, by simp, hmem⟩
      · obtain ⟨ih1, ih2, ih3⟩ := ihb rest idx hw.2
        cases hrv : (closeV b rest idx).view with
        | some b' =>
          have heq : closeV (.split o a b) (true :: rest) idx =
              ⟨some (.split o a b'), (closeV b rest idx).ok,
                (closeV b rest idx).acts, (closeV b rest idx).asked⟩ := by
            simp only [closeV, hrv]
          rw [heq]
          refine ⟨?_, ?_, ?_⟩
          · intro hacts
            have h2 := ih1 hacts
            rw [hrv] at h2
            have h3 := Option.some_inj.mp h2
            rw [h3]
          · intro v' hv'
            have hv2 := Option.some_inj.mp hv'
            subst hv2
            rw [wfV_split_iff]
            exact ⟨hw.1, ih2 b' hrv⟩
          · intro v' hv' hacts
            have hv2 := Option.some_inj.mp hv'
            subst hv2
            obtain ⟨p, hp1, hp2⟩ := ih3 b' hrv hacts
            exact ⟨p, hp1, by simp only [pids, List.mem_append]; exact Or.inr hp2⟩
        | none =>
          obtain ⟨p0, hll, hmem⟩ := wfV_leftLeafCur a hw.1
          have heq : closeV (.split o a b) (true :: rest) idx =
              ⟨some a, (closeV b rest idx).ok,
                (closeV b rest idx).acts ++ [p0], (closeV b rest idx).asked⟩ := by
            simp only [closeV, hrv, hll]
          rw [heq]
          refine ⟨?_, ?_, ?_⟩
          · intro hacts; simp at hacts
          · intro v' hv'
            have hv2 := Option.some_inj.mp hv'
            subst hv2
            exact hw.1
          · intro v' hv' _
            have hv2 := Option.some_inj.mp hv'
            subst hv2
            exact ⟨p0, by simp, hmem⟩

theorem wfW_none (act : Option Nat) : wfW ⟨none, act⟩ ↔ act = none := Iff.rfl

theorem wfW_some (t : CView) (act : Option Nat) :
    wfW ⟨some t, act⟩ ↔ (wfV t = true ∧ ∃ p, act = some p ∧ p ∈ pids t) := Iff.rfl

theorem wfW_vstep : ∀ (w : WB) (op : VOp), wfW w → wfW (vstep w op) := by
  intro w op hw
  cases w with
  | mk root active =>
    cases op with
    | openPage pg path =>
      cases root with
      | none =>
        show wfW (openW ⟨none, active⟩ path pg)
        simp only [openW]
        exact (wfW_some _ _).mpr ⟨by simp [wfV], pg.pid, rfl, by simp [pids]⟩
      | some t =>
        obtain ⟨hwt, p, hact, hmem⟩ := (wfW_some t active).mp hw
        show wfW (openW ⟨some t, active⟩ path pg)
        cases ho : openV t path pg with
        | none => simp only [openW, ho]; exact hw
        | some t' =>
          simp only [openW, ho]
          obtain ⟨hw', hmem'⟩ := openV_wf t path pg t' ho hwt
          exact (wfW_some _ _).mpr ⟨hw', pg.pid, rfl, hmem'⟩
    | closePage path idx =>
      cases root with
      | none =>
        show wfW (closeW ⟨none, active⟩ path idx).1
        simp only [closeW]
        exact hw
      | some t =>
        obtain ⟨hwt, p, hact, hmem⟩ := (wfW_some t active).mp hw
        obtain ⟨h1, h2, h3⟩ := closeV_wf t path idx hwt
        show wfW (closeW ⟨some t, active⟩ path idx).1
        cases hv : (closeV t path idx).view with
        | none =>
          simp only [closeW, hv]
          exact (wfW_none _).mpr rfl
        | some t' =>
          simp only [closeW, hv]
          cases hacts : (closeV t path idx).acts with
          | nil =>
            have hvt : (closeV t path idx).view = some t := h1 hacts
            rw [hv] at hvt
            have htt : t' = t := Option.some_inj.mp hvt
            subst htt
            simp only [hacts, List.isEmpty_nil, if_true]
            exact (wfW_some _ _).mpr ⟨h2 t' hv, p, hact, hmem⟩
          | cons x xs =>
            obtain ⟨q, hq1, hq2⟩ := h3 t' hv (by rw [hacts]; simp)
            rw [hacts] at hq1
            simp only [hacts, List.isEmpty_cons, if_false, Bool.false_eq_true]
            exact (wfW_some _ _).mpr ⟨h2 t' hv, q, hq1, hq2⟩
    | splitPage path idx o =>
      cases root with
      | none =>
        show wfW (splitW ⟨none, active⟩ path idx o)
        simp only [splitW]
        exact hw
      | some t =>
        obtain ⟨hwt, p, hact, hmem⟩ := (wfW_some t active).mp hw
        show wfW (splitW ⟨some t, active⟩ path idx o)
        cases hs : splitV t path idx o with
        | none => simp only [splitW, hs]; exact hw
        | some pr =>
          obtain ⟨t', p0⟩ := pr
          simp only [splitW, hs]
          obtain ⟨hw', hmem'⟩ := splitV_wf t path idx o t' p0 hs hwt
          exact (wfW_some _ _).mpr ⟨hw', p0, rfl, hmem'⟩

theorem countLeaves_eq_succ (t : CView) : countLeaves t = countInternals t + 1 := by
  induction t with
  | leaf ps c => rfl
  | split o a b iha ihb => simp [countLeaves, countInternals, iha, ihb]; omega

/-- C5: after any sequence of Open/Split/Close operations (Merge is the
internal step of Close), the workbench state is well-formed: every tab view
holds at least one page with its current index in range (so no empty leaf
survives a completed Close), exactly one page — a page of the tree — is
active whenever the tree is non-empty, and nothing is active when it is
empty; and the strict-binary-tree count law
`CountLeaves(tree) = CountInternalNodes(tree) + 1` holds (every internal node
has exactly two children by construction of `ContentSplitView`). -/
theorem contentview_tree_invariants (ops : List VOp) :
    wfW (vrun ops) ∧
    (∀ t, (vrun ops).root = some t → countLeaves t = countInternals t + 1) := by
  refine ⟨?_, fun t _ => countLeaves_eq_succ t⟩
  induction ops using List.reverseRecOn with
  | nil => exact (wfW_none none).mpr rfl
  | append_singleton ops op ih =>
    have : vrun (ops ++ [op]) = vstep (vrun ops) op := by
      simp [vrun, List.foldl_append]
    rw [this]
    exact wfW_vstep (vrun ops) op ih

/-- Witness for `contentview_tree_invariants` at a concrete operation
sequence: open two pages, split, then close one. -/
theorem contentview_tree_invariants_witness :
    (vrun [VOp.openPage ⟨0, true⟩ [], VOp.openPage ⟨1, true⟩ [],
        VOp.splitPage [] 1 false, VOp.closePage [false] 0]).root =
      some (.leaf [⟨1, true⟩] 0) ∧
    countLeaves (.leaf [⟨1, true⟩] 0) = countInternals (.leaf [⟨1, true⟩] 0) + 1 :=
  ⟨by decide,
   (contentview_tree_invariants [VOp.openPage ⟨0, true⟩ [], VOp.openPage ⟨1, true⟩ [],
        VOp.splitPage [] 1 false, VOp.closePage [false] 0]).2
      (.leaf [⟨1, true⟩] 0) (by decide)⟩

theorem replaceAt_self : ∀ (t : CView) (path : List Bool) (u : CView),
    viewAt t path = some u → replaceAt t path u = t := by
  intro t
  induction t with
  | leaf ps c =>
    intro path u hv
    cases path with
    | nil =>
      have h := Option.some_inj.mp hv
      rw [← h]
      rfl
    | cons d rest => simp [viewAt] at hv
  | split o a b iha ihb =>
    intro path u hv
    cases path with
    | nil =>
      have h := Option.some_inj.mp hv
      rw [← h]
      rfl
    | cons d rest =>
      cases d
      · simp only [viewAt] at hv
        simp only [replaceAt, iha rest u hv]
      · simp only [viewAt] at hv
        simp only [replaceAt, ihb rest u hv]

theorem splitV_at : ∀ (t : CView) (path : List Bool) (ps : List CPage) (c idx : Nat)
    (o : Bool) (pg : CPage),
    viewAt t path = some (.leaf ps c) → 2 ≤ ps.length → ps.get? idx = some pg →
    splitV t path idx o =
      some (replaceAt t path
        (.split o (.leaf (ps.eraseIdx idx) (removeAdjust c idx (ps.eraseIdx idx).length))
          (.leaf [pg] 0)), pg.pid) := by
  intro t
  induction t with
  | leaf ps0 c0 =>
    intro path ps c idx o pg hv hlen hget
    cases path with
    | nil =>
      simp only [viewAt, Option.some_inj, CView.leaf.injEq] at hv
      obtain ⟨h1, h2⟩ := hv
      subst h1; subst h2
      simp only [splitV, replaceAt]
      rw [if_neg (by omega), hget]
    | cons d rest => simp [viewAt] at hv
  | split o0 a b iha ihb =>
    intro path ps c idx o pg hv hlen hget
    cases path with
    | nil => simp [viewAt] at hv
    | cons d rest =>
      cases d
      · simp only [viewAt] at hv
        simp only [splitV, replaceAt, iha rest ps c idx o pg hv hlen hget,
          Option.map_some']
      · simp only [viewAt] at hv
        simp only [splitV, replaceAt, ihb rest ps c idx o pg hv hlen hget,
          Option.map_some']

theorem closeV_replaceAt : ∀ (t : CView) (path : List Bool) (u v v' : CView)
    (sub : List Bool) (idx : Int) (ok : Bool) (acts asked : List Nat),
    viewAt t path = some u → closeV v sub idx = ⟨some v', ok, acts, asked⟩ →
    closeV (replaceAt t path v) (path ++ sub) idx =
      ⟨some (replaceAt t path v'), ok, acts, asked⟩ := by
  intro t
  induction t with
  | leaf ps c =>
    intro path u v v' sub idx ok acts asked hv hc
    cases path with
    | nil => exact hc
    | cons d rest => simp [viewAt] at hv
  | split o a b iha ihb =>
    intro path u v v' sub idx ok acts asked hv hc
    cases path with
    | nil => exact hc
    | cons d rest =>
      cases d
      · simp only [viewAt] at hv
        have ih := iha rest u v v' sub idx ok acts asked hv hc
        simp only [replaceAt, List.cons_append, closeV]
        have ih2 : closeV (replaceAt a rest v) (rest.append sub) idx =
            ⟨some (replaceAt a rest v'), ok, acts, asked⟩ := ih
        rw [ih2]
      · simp only [viewAt] at hv
        have ih := ihb rest u v v' sub idx ok acts asked hv hc
        simp only [replaceAt, List.cons_append, closeV]
        have ih2 : closeV (replaceAt b rest v) (rest.append sub) idx =
            ⟨some (replaceAt b rest v'), ok, acts, asked⟩ := ih
        rw [ih2]

/-- C6 (counterexample): on a root tab view with pages [P0, P1] (P0 active),
`Split(P1, horizontal)` followed by the merge obtained by closing the single
page of the newly created view yields a tree with pages [P0] only — the split
page was closed and destroyed (src/contentpage.cpp:188-190), so the page set
does NOT equal the pre-split state. -/
theorem split_close_roundtrip_counterexample :
    (closeW (splitW ⟨some (.leaf [⟨0, true⟩, ⟨1, true⟩] 0), some 0⟩ [] 1 false)
        [true] 0).1 =
      ⟨some (.leaf [⟨0, true⟩] 0), some 0⟩ ∧
    (closeW (splitW ⟨some (.leaf [⟨0, true⟩, ⟨1, true⟩] 0), some 0⟩ [] 1 false)
        [true] 0).1 ≠ ⟨some (.leaf [⟨0, true⟩, ⟨1, true⟩] 0), some 0⟩ :=
  ⟨by decide, by decide⟩

/-- C6 (amended): for a leaf with more than one page, `Split(page, O)`
immediately followed by the merge obtained by closing the page of the newly
created leaf (its close-veto passing) restores the pre-split tree SHAPE with
the host leaf back in its original slot; the surviving pages are the
pre-split pages minus the split page, in their original order; the active
page is the host leaf's current page after the removal — which is exactly the
pre-split current page of the host leaf whenever the split page was not that
current page. -/
theorem split_then_close_merge (t : CView) (path : List Bool) (ps : List CPage)
    (c idx : Nat) (o : Bool) (act0 : Option Nat) (pg : CPage)
    (hv : viewAt t path = some (.leaf ps c))
    (hlen : 2 ≤ ps.length) (hc : c < ps.length)
    (hget : ps.get? idx = some pg) (hcan : pg.canClose = true) :
    ∃ pg' : CPage,
      (ps.eraseIdx idx).get? (removeAdjust c idx (ps.eraseIdx idx).length) = some pg' ∧
      replaceAt t path (.leaf ps c) = t ∧
      (closeW (splitW ⟨some t, act0⟩ path idx o) (path ++ [true]) 0).1 =
        ⟨some (replaceAt t path
            (.leaf (ps.eraseIdx idx) (removeAdjust c idx (ps.eraseIdx idx).length))),
          some pg'.pid⟩ ∧
      (idx ≠ c →
        (ps.eraseIdx idx).get? (removeAdjust c idx (ps.eraseIdx idx).length) =
          ps.get? c) := by
  have hidx : idx < ps.length := by
    by_contra hcon
    rw [List.get?_eq_none.mpr (by omega)] at hget
    exact absurd hget (by simp)
  have hlen' : (ps.eraseIdx idx).length = ps.length - 1 := by
    rw [List.length_eraseIdx, if_pos hidx]
  have hc'lt : removeAdjust c idx (ps.eraseIdx idx).length < (ps.eraseIdx idx).length :=
    removeAdjust_lt c idx (ps.eraseIdx idx).length (by omega) (by omega) (by omega)
  obtain ⟨pg', hg'⟩ := get?_of_lt _ _ hc'lt
  have hsv := splitV_at t path ps c idx o pg hv hlen hget
  have hw1 : splitW ⟨some t, act0⟩ path idx o =
      ⟨some (replaceAt t path
          (.split o (.leaf (ps.eraseIdx idx) (removeAdjust c idx (ps.eraseIdx idx).length))
            (.leaf [pg] 0))), some pg.pid⟩ := by
    simp only [splitW, hsv]
  have hinner : closeV (.leaf [pg] 0) [] 0 = ⟨none, true, [pg.pid], [pg.pid]⟩ := by
    simp only [closeV]
    rw [if_neg (by norm_num)]
    simp [hcan]
  have hll : leftLeafCur (.leaf (ps.eraseIdx idx)
      (removeAdjust c idx (ps.eraseIdx idx).length)) = some pg'.pid := by
    show ((ps.eraseIdx idx).get? (removeAdjust c idx (ps.eraseIdx idx).length)).map
      (fun p => p.pid) = some pg'.pid
    rw [hg']
    rfl
  have hS : closeV (.split o (.leaf (ps.eraseIdx idx)
        (removeAdjust c idx (ps.eraseIdx idx).length)) (.leaf [pg] 0)) [true] 0 =
      ⟨some (.leaf (ps.eraseIdx idx) (removeAdjust c idx (ps.eraseIdx idx).length)),
        true, [pg.pid, pg'.pid], [pg.pid]⟩ := by
    simp [closeV, hcan, hll]
  have hrepl := closeV_replaceAt t path (.leaf ps c)
    (.split o (.leaf (ps.eraseIdx idx) (removeAdjust c idx (ps.eraseIdx idx).length))
      (.leaf [pg] 0))
    (.leaf (ps.eraseIdx idx) (removeAdjust c idx (ps.eraseIdx idx).length))
    [true] 0 true [pg.pid, pg'.pid] [pg.pid] hv hS
  refine ⟨pg', hg', replaceAt_self t path _ hv, ?_, ?_⟩
  · rw [hw1]
    simp only [closeW, hrepl]
    rfl
  · intro hne
    rw [List.get?_eq_getElem?, List.get?_eq_getElem?]
    by_cases h1 : idx < c
    · simp only [removeAdjust]
      rw [if_pos h1, List.getElem?_eraseIdx, if_neg (by omega)]
      congr 1
      omega
    · simp only [removeAdjust]
      rw [if_neg h1, if_neg (by omega), List.getElem?_eraseIdx, if_pos (by omega)]

/-- Witness for `split_then_close_merge`: host leaf [P0, P1, P2] with P0
current, splitting off P1 then closing it. -/
theorem split_then_close_merge_witness :
    (closeW (splitW ⟨some (.leaf [⟨0, true⟩, ⟨1, true⟩, ⟨2, true⟩] 0), some 0⟩ [] 1 true)
        ([] ++ [true]) 0).1 =
      ⟨some (.leaf [⟨0, true⟩, ⟨2, true⟩] 0), some 0⟩ := by
  obtain ⟨pg', hg', _, hmain, _⟩ := split_then_close_merge
    (.leaf [⟨0, true⟩, ⟨1, true⟩, ⟨2, true⟩] 0) [] [⟨0, true⟩, ⟨1, true⟩, ⟨2, true⟩]
    0 1 true (some 0) ⟨1, true⟩ rfl (by decide) (by decide) (by decide) rfl
  have hpg : pg' = (⟨0, true⟩ : CPage) := by
    have h0 : (([⟨0, true⟩, ⟨1, true⟩, ⟨2, true⟩] : List CPage).eraseIdx 1).get?
        (removeAdjust 0 1
          (([⟨0, true⟩, ⟨1, true⟩, ⟨2, true⟩] : List CPage).eraseIdx 1).length) =
        some (⟨0, true⟩ : CPage) := by decide
    have h2 := h0.symm.trans hg'
    exact (Option.some_inj.mp h2).symm
  rw [hmain, hpg]
  rfl

end Content

namespace Actions

/-- A `nova::ActionGroup` (actionprovider.h / src/actionprovider.cpp:17-19):
the ordered (command, important) pairs, how many have been rendered
(`num_shown`), the two render cursors, the group's position in its provider
(`my_index`), and the owning provider (`nullptr` = unattached).  Commands are
identified by ids; ids and the group id are opaque. -/
structure AGroup where
  actions : List (Nat × Bool)
  numShown : Nat
  hasImportant : Bool
  importantShown : Bool
  myIndex : Int
  currentIndex : Int
  currentIndexImportant : Int
  provider : Option Nat
deriving Repr, DecidableEq

/-- `ActionGroup::ActionGroup` (src/actionprovider.cpp:17-19). -/
def emptyGroup : AGroup := ⟨[], 0, false, false, -1, -1, -1, none⟩

/-- The virtual display callbacks a provider emits
(`DisplayAction` / `DisplaySeparators`), tagged with the `my_index` of the
group whose `ShowAllRemaining` call emitted them. -/
inductive PEvent where
  | displayAction (byGroup : Nat) (action : Nat) (index : Int) (isImportant : Bool)
      (importantIndex : Int)
  | displaySeparators (byGroup : Nat) (showRegular : Bool) (indexRegular : Int)
      (showImportant : Bool) (indexImportant : Int)
deriving Repr, DecidableEq

/-- A `nova::ActionProvider`: its groups in attach order (world indices), the
two running totals `max_index` / `max_index_important`, and the emitted
display events. -/
structure Provider where
  attached : List Nat
  maxIndex : Nat
  maxIndexImportant : Nat
  events : List PEvent
deriving Repr, DecidableEq

def emptyProvider : Provider := ⟨[], 0, 0, []⟩

/-- The world: all groups ever created (indexed by creation order) and the
providers. -/
structure PWorld where
  groups : List AGroup
  providers : List Provider
deriving Repr, DecidableEq

/-- Result of the display loop of `ShowAllRemaining`
(src/actionprovider.cpp:66-81). -/
structure LoopRes where
  events : List PEvent
  ci : Int
  cii : Int
  impShown : Bool
  counter : Nat
  counterImp : Nat
deriving Repr, DecidableEq

/-- The `for (int i = num_shown; i < actions.count(); ++i)` loop of
`ShowAllRemaining`: emit one `DisplayAction` per remaining pair, advancing
`current_index` always and `current_index_important` for important pairs,
and flipping `important_action_shown` on the first important pair. -/
def showLoop (pos : Nat) : List (Nat × Bool) → Int → Int → Bool → LoopRes
  | [], ci, cii, impShown => ⟨[], ci, cii, impShown, 0, 0⟩
  | (a, imp) :: rest, ci, cii, impShown =>
    let r := showLoop pos rest (ci + 1) (if imp then cii + 1 else cii) (imp || impShown)
    ⟨PEvent.displayAction pos a ci imp (if imp then cii else -1) :: r.events,
      r.ci, r.cii, r.impShown, r.counter + 1, r.counterImp + (if imp then 1 else 0)⟩

/-- One step of the cursor-shift loop at the end of `ShowAllRemaining`
(src/actionprovider.cpp:87-91): shift the cached cursors of the group at
world index `j` by the number of commands just shown. -/
def shiftGroup (counter counterImp : Nat) (gs : List AGroup) (j : Nat) : List AGroup :=
  match gs.get? j with
  | some h => gs.set j { h with
      currentIndex := h.currentIndex + counter,
      currentIndexImportant := h.currentIndexImportant + counterImp }
  | none => gs

/-- `ActionGroup::ShowAllRemaining` (src/actionprovider.cpp:40-92): early
return on an empty group; separator bookkeeping for the regular and important
projections; the display loop; update of the provider's totals; and the shift
of the cached cursors of every group attached after this one. -/
def showAllRemaining (w : PWorld) (gIdx : Nat) : PWorld :=
  match w.groups.get? gIdx with
  | none => w
  | some g =>
    match g.provider with
    | none => w
    | some pIdx =>
      match w.providers.get? pIdx with
      | none => w
      | some pr =>
        if g.actions.isEmpty then w
        else
          let pos := g.myIndex.toNat
          let hasSepReg : Bool := g.numShown == 0 && g.currentIndex != 0
          let separator : Int := if hasSepReg then g.currentIndex else -1
          let ci1 : Int := if hasSepReg then g.currentIndex + 1 else g.currentIndex
          let maxIdx1 : Nat := if hasSepReg then pr.maxIndex + 1 else pr.maxIndex
          let hasSepImp : Bool :=
            g.hasImportant && !g.importantShown && g.currentIndexImportant != 0
          let separatorImp : Int := if hasSepImp then g.currentIndexImportant else -1
          let cii1 : Int :=
            if hasSepImp then g.currentIndexImportant + 1 else g.currentIndexImportant
          let maxImp1 : Nat :=
            if hasSepImp then pr.maxIndexImportant + 1 else pr.maxIndexImportant
          let sepEvents : List PEvent :=
            if separator != -1 || separatorImp != -1 then
              [.displaySeparators pos (separator != -1) separator
                (separatorImp != -1) separatorImp]
            else []
          let lr := showLoop pos (g.actions.drop g.numShown) ci1 cii1 g.importantShown
          let g' : AGroup := { g with
            numShown := g.numShown + lr.counter,
            currentIndex := lr.ci,
            currentIndexImportant := lr.cii,
            importantShown := lr.impShown }
          let pr' : Provider := { pr with
            maxIndex := maxIdx1 + lr.counter,
            maxIndexImportant := maxImp1 + lr.counterImp,
            events := pr.events ++ sepEvents ++ lr.events }
          let groups1 := w.groups.set gIdx g'
          let groups2 := (pr.attached.drop (pos + 1)).foldl
            (shiftGroup lr.counter lr.counterImp) groups1
          ⟨groups2, w.providers.set pIdx pr'⟩

/-- `ActionGroup::AddAction` (src/actionprovider.cpp:28-34): append the pair,
update `has_important_action`, and re-render when the group is attached. -/
def addAction (w : PWorld) (gIdx : Nat) (a : Nat) (imp : Bool) : PWorld :=
  match w.groups.get? gIdx with
  | none => w
  | some g =>
    let g' := { g with
      actions := g.actions ++ [(a, imp)],
      hasImportant := g.hasImportant || imp }
    let w1 : PWorld := ⟨w.groups.set gIdx g', w.providers⟩
    match g.provider with
    | some _ => showAllRemaining w1 gIdx
    | none => w1

/-- `ActionProvider::ShowActionGroup` (src/actionprovider.cpp:130-141):
return `nullptr` (here `false`) without any effect when the group already has
a provider; otherwise attach it at the end of the display order, seed its
cursors from the provider's running totals and delegate to
`ShowAllRemaining`. -/
def showActionGroup (w : PWorld) (pIdx gIdx : Nat) : PWorld × Bool :=
  match w.groups.get? gIdx, w.providers.get? pIdx with
  | some g, some pr =>
    if g.provider.isSome then (w, false)
    else
      let g' := { g with
        provider := some pIdx,
        myIndex := (pr.attached.length : Int),
        currentIndex := (pr.maxIndex : Int),
        currentIndexImportant := (pr.maxIndexImportant : Int) }
      let pr' := { pr with attached := pr.attached ++ [gIdx] }
      let w1 : PWorld := ⟨w.groups.set gIdx g', w.providers.set pIdx pr'⟩
      (showAllRemaining w1 gIdx, true)
  | _, _ => (w, false)

/-- `ActionGroup::ActionGroup()` called by client code: a fresh unattached
group. -/
def newGroup (w : PWorld) : PWorld := ⟨w.groups ++ [emptyGroup], w.providers⟩

/-- The client-visible operations on groups and providers. -/
inductive POp where
  | addGroup
  | addCmd (gIdx a : Nat) (imp : Bool)
  | showGroup (pIdx gIdx : Nat)
deriving Repr, DecidableEq

def pstep (w : PWorld) (op : POp) : PWorld :=
  match op with
  | .addGroup => newGroup w
  | .addCmd gIdx a imp => addAction w gIdx a imp
  | .showGroup pIdx gIdx => (showActionGroup w pIdx gIdx).1

def initWorld (nP : Nat) : PWorld := ⟨[], List.replicate nP emptyProvider⟩

/-- The world after a sequence of operations over `nP` providers. -/
def prun (nP : Nat) (ops : List POp) : PWorld := ops.foldl pstep (initWorld nP)

def evByGroup : PEvent → Nat
  | .displayAction b _ _ _ _ => b
  | .displaySeparators b _ _ _ _ => b

def isDisp : PEvent → Bool
  | .displayAction _ _ _ _ _ => true
  | _ => false

def isImpDisp : PEvent → Bool
  | .displayAction _ _ _ imp _ => imp
  | _ => false

def isSepReg : PEvent → Bool
  | .displaySeparators _ sr _ _ _ => sr
  | _ => false

def isSepImp : PEvent → Bool
  | .displaySeparators _ _ _ si _ => si
  | _ => false

def isDispBy (i : Nat) (e : PEvent) : Bool := isDisp e && evByGroup e == i
def isDispLt (i : Nat) (e : PEvent) : Bool := isDisp e && decide (evByGroup e < i)
def isImpDispBy (i : Nat) (e : PEvent) : Bool := isImpDisp e && evByGroup e == i
def isImpDispLt (i : Nat) (e : PEvent) : Bool := isImpDisp e && decide (evByGroup e < i)
def isSepRegBy (i : Nat) (e : PEvent) : Bool := isSepReg e && evByGroup e == i
def isSepRegLt (i : Nat) (e : PEvent) : Bool := isSepReg e && decide (evByGroup e < i)
def isSepImpBy (i : Nat) (e : PEvent) : Bool := isSepImp e && evByGroup e == i
def isSepImpLt (i : Nat) (e : PEvent) : Bool := isSepImp e && decide (evByGroup e < i)

/-- The command id carried by a display event. -/
def actIdOf? : PEvent → Option Nat
  | .displayAction _ a _ _ _ => some a
  | _ => none

/-- The regular position index carried by a display event. -/
def regIdxOf? : PEvent → Option Int
  | .displayAction _ _ idx _ _ => some idx
  | _ => none

/-- The important position index carried by an important display event. -/
def impIdxOf? : PEvent → Option Int
  | .displayAction _ _ _ imp ii => if imp then some ii else none
  | _ => none

/-- The (command id, important flag) carried by a display event. -/
def pairOf? : PEvent → Option (Nat × Bool)
  | .displayAction _ a _ imp _ => some (a, imp)
  | _ => none

/-- The prefix of a trace before group `i` first displays a command. -/
def pre (i : Nat) (tr : List PEvent) : List PEvent :=
  tr.takeWhile (fun e => !(isDispBy i e))

/-- The prefix of a trace before group `i` first displays an important
command. -/
def preImp (i : Nat) (tr : List PEvent) : List PEvent :=
  tr.takeWhile (fun e => !(isImpDispBy i e))

/-- `n` consecutive integer indices starting at `ci`. -/
def consecFrom (ci : Int) : Nat → List Int
  | 0 => []
  | n + 1 => ci :: consecFrom (ci + 1) n

theorem consecFrom_succ (ci : Int) (n : Nat) :
    consecFrom ci (n + 1) = ci :: consecFrom (ci + 1) n := rfl

theorem consecFrom_mem (x : Int) : ∀ (n : Nat) (ci : Int),
    x ∈ consecFrom ci n → ci ≤ x := by
  intro n
  induction n with
  | zero => intro ci h; simp [consecFrom] at h
  | succ m ih =>
    intro ci h
    rw [consecFrom_succ, List.mem_cons] at h
    cases h with
    | inl h => omega
    | inr h => have := ih (ci + 1) h; omega

theorem consecFrom_pairwise (ci : Int) (n : Nat) :
    (consecFrom ci n).Pairwise (· < ·) := by
  induction n generalizing ci with
  | zero => exact List.Pairwise.nil
  | succ m ih =>
    rw [consecFrom_succ]
    refine List.Pairwise.cons ?_ (ih (ci + 1))
    intro x hx
    have := consecFrom_mem x m (ci + 1) hx
    omega

/-- Full characterization of the display loop of `ShowAllRemaining`. -/
theorem showLoop_spec (pos : Nat) : ∀ (l : List (Nat × Bool)) (ci cii : Int) (b : Bool),
    (showLoop pos l ci cii b).counter = l.length ∧
    (showLoop pos l ci cii b).counterImp = l.countP (fun p => p.2) ∧
    (showLoop pos l ci cii b).ci = ci + l.length ∧
    (showLoop pos l ci cii b).cii = cii + l.countP (fun p => p.2) ∧
    (showLoop pos l ci cii b).impShown = (b || l.any (fun p => p.2)) ∧
    ((showLoop pos l ci cii b).events.filterMap pairOf? = l) ∧
    ((showLoop pos l ci cii b).events.filterMap regIdxOf? = consecFrom ci l.length) ∧
    ((showLoop pos l ci cii b).events.filterMap impIdxOf? =
      consecFrom cii (l.countP (fun p => p.2))) ∧
    (∀ e ∈ (showLoop pos l ci cii b).events, isDisp e = true ∧ evByGroup e = pos) ∧
    ((showLoop pos l ci cii b).events.countP (fun e => isImpDisp e) =
      l.countP (fun p => p.2)) ∧
    ((showLoop pos l ci cii b).events.countP (fun e => isDisp e) = l.length) := by
  intro l
  induction l with
  | nil =>
    intro ci cii b
    simp [showLoop, consecFrom]
  | cons hd rest ih =>
    intro ci cii b
    obtain ⟨a, imp⟩ := hd
    cases imp
    · obtain ⟨ih1, ih2, ih3, ih4, ih5, ih6, ih7, ih8, ih9, ih10, ih11⟩ :=
        ih (ci + 1) cii b
      simp only [showLoop, reduceIte, Bool.false_or]
      refine ⟨?_, ?_, ?_, ?_, ?_, ?_, ?_, ?_, ?_, ?_, ?_⟩
      · simp [ih1]
      · simp [ih2]
      · simp only [ih3, List.length_cons]; push_cast; omega
      · simp [ih4]
      · simp [ih5]
      · simp [List.filterMap_cons, pairOf?, ih6]
      · simp [List.filterMap_cons, regIdxOf?, ih7, consecFrom_succ]
      · simp only [List.filterMap_cons, impIdxOf?, List.countP_cons]
        simpa using ih8
      · intro e he
        rw [List.mem_cons] at he
        cases he with
        | inl h => subst h; exact ⟨rfl, rfl⟩
        | inr h => exact ih9 e h
      · rw [show (if false = true then cii + 1 else cii) = cii from rfl]
        simp only [List.countP_cons]
        rw [ih10]
        simp [isImpDisp]
      · rw [show (if false = true then cii + 1 else cii) = cii from rfl]
        simp only [List.countP_cons]
        rw [ih11]
        simp [isDisp]
    · obtain ⟨ih1, ih2, ih3, ih4, ih5, ih6, ih7, ih8, ih9, ih10, ih11⟩ :=
        ih (ci + 1) (cii + 1) true
      simp only [showLoop, reduceIte, Bool.true_or]
      refine ⟨?_, ?_, ?_, ?_, ?_, ?_, ?_, ?_, ?_, ?_, ?_⟩
      · simp [ih1]
      · simp [ih2]
      · simp only [ih3, List.length_cons]; push_cast; omega
      · simp only [ih4, List.countP_cons]
        simp
        push_cast
        omega
      · simp [ih5]
      · simp [List.filterMap_cons, pairOf?, ih6]
      · simp [List.filterMap_cons, regIdxOf?, ih7, consecFrom_succ]
      · simp only [List.filterMap_cons, impIdxOf?, reduceIte, List.countP_cons]
        simp [consecFrom_succ, ih8]
      · intro e he
        rw [List.mem_cons] at he
        cases he with
        | inl h => subst h; exact ⟨rfl, rfl⟩
        | inr h => exact ih9 e h
      · simp only [List.countP_cons]
        rw [ih10]
        simp [isImpDisp]
      · simp only [List.countP_cons]
        rw [ih11]
        simp [isDisp]

/-- C8: `ShowActionGroup` on a group that already has a provider returns
`nullptr` without any effect — no notification is emitted, the group keeps its
original provider and no provider state changes (the early return at
src/actionprovider.cpp:131); on a not-yet-attached group it appends the group
at the end of the provider's display order, seeds the group's cursors from
the provider's running totals, and then runs `ShowAllRemaining`. -/
theorem showActionGroup_spec (w : PWorld) (pIdx gIdx : Nat) (g : AGroup) (pr : Provider)
    (hg : w.groups.get? gIdx = some g) (hpr : w.providers.get? pIdx = some pr) :
    (g.provider.isSome = true → showActionGroup w pIdx gIdx = (w, false)) ∧
    (g.provider = none →
      showActionGroup w pIdx gIdx =
        (showAllRemaining
          ⟨w.groups.set gIdx { g with
              provider := some pIdx,
              myIndex := (pr.attached.length : Int),
              currentIndex := (pr.maxIndex : Int),
              currentIndexImportant := (pr.maxIndexImportant : Int) },
            w.providers.set pIdx { pr with attached := pr.attached ++ [gIdx] }⟩ gIdx,
          true)) := by
  constructor
  · intro h
    simp only [showActionGroup, hg, hpr, h, if_pos]
  · intro h
    simp only [showActionGroup, hg, hpr, h, Option.isSome_none, Bool.false_eq_true,
      if_neg, if_false]

/-- Witness for `showActionGroup_spec`: re-attaching an attached group is a
no-op. -/
theorem showActionGroup_spec_witness :
    showActionGroup
      ⟨[⟨[(5, false)], 1, false, false, 0, 1, 0, some 0⟩], [⟨[0], 1, 0, []⟩]⟩ 0 0 =
      (⟨[⟨[(5, false)], 1, false, false, 0, 1, 0, some 0⟩], [⟨[0], 1, 0, []⟩]⟩, false) :=
  (showActionGroup_spec
    ⟨[⟨[(5, false)], 1, false, false, 0, 1, 0, some 0⟩], [⟨[0], 1, 0, []⟩]⟩ 0 0
    ⟨[(5, false)], 1, false, false, 0, 1, 0, some 0⟩ ⟨[0], 1, 0, []⟩ rfl rfl).1 rfl

theorem takeWhile_append_all {α : Type} (p : α → Bool) (l1 l2 : List α)
    (h : ∀ x ∈ l1, p x = true) :
    (l1 ++ l2).takeWhile p = l1 ++ l2.takeWhile p := by
  induction l1 with
  | nil => simp
  | cons a rest ih =>
    have ha := h a (by simp)
    simp only [List.cons_append, List.takeWhile_cons, ha, if_pos]
    rw [ih (fun x hx => h x (by simp [hx]))]

theorem takeWhile_append_stop {α : Type} (p : α → Bool) (l1 l2 : List α)
    (h : ∃ x ∈ l1, p x = false) :
    (l1 ++ l2).takeWhile p = l1.takeWhile p := by
  induction l1 with
  | nil => simp at h
  | cons a rest ih =>
    by_cases ha : p a = true
    · have : ∃ x ∈ rest, p x = false := by
        obtain ⟨x, hx, hpx⟩ := h
        rw [List.mem_cons] at hx
        cases hx with
        | inl he => subst he; rw [ha] at hpx; simp at hpx
        | inr hm => exact ⟨x, hm, hpx⟩
      simp only [List.cons_append, List.takeWhile_cons, ha, if_pos]
      rw [ih this]
    · have ha2 : p a = false := by
        cases hv : p a
        · rfl
        · exact absurd hv ha
      simp only [List.cons_append, List.takeWhile_cons, ha2]
      simp

theorem foldl_shift_get_notmem (c cI : Nat) : ∀ (idxs : List Nat) (gs : List AGroup)
    (j : Nat), j ∉ idxs →
    (idxs.foldl (shiftGroup c cI) gs).get? j = gs.get? j := by
  intro idxs
  induction idxs with
  | nil => intro gs j _; rfl
  | cons a rest ih =>
    intro gs j hj
    rw [List.mem_cons] at hj
    push_neg at hj
    simp only [List.foldl_cons]
    rw [ih (shiftGroup c cI gs a) j hj.2]
    unfold shiftGroup
    cases hga : gs.get? a with
    | none => rfl
    | some h => exact List.get?_set_ne _ _ (fun he => hj.1 he.symm)

theorem foldl_shift_get_mem (c cI : Nat) : ∀ (idxs : List Nat) (gs : List AGroup)
    (j : Nat) (g : AGroup), idxs.Nodup → j ∈ idxs → gs.get? j = some g →
    (idxs.foldl (shiftGroup c cI) gs).get? j =
      some { g with
        currentIndex := g.currentIndex + c,
        currentIndexImportant := g.currentIndexImportant + cI } := by
  intro idxs
  induction idxs with
  | nil => intro gs j g _ hj; simp at hj
  | cons a rest ih =>
    intro gs j g hnd hj hg
    rw [List.mem_cons] at hj
    simp only [List.foldl_cons]
    rw [List.nodup_cons] at hnd
    cases hj with
    | inl he =>
      subst he
      rw [foldl_shift_get_notmem c cI rest _ j hnd.1]
      unfold shiftGroup
      rw [hg]
      obtain ⟨hlt, _⟩ := List.get?_eq_some.mp hg
      exact List.get?_set_eq_of_lt _ hlt
    | inr hm =>
      have hne : j ≠ a := fun he => hnd.1 (he ▸ hm)
      refine ih (shiftGroup c cI gs a) j g hnd.2 hm ?_
      unfold shiftGroup
      cases hga : gs.get? a with
      | none => exact hg
      | some h2 =>
        rw [List.get?_set_ne _ _ (fun he => hne he.symm)]
        exact hg

theorem foldl_shift_length (c cI : Nat) : ∀ (idxs : List Nat) (gs : List AGroup),
    (idxs.foldl (shiftGroup c cI) gs).length = gs.length := by
  intro idxs
  induction idxs with
  | nil => intro gs; rfl
  | cons a rest ih =>
    intro gs
    simp only [List.foldl_cons]
    rw [ih]
    unfold shiftGroup
    cases gs.get? a with
    | none => rfl
    | some h => exact List.length_set _ _ _

theorem length_filterMap_pairOf (l : List PEvent) (h : ∀ e ∈ l, (pairOf? e).isSome) :
    (l.filterMap pairOf?).length = l.length := by
  induction l with
  | nil => rfl
  | cons e rest ih =>
    have he := h e (by simp)
    cases hp : pairOf? e with
    | none => rw [hp] at he; simp at he
    | some pair =>
      simp only [List.filterMap_cons, hp, List.length_cons]
      rw [ih (fun x hx => h x (by simp [hx]))]

theorem isDisp_shape (e : PEvent) (h : isDisp e = true) :
    ∃ b a i imp ii, e = .displayAction b a i imp ii := by
  cases e with
  | displayAction b a i imp ii => exact ⟨b, a, i, imp, ii, rfl⟩
  | displaySeparators _ _ _ _ _ => simp [isDisp] at h

theorem isImpDisp_isDisp (e : PEvent) (h : isImpDisp e = true) : isDisp e = true := by
  cases e with
  | displayAction _ _ _ _ _ => rfl
  | displaySeparators _ _ _ _ _ => simp [isImpDisp] at h

theorem any_iff_countP_pos {α : Type} (p : α → Bool) (l : List α) :
    l.any p = true ↔ 0 < l.countP p := by
  rw [List.any_eq_true, List.countP_pos]

theorem countP_zero_iff {α : Type} (p : α → Bool) (l : List α) :
    l.countP p = 0 ↔ ∀ a ∈ l, ¬(p a = true) := List.countP_eq_zero

theorem takeWhile_all {α : Type} (p : α → Bool) (l : List α)
    (h : ∀ x ∈ l, p x = true) : l.takeWhile p = l := by
  induction l with
  | nil => rfl
  | cons a rest ih =>
    simp only [List.takeWhile_cons, h a (by simp), if_pos]
    rw [ih (fun x hx => h x (by simp [hx]))]

theorem countP_dispBy_tagged (pos k : Nat) (l : List PEvent)
    (h : ∀ e ∈ l, isDisp e = true ∧ evByGroup e = pos) (hk : k ≠ pos) :
    l.countP (fun e => isDispBy k e) = 0 := by
  rw [countP_zero_iff]
  intro e he
  obtain ⟨h1, h2⟩ := h e he
  simp [isDispBy, h2]
  exact fun _ hpk => hk hpk.symm

theorem countP_dispBy_tagged_self (pos : Nat) (l : List PEvent)
    (h : ∀ e ∈ l, isDisp e = true ∧ evByGroup e = pos) :
    l.countP (fun e => isDispBy pos e) = l.length := by
  rw [List.countP_eq_length]
  intro e he
  obtain ⟨h1, h2⟩ := h e he
  simp [isDispBy, h1, h2]

theorem filter_dispBy_tagged_self (pos : Nat) (l : List PEvent)
    (h : ∀ e ∈ l, isDisp e = true ∧ evByGroup e = pos) :
    l.filter (fun e => isDispBy pos e) = l := by
  rw [List.filter_eq_self]
  intro e he
  obtain ⟨h1, h2⟩ := h e he
  simp [isDispBy, h1, h2]

theorem filter_dispBy_tagged_ne (pos k : Nat) (l : List PEvent)
    (h : ∀ e ∈ l, isDisp e = true ∧ evByGroup e = pos) (hk : k ≠ pos) :
    l.filter (fun e => isDispBy k e) = [] := by
  rw [List.filter_eq_nil]
  intro e he
  obtain ⟨h1, h2⟩ := h e he
  simp [isDispBy, h2]
  exact fun _ hpk => hk hpk.symm

theorem countP_dispLt_tagged (pos k : Nat) (l : List PEvent)
    (h : ∀ e ∈ l, isDisp e = true ∧ evByGroup e = pos) :
    l.countP (fun e => isDispLt k e) = if pos < k then l.length else 0 := by
  by_cases hpk : pos < k
  · rw [if_pos hpk, List.countP_eq_length]
    intro e he
    obtain ⟨h1, h2⟩ := h e he
    simp [isDispLt, h1, h2, hpk]
  · rw [if_neg hpk, countP_zero_iff]
    intro e he
    obtain ⟨h1, h2⟩ := h e he
    simp [isDispLt, h2, hpk]

theorem countP_impDispLt_tagged (pos k : Nat) (l : List PEvent)
    (h : ∀ e ∈ l, isDisp e = true ∧ evByGroup e = pos) :
    l.countP (fun e => isImpDispLt k e) =
      if pos < k then l.countP (fun e => isImpDisp e) else 0 := by
  by_cases hpk : pos < k
  · rw [if_pos hpk]
    apply List.countP_congr
    intro e he
    obtain ⟨h1, h2⟩ := h e he
    simp [isImpDispLt, h2, hpk]
  · rw [if_neg hpk, countP_zero_iff]
    intro e he
    obtain ⟨h1, h2⟩ := h e he
    simp [isImpDispLt, h2, hpk]

theorem countP_impDispBy_tagged_self (pos : Nat) (l : List PEvent)
    (h : ∀ e ∈ l, isDisp e = true ∧ evByGroup e = pos) :
    l.countP (fun e => isImpDispBy pos e) = l.countP (fun e => isImpDisp e) := by
  apply List.countP_congr
  intro e he
  obtain ⟨h1, h2⟩ := h e he
  simp [isImpDispBy, h2]

theorem countP_impDispBy_tagged_ne (pos k : Nat) (l : List PEvent)
    (h : ∀ e ∈ l, isDisp e = true ∧ evByGroup e = pos) (hk : k ≠ pos) :
    l.countP (fun e => isImpDispBy k e) = 0 := by
  rw [countP_zero_iff]
  intro e he
  obtain ⟨h1, h2⟩ := h e he
  simp [isImpDispBy, h2]
  intro himp
  exact fun hpk => hk hpk.symm

theorem countP_sep_tagged (l : List PEvent)
    (h : ∀ e ∈ l, isDisp e = true) :
    (∀ k, l.countP (fun e => isSepRegBy k e) = 0) ∧
    (∀ k, l.countP (fun e => isSepRegLt k e) = 0) ∧
    (∀ k, l.countP (fun e => isSepImpBy k e) = 0) ∧
    (∀ k, l.countP (fun e => isSepImpLt k e) = 0) ∧
    l.countP (fun e => isSepReg e) = 0 ∧
    l.countP (fun e => isSepImp e) = 0 := by
  have hshape : ∀ e ∈ l, isSepReg e = false ∧ isSepImp e = false := by
    intro e he
    obtain ⟨b, a, i, imp, ii, rfl⟩ := isDisp_shape e (h e he)
    exact ⟨rfl, rfl⟩
  refine ⟨?_, ?_, ?_, ?_, ?_, ?_⟩ <;>
    first
    | (intro k
       rw [countP_zero_iff]
       intro e he
       obtain ⟨h1, h2⟩ := hshape e he
       simp [isSepRegBy, isSepRegLt, isSepImpBy, isSepImpLt, h1, h2])
    | (rw [countP_zero_iff]
       intro e he
       obtain ⟨h1, h2⟩ := hshape e he
       simp [h1, h2])

theorem isDispBy_isDisp (pos : Nat) (e : PEvent) (h : isDispBy pos e = true) :
    isDisp e = true := by
  rw [isDispBy, Bool.and_eq_true] at h
  exact h.1

theorem impDispBy_dispBy (pos : Nat) (e : PEvent) (h : isImpDispBy pos e = true) :
    isDispBy pos e = true := by
  rw [isImpDispBy, Bool.and_eq_true] at h
  rw [isDispBy, Bool.and_eq_true]
  exact ⟨isImpDisp_isDisp e h.1, h.2⟩

theorem pair_any_imp (pos : Nat) : ∀ (tr : List PEvent),
    ((tr.filter (fun e => isDispBy pos e)).filterMap pairOf?).any (fun p => p.2) =
      tr.any (fun e => isImpDispBy pos e) := by
  intro tr
  induction tr with
  | nil => rfl
  | cons e rest ih =>
    cases hd : isDispBy pos e with
    | true =>
      obtain ⟨b, a, i, imp, ii, rfl⟩ := isDisp_shape e (isDispBy_isDisp pos e hd)
      have hb : b = pos := by
        rw [isDispBy, Bool.and_eq_true, beq_iff_eq] at hd
        exact hd.2
      subst hb
      simp only [List.filter_cons, hd, if_pos, List.filterMap_cons, pairOf?,
        List.any_cons, ih]
      simp [isImpDispBy, isImpDisp, evByGroup]
    | false =>
      have hnimp : isImpDispBy pos e = false := by
        cases hv : isImpDispBy pos e
        · rfl
        · rw [impDispBy_dispBy pos e hv] at hd; exact hd
      simp only [List.filter_cons, hd, List.any_cons, hnimp, Bool.false_or,
        Bool.false_eq_true, if_false, ih]

theorem countP_dispBy_filterMap_len (pos : Nat) (tr : List PEvent) :
    tr.countP (fun e => isDispBy pos e) =
      ((tr.filter (fun e => isDispBy pos e)).filterMap pairOf?).length := by
  rw [List.countP_eq_length_filter, length_filterMap_pairOf]
  intro e he
  rw [List.mem_filter] at he
  obtain ⟨b, a, i, imp, ii, rfl⟩ := isDisp_shape e (isDispBy_isDisp pos e he.2)
  simp [pairOf?]

theorem countP_disp_partition (n : Nat) : ∀ (tr : List PEvent),
    (∀ e ∈ tr, evByGroup e < n) →
    tr.countP (fun e => isDisp e) =
      ∑ i ∈ Finset.range n, tr.countP (fun e => isDispBy i e) := by
  intro tr
  induction tr with
  | nil => intro _; simp
  | cons e rest ih =>
    intro h
    have hrest := ih (fun x hx => h x (by simp [hx]))
    simp only [List.countP_cons]
    rw [hrest, Finset.sum_add_distrib]
    congr 1
    cases hd : isDisp e with
    | false =>
      have : ∀ i, isDispBy i e = false := by
        intro i
        cases hv : isDispBy i e
        · rfl
        · rw [isDispBy_isDisp i e hv] at hd; exact hd
      simp [this]
    | true =>
      have hby : evByGroup e < n := h e (by simp)
      have heval : ∀ i, (if isDispBy i e = true then 1 else 0) =
          if evByGroup e = i then 1 else 0 := by
        intro i
        rw [isDispBy, hd]
        by_cases hi : evByGroup e = i
        · simp [hi]
        · simp [hi]
      rw [Finset.sum_congr rfl (fun i _ => heval i)]
      rw [Finset.sum_ite_eq (Finset.range n) (evByGroup e) (fun _ => 1)]
      simp [Finset.mem_range.mpr hby]

/-- The provider/group bookkeeping invariant (everything except the
"attached groups are fully rendered" law, which is temporarily broken in the
middle of `AddAction`).  The trace-related fields are exactly the separator
and counting laws claimed by the specification. -/
structure WCore (w : PWorld) : Prop where
  unat : ∀ gIdx g, w.groups.get? gIdx = some g → g.provider = none →
    g.numShown = 0 ∧ g.myIndex = -1 ∧ g.currentIndex = -1 ∧
    g.currentIndexImportant = -1 ∧ g.importantShown = false
  himp : ∀ gIdx g, w.groups.get? gIdx = some g →
    g.hasImportant = g.actions.any (fun p => p.2)
  nsle : ∀ gIdx g, w.groups.get? gIdx = some g → g.numShown ≤ g.actions.length
  attOf : ∀ gIdx g pIdx, w.groups.get? gIdx = some g → g.provider = some pIdx →
    ∃ pr, w.providers.get? pIdx = some pr ∧ 0 ≤ g.myIndex ∧
      pr.attached.get? g.myIndex.toNat = some gIdx
  attIdx : ∀ pIdx pr i gIdx, w.providers.get? pIdx = some pr →
    pr.attached.get? i = some gIdx →
    ∃ g, w.groups.get? gIdx = some g ∧ g.provider = some pIdx ∧ g.myIndex = (i : Int)
  attNd : ∀ pIdx pr, w.providers.get? pIdx = some pr → pr.attached.Nodup
  byLt : ∀ pIdx pr e, w.providers.get? pIdx = some pr → e ∈ pr.events →
    evByGroup e < pr.attached.length
  ctrs : ∀ pIdx pr, w.providers.get? pIdx = some pr →
    pr.maxIndex = pr.events.countP (fun e => isDisp e) +
      pr.events.countP (fun e => isSepReg e) ∧
    pr.maxIndexImportant = pr.events.countP (fun e => isImpDisp e) +
      pr.events.countP (fun e => isSepImp e)
  pairs : ∀ pIdx pr i gIdx g, w.providers.get? pIdx = some pr →
    pr.attached.get? i = some gIdx → w.groups.get? gIdx = some g →
    (pr.events.filter (fun e => isDispBy i e)).filterMap pairOf? =
      g.actions.take g.numShown
  impSh : ∀ pIdx pr i gIdx g, w.providers.get? pIdx = some pr →
    pr.attached.get? i = some gIdx → w.groups.get? gIdx = some g →
    g.importantShown = pr.events.any (fun e => isImpDispBy i e)
  curR : ∀ pIdx pr i gIdx g, w.providers.get? pIdx = some pr →
    pr.attached.get? i = some gIdx → w.groups.get? gIdx = some g →
    g.numShown = 0 →
    (pr.events.countP (fun e => isDispLt i e) : Int) ≤ g.currentIndex ∧
    g.currentIndex ≤ (pr.events.countP (fun e => isDispLt i e) : Int) +
      pr.events.countP (fun e => isSepRegLt i e)
  curI : ∀ pIdx pr i gIdx g, w.providers.get? pIdx = some pr →
    pr.attached.get? i = some gIdx → w.groups.get? gIdx = some g →
    g.importantShown = false →
    (pr.events.countP (fun e => isImpDispLt i e) : Int) ≤ g.currentIndexImportant ∧
    g.currentIndexImportant ≤ (pr.events.countP (fun e => isImpDispLt i e) : Int) +
      pr.events.countP (fun e => isSepImpLt i e)
  sepRC : ∀ pIdx pr i, w.providers.get? pIdx = some pr →
    pr.events.countP (fun e => isSepRegBy i e) ≤ 1
  sepRP : ∀ pIdx pr i, w.providers.get? pIdx = some pr →
    pr.events.countP (fun e => isSepRegBy i e) =
      (pre i pr.events).countP (fun e => isSepRegBy i e)
  sepRIff : ∀ pIdx pr i, w.providers.get? pIdx = some pr →
    (pr.events.countP (fun e => isSepRegBy i e) = 1 ↔
      (pr.events.any (fun e => isDispBy i e) = true ∧
        (pre i pr.events).any (fun e => isDispLt i e) = true))
  sepIC : ∀ pIdx pr i, w.providers.get? pIdx = some pr →
    pr.events.countP (fun e => isSepImpBy i e) ≤ 1
  sepIP : ∀ pIdx pr i, w.providers.get? pIdx = some pr →
    pr.events.countP (fun e => isSepImpBy i e) =
      (preImp i pr.events).countP (fun e => isSepImpBy i e)
  sepIIff : ∀ pIdx pr i, w.providers.get? pIdx = some pr →
    (pr.events.countP (fun e => isSepImpBy i e) = 1 ↔
      (pr.events.any (fun e => isImpDispBy i e) = true ∧
        (preImp i pr.events).any (fun e => isImpDispLt i e) = true))
  sepINone : ∀ pIdx pr i gIdx g, w.providers.get? pIdx = some pr →
    pr.attached.get? i = some gIdx → w.groups.get? gIdx = some g →
    g.importantShown = false →
    pr.events.countP (fun e => isSepImpBy i e) = 0

/-- The full invariant: the core plus "attached groups are fully rendered". -/
def WInv (w : PWorld) : Prop :=
  WCore w ∧
  ∀ gIdx g, w.groups.get? gIdx = some g → g.provider.isSome = true →
    g.numShown = g.actions.length

/-- `(num_shown == 0) && (current_index != 0)` — the regular-separator test. -/
def hasSepRegF (g : AGroup) : Bool := g.numShown == 0 && g.currentIndex != 0

/-- The important-separator test of `ShowAllRemaining`. -/
def hasSepImpF (g : AGroup) : Bool :=
  g.hasImportant && !g.importantShown && g.currentIndexImportant != 0

def separatorF (g : AGroup) : Int := if hasSepRegF g then g.currentIndex else -1

def separatorImpF (g : AGroup) : Int :=
  if hasSepImpF g then g.currentIndexImportant else -1

def ci1F (g : AGroup) : Int :=
  if hasSepRegF g then g.currentIndex + 1 else g.currentIndex

def cii1F (g : AGroup) : Int :=
  if hasSepImpF g then g.currentIndexImportant + 1 else g.currentIndexImportant

def sepEventsF (g : AGroup) : List PEvent :=
  if separatorF g != -1 || separatorImpF g != -1 then
    [.displaySeparators g.myIndex.toNat (separatorF g != -1) (separatorF g)
      (separatorImpF g != -1) (separatorImpF g)]
  else []

def loopF (g : AGroup) : LoopRes :=
  showLoop g.myIndex.toNat (g.actions.drop g.numShown) (ci1F g) (cii1F g)
    g.importantShown

def gAfter (g : AGroup) : AGroup :=
  { g with
    numShown := g.numShown + (loopF g).counter,
    currentIndex := (loopF g).ci,
    currentIndexImportant := (loopF g).cii,
    importantShown := (loopF g).impShown }

def prAfter (g : AGroup) (pr : Provider) : Provider :=
  { pr with
    maxIndex := (if hasSepRegF g then pr.maxIndex + 1 else pr.maxIndex) + (loopF g).counter,
    maxIndexImportant :=
      (if hasSepImpF g then pr.maxIndexImportant + 1 else pr.maxIndexImportant) +
        (loopF g).counterImp,
    events := pr.events ++ sepEventsF g ++ (loopF g).events }

theorem showAllRemaining_eq (w : PWorld) (gIdx : Nat) (g : AGroup) (pIdx : Nat)
    (pr : Provider) (hg : w.groups.get? gIdx = some g) (hprov : g.provider = some pIdx)
    (hpr : w.providers.get? pIdx = some pr) (hne : g.actions.isEmpty = false) :
    showAllRemaining w gIdx =
      ⟨(pr.attached.drop (g.myIndex.toNat + 1)).foldl
          (shiftGroup (loopF g).counter (loopF g).counterImp)
          (w.groups.set gIdx (gAfter g)),
        w.providers.set pIdx (prAfter g pr)⟩ := by
  simp only [showAllRemaining, hg, hprov, hpr, hne, Bool.false_eq_true, if_false]
  unfold gAfter prAfter
  unfold sepEventsF loopF
  unfold separatorF separatorImpF ci1F cii1F
  unfold hasSepRegF hasSepImpF
  rw [hprov]

theorem showAllRemaining_empty (w : PWorld) (gIdx : Nat) (g : AGroup)
    (hg : w.groups.get? gIdx = some g) (hne : g.actions.isEmpty = true) :
    showAllRemaining w gIdx = w := by
  simp only [showAllRemaining, hg]
  cases hprov : g.provider with
  | none => rfl
  | some pIdx =>
    simp only []
    cases hpr : w.providers.get? pIdx with
    | none => rfl
    | some pr => simp [hne]

theorem sepEventsF_cases (g : AGroup)
    (hflagR : (separatorF g != -1) = hasSepRegF g)
    (hflagI : (separatorImpF g != -1) = hasSepImpF g) :
    sepEventsF g =
      if hasSepRegF g || hasSepImpF g then
        [.displaySeparators g.myIndex.toNat (hasSepRegF g) (separatorF g)
          (hasSepImpF g) (separatorImpF g)]
      else [] := by
  rw [sepEventsF, hflagR, hflagI]

theorem sepEvents_counts (g : AGroup) (pos : Nat) (hpos : g.myIndex = (pos : Int))
    (hflagR : (separatorF g != -1) = hasSepRegF g)
    (hflagI : (separatorImpF g != -1) = hasSepImpF g) :
    ((sepEventsF g).countP (fun e => isSepRegBy pos e) =
      (if hasSepRegF g = true then 1 else 0)) ∧
    (∀ k, k ≠ pos → (sepEventsF g).countP (fun e => isSepRegBy k e) = 0) ∧
    (∀ k, (sepEventsF g).countP (fun e => isSepRegLt k e) =
      (if hasSepRegF g = true ∧ pos < k then 1 else 0)) ∧
    ((sepEventsF g).countP (fun e => isSepImpBy pos e) =
      (if hasSepImpF g = true then 1 else 0)) ∧
    (∀ k, k ≠ pos → (sepEventsF g).countP (fun e => isSepImpBy k e) = 0) ∧
    (∀ k, (sepEventsF g).countP (fun e => isSepImpLt k e) =
      (if hasSepImpF g = true ∧ pos < k then 1 else 0)) ∧
    ((sepEventsF g).countP (fun e => isSepReg e) =
      (if hasSepRegF g = true then 1 else 0)) ∧
    ((sepEventsF g).countP (fun e => isSepImp e) =
      (if hasSepImpF g = true then 1 else 0)) ∧
    (∀ e ∈ sepEventsF g, evByGroup e = pos) ∧
    ((sepEventsF g).countP (fun e => isDisp e) = 0) ∧
    ((sepEventsF g).countP (fun e => isImpDisp e) = 0) ∧
    (∀ k, (sepEventsF g).countP (fun e => isDispBy k e) = 0) ∧
    (∀ k, (sepEventsF g).countP (fun e => isDispLt k e) = 0) ∧
    (∀ k, (sepEventsF g).countP (fun e => isImpDispLt k e) = 0) ∧
    (∀ k, (sepEventsF g).countP (fun e => isImpDispBy k e) = 0) ∧
    (∀ k, (sepEventsF g).filter (fun e => isDispBy k e) = []) ∧
    (∀ k, (sepEventsF g).all (fun e => !(isDispBy k e)) = true) ∧
    (∀ k, (sepEventsF g).all (fun e => !(isImpDispBy k e)) = true) ∧
    (∀ k, (sepEventsF g).any (fun e => isImpDispBy k e) = false) ∧
    (∀ k, (sepEventsF g).any (fun e => isDispLt k e) = false) ∧
    (∀ k, (sepEventsF g).any (fun e => isImpDispLt k e) = false) := by
  rw [sepEventsF_cases g hflagR hflagI]
  by_cases hO : (hasSepRegF g || hasSepImpF g) = true
  · rw [if_pos hO]
    have hby : Int.toNat g.myIndex = pos := by rw [hpos]; exact Int.toNat_natCast pos
    refine ⟨?_, ?_, ?_, ?_, ?_, ?_, ?_, ?_, ?_, ?_, ?_, ?_, ?_, ?_, ?_, ?_, ?_, ?_,
      ?_, ?_, ?_⟩ <;>
      try intro k
    all_goals
      simp [List.countP_cons, isSepRegBy, isSepRegLt, isSepImpBy, isSepImpLt,
        isSepReg, isSepImp, isDisp, isImpDisp, isDispBy, isDispLt, isImpDispBy,
        isImpDispLt, evByGroup, hby, List.filter_cons]
    all_goals
      try (intro hne2; omega)
    all_goals
      try (cases hR : hasSepRegF g <;> cases hI : hasSepImpF g <;> simp_all <;> omega)
  · rw [if_neg hO]
    refine ⟨?_, ?_, ?_, ?_, ?_, ?_, ?_, ?_, ?_, ?_, ?_, ?_, ?_, ?_, ?_, ?_, ?_, ?_,
      ?_, ?_, ?_⟩ <;>
      try intro k
    all_goals simp_all [List.countP_nil]
    all_goals cases hR : hasSepRegF g <;> simp_all

end Actions

end Nova

namespace Nova
namespace Actions

set_option maxHeartbeats 1000000

theorem any_eq_false_of_countP_zero {α : Type} (p : α → Bool) (l : List α)
    (h : l.countP p = 0) : l.any p = false := by
  cases hv : l.any p
  · rfl
  · rw [any_iff_countP_pos, h] at hv
    exact absurd hv (lt_irrefl 0)

theorem countP_eq_zero_of_any_false {α : Type} (p : α → Bool) (l : List α)
    (h : l.any p = false) : l.countP p = 0 := by
  rw [countP_zero_iff]
  intro a ha hpa
  have hT : l.any p = true := List.any_eq_true.mpr ⟨a, ha, hpa⟩
  rw [h] at hT
  simp at hT

theorem takeWhile_nil_of_all_false {α : Type} (p : α → Bool) (l : List α)
    (h : ∀ x ∈ l, p x = false) : l.takeWhile p = [] := by
  cases l with
  | nil => rfl
  | cons a rest =>
    have ha := h a (by simp)
    simp [List.takeWhile_cons, ha]

theorem mem_of_mem_takeWhile {α : Type} (p : α → Bool) (l : List α) (x : α)
    (h : x ∈ l.takeWhile p) : x ∈ l :=
  (List.takeWhile_prefix p).sublist.subset h

theorem bool_eq_of_iff {a b : Bool} (h : a = true ↔ b = true) : a = b := by
  cases a <;> cases b <;> simp_all

theorem batch_preserves (w : PWorld) (gIdx : Nat) (g : AGroup) (pIdx : Nat) (pr : Provider)
    (hC : WCore w)
    (hshw : ∀ j h, w.groups.get? j = some h → h.provider.isSome = true → j ≠ gIdx →
      h.numShown = h.actions.length)
    (hg : w.groups.get? gIdx = some g)
    (hprov : g.provider = some pIdx)
    (hpr : w.providers.get? pIdx = some pr) :
    WInv (showAllRemaining w gIdx) := by
  obtain ⟨pr0, hpr0, hmyNonneg, hattpos⟩ := hC.attOf gIdx g pIdx hg hprov
  rw [hpr] at hpr0
  have hpr0' := Option.some_inj.mp hpr0
  subst hpr0'
  cases hne : g.actions.isEmpty with
  | true =>
    rw [showAllRemaining_empty w gIdx g hg hne]
    refine ⟨hC, ?_⟩
    intro j h hj hjs
    by_cases hje : j = gIdx
    · subst hje
      rw [hj] at hg
      have := Option.some_inj.mp hg
      subst this
      have h1 := hC.nsle j h hj
      have h2 : h.actions.length = 0 := by
        rw [List.isEmpty_iff] at hne
        simp [hne]
      omega
    · exact hshw j h hj hjs hje
  | false =>
    rw [showAllRemaining_eq w gIdx g pIdx pr hg hprov hpr hne]
    -- abbreviations
    have hposInt : g.myIndex = ((g.myIndex.toNat : Nat) : Int) :=
      (Int.toNat_of_nonneg hmyNonneg).symm
    have hnsle : g.numShown ≤ g.actions.length := hC.nsle gIdx g hg
    have hlenpos : 0 < g.actions.length := by
      cases hA : g.actions with
      | nil => rw [hA] at hne; simp at hne
      | cons x xs => simp [hA]
    -- flag facts
    have hflagR : (separatorF g != -1) = hasSepRegF g := by
      unfold separatorF
      cases hR : hasSepRegF g with
      | false => simp
      | true =>
        rw [if_pos rfl]
        have hns0 : g.numShown = 0 := by
          rw [hasSepRegF, Bool.and_eq_true, beq_iff_eq] at hR
          exact hR.1
        have hci := (hC.curR pIdx pr g.myIndex.toNat gIdx g hpr hattpos hg hns0).1
        have : (0 : Int) ≤ g.currentIndex := le_trans (by positivity) hci
        rw [bne_iff_ne]
        omega
    have hflagI : (separatorImpF g != -1) = hasSepImpF g := by
      unfold separatorImpF
      cases hI : hasSepImpF g with
      | false => simp
      | true =>
        rw [if_pos rfl]
        have himps : g.importantShown = false := by
          rw [hasSepImpF, Bool.and_eq_true, Bool.and_eq_true] at hI
          obtain ⟨⟨_, h2⟩, _⟩ := hI
          cases hv : g.importantShown
          · rfl
          · rw [hv] at h2; simp at h2
        have hcii := (hC.curI pIdx pr g.myIndex.toNat gIdx g hpr hattpos hg himps).1
        have : (0 : Int) ≤ g.currentIndexImportant := le_trans (by positivity) hcii
        rw [bne_iff_ne]
        omega
    have hsep := sepEvents_counts g g.myIndex.toNat hposInt hflagR hflagI
    have hloop := showLoop_spec g.myIndex.toNat (g.actions.drop g.numShown)
      (ci1F g) (cii1F g) g.importantShown
    obtain ⟨hl1, hl2, hl3, hl4, hl5, hl6, hl7, hl8, hl9, hl10, hl11⟩ := hloop
    have hPairsG := hC.pairs pIdx pr g.myIndex.toNat gIdx g hpr hattpos hg
    have hImpShG := hC.impSh pIdx pr g.myIndex.toNat gIdx g hpr hattpos hg
    have hHasImpG := hC.himp gIdx g hg
    have hTakeImp : (g.actions.take g.numShown).any (fun p => p.2) =
        pr.events.any (fun e => isImpDispBy g.myIndex.toNat e) := by
      rw [← hPairsG]
      exact pair_any_imp g.myIndex.toNat pr.events
    have hAnySplit : g.actions.any (fun p => p.2) =
        ((g.actions.take g.numShown).any (fun p => p.2) ||
          ((g.actions.drop g.numShown).any (fun p => p.2))) := by
      conv_lhs => rw [← List.take_append_drop g.numShown g.actions]
      rw [List.any_append]
    have hKey1 : g.importantShown = false →
        g.hasImportant = (g.actions.drop g.numShown).any (fun p => p.2) := by
      intro h0
      rw [hHasImpG, hAnySplit, hTakeImp, ← hImpShG, h0, Bool.false_or]
    have hCntPos : pr.events.countP (fun e => isDispBy g.myIndex.toNat e) =
        g.numShown := by
      rw [countP_dispBy_filterMap_len, hPairsG, List.length_take]
      omega
    have hKey3 : g.numShown = 0 →
        pr.events.countP (fun e => isDispBy g.myIndex.toNat e) = 0 := by
      intro h0
      rw [hCntPos, h0]
    have hKey3' : 0 < g.numShown →
        pr.events.any (fun e => isDispBy g.myIndex.toNat e) = true := by
      intro h0
      rw [any_iff_countP_pos, hCntPos]
      omega
    have hPIdxLt : pIdx < w.providers.length := (List.get?_eq_some.mp hpr).1
    have hGIdxLt : gIdx < w.groups.length := (List.get?_eq_some.mp hg).1
    have hPget : ∀ q, (w.providers.set pIdx (prAfter g pr)).get? q =
        if q = pIdx then some (prAfter g pr) else w.providers.get? q := by
      intro q
      by_cases hq : q = pIdx
      · subst hq
        rw [if_pos rfl]
        exact List.get?_set_eq_of_lt _ hPIdxLt
      · rw [if_neg hq]
        exact List.get?_set_ne _ _ (fun he => hq he.symm)
    have hPosUnique : ∀ i, pr.attached.get? i = some gIdx → i = g.myIndex.toNat := by
      intro i hi
      obtain ⟨g2, hg2, hp2, hmy2⟩ := hC.attIdx pIdx pr i gIdx hpr hi
      rw [hg] at hg2
      have heq := Option.some_inj.mp hg2
      subst heq
      omega
    have hDropNd : (pr.attached.drop (g.myIndex.toNat + 1)).Nodup :=
      (List.drop_sublist _ _).nodup (hC.attNd pIdx pr hpr)
    have hMemDrop : ∀ j, j ∈ pr.attached.drop (g.myIndex.toNat + 1) →
        ∃ k, g.myIndex.toNat + 1 ≤ k ∧ pr.attached.get? k = some j := by
      intro j hj
      obtain ⟨m, hm⟩ := List.mem_iff_get?.mp hj
      rw [List.get?_drop] at hm
      exact ⟨g.myIndex.toNat + 1 + m, by omega, hm⟩
    have hgNotDrop : gIdx ∉ pr.attached.drop (g.myIndex.toNat + 1) := by
      intro hmem
      obtain ⟨k, hk1, hk2⟩ := hMemDrop gIdx hmem
      have := hPosUnique k hk2
      omega
    have hG2g : ((pr.attached.drop (g.myIndex.toNat + 1)).foldl
        (shiftGroup (loopF g).counter (loopF g).counterImp)
        (w.groups.set gIdx (gAfter g))).get? gIdx = some (gAfter g) := by
      rw [foldl_shift_get_notmem _ _ _ _ gIdx hgNotDrop]
      exact List.get?_set_eq_of_lt _ hGIdxLt
    have hG2other : ∀ j, j ≠ gIdx → j ∉ pr.attached.drop (g.myIndex.toNat + 1) →
        ((pr.attached.drop (g.myIndex.toNat + 1)).foldl
          (shiftGroup (loopF g).counter (loopF g).counterImp)
          (w.groups.set gIdx (gAfter g))).get? j = w.groups.get? j := by
      intro j hj1 hj2
      rw [foldl_shift_get_notmem _ _ _ _ j hj2]
      exact List.get?_set_ne _ _ (fun he => hj1 he.symm)
    have hG2shift : ∀ j h2, j ∈ pr.attached.drop (g.myIndex.toNat + 1) →
        w.groups.get? j = some h2 →
        ((pr.attached.drop (g.myIndex.toNat + 1)).foldl
          (shiftGroup (loopF g).counter (loopF g).counterImp)
          (w.groups.set gIdx (gAfter g))).get? j = some { h2 with
            currentIndex := h2.currentIndex + (loopF g).counter,
            currentIndexImportant := h2.currentIndexImportant + (loopF g).counterImp } := by
      intro j h2 hjmem hjget
      have hjne : j ≠ gIdx := fun he => hgNotDrop (he ▸ hjmem)
      refine foldl_shift_get_mem _ _ _ _ j h2 hDropNd hjmem ?_
      rw [List.get?_set_ne _ _ (fun he => hjne he.symm)]
      exact hjget
    have hInDropIff : ∀ i j, pr.attached.get? i = some j →
        (j ∈ pr.attached.drop (g.myIndex.toNat + 1) ↔ g.myIndex.toNat + 1 ≤ i) := by
      intro i j hij
      constructor
      · intro hmem
        obtain ⟨k, hk1, hk2⟩ := hMemDrop j hmem
        obtain ⟨g2, hg2, hp2, hmy2⟩ := hC.attIdx pIdx pr i j hpr hij
        obtain ⟨g3, hg3, hp3, hmy3⟩ := hC.attIdx pIdx pr k j hpr hk2
        rw [hg2] at hg3
        have hgg := Option.some_inj.mp hg3
        subst hgg
        omega
      · intro hi
        have hdg : (pr.attached.drop (g.myIndex.toNat + 1)).get?
            (i - (g.myIndex.toNat + 1)) = some j := by
          rw [List.get?_drop]
          rw [show g.myIndex.toNat + 1 + (i - (g.myIndex.toNat + 1)) = i by omega]
          exact hij
        exact List.mem_iff_get?.mpr ⟨_, hdg⟩
    obtain ⟨hs1, hs2, hs3, hs4, hs5, hs6, hs7, hs8, hs9, hs10, hs11, hs12, hs13,
      hs14, hs15, hs16, hs17, hs18, hs19, hs20, hs21⟩ := hsep
    set pos := g.myIndex.toNat with hposdef
    set c := (loopF g).counter with hcdef
    set cimp := (loopF g).counterImp with hcimpdef
    set S := sepEventsF g with hSdef
    set L := (loopF g).events with hLdef
    set drp := pr.attached.drop (pos + 1) with hdrpdef
    set G2 := drp.foldl (shiftGroup c cimp) (w.groups.set gIdx (gAfter g)) with hG2def
    set P2 := w.providers.set pIdx (prAfter g pr) with hP2def
    have hLc : c = (g.actions.drop g.numShown).length := hl1
    have hLcimp : cimp = (g.actions.drop g.numShown).countP (fun p => p.2) := hl2
    have hLci : (loopF g).ci = ci1F g + ((g.actions.drop g.numShown).length : Int) := hl3
    have hLcii : (loopF g).cii = cii1F g +
        ((g.actions.drop g.numShown).countP (fun p => p.2) : Int) := hl4
    have hLimpShown : (loopF g).impShown =
        (g.importantShown || (g.actions.drop g.numShown).any (fun p => p.2)) := hl5
    have hLpair : L.filterMap pairOf? = g.actions.drop g.numShown := hl6
    have hLtag : ∀ e ∈ L, isDisp e = true ∧ evByGroup e = pos := hl9
    have hLimpCnt : L.countP (fun e => isImpDisp e) =
        (g.actions.drop g.numShown).countP (fun p => p.2) := hl10
    have hLdispCnt : L.countP (fun e => isDisp e) =
        (g.actions.drop g.numShown).length := hl11
    have hLlen : L.length = (g.actions.drop g.numShown).length := by
      rw [← hLdispCnt]
      exact (List.countP_eq_length.mpr (fun e he => (hLtag e he).1)).symm
    have hLallDispBy : ∀ x ∈ L, isDispBy pos x = true := by
      intro x hx
      obtain ⟨h1, h2⟩ := hLtag x hx
      rw [isDispBy, h1, h2]
      simp
    have hprE : (prAfter g pr).events = pr.events ++ S ++ L := rfl
    have hprAtt : (prAfter g pr).attached = pr.attached := rfl
    have hprMax : (prAfter g pr).maxIndex =
        (if hasSepRegF g then pr.maxIndex + 1 else pr.maxIndex) + c := rfl
    have hprMaxI : (prAfter g pr).maxIndexImportant =
        (if hasSepImpF g then pr.maxIndexImportant + 1 else pr.maxIndexImportant) +
          cimp := rfl
    have hcntN : ∀ (p : PEvent → Bool), (pr.events ++ S ++ L).countP p =
        pr.events.countP p + S.countP p + L.countP p := by
      intro p
      rw [List.countP_append, List.countP_append]
    have hanyN : ∀ (p : PEvent → Bool), (pr.events ++ S ++ L).any p =
        (pr.events.any p || S.any p || L.any p) := by
      intro p
      rw [List.any_append, List.any_append]
    have hNewAssoc : pr.events ++ S ++ L = pr.events ++ (S ++ L) :=
      List.append_assoc _ _ _
    have hposLt : pos < pr.attached.length := (List.get?_eq_some.mp hattpos).1
    have hnsfull : g.numShown + c = g.actions.length := by
      rw [hLc, List.length_drop]
      omega
    have hSepLtZero : pr.events.any (fun e => isDispLt pos e) = false →
        pr.events.countP (fun e => isSepRegLt pos e) = 0 := by
      intro hanyF
      rw [countP_zero_iff]
      intro e he hcon
      rw [isSepRegLt, Bool.and_eq_true, decide_eq_true_iff] at hcon
      obtain ⟨hsr, hlt⟩ := hcon
      have hby : isSepRegBy (evByGroup e) e = true := by
        rw [isSepRegBy, hsr]
        simp
      have hpos1 : 0 < pr.events.countP (fun x => isSepRegBy (evByGroup e) x) :=
        List.countP_pos.mpr ⟨e, he, hby⟩
      have hle1 := hC.sepRC pIdx pr (evByGroup e) hpr
      have heq1 : pr.events.countP (fun x => isSepRegBy (evByGroup e) x) = 1 := by omega
      obtain ⟨hany, _⟩ := (hC.sepRIff pIdx pr (evByGroup e) hpr).mp heq1
      rw [List.any_eq_true] at hany
      obtain ⟨x, hx, hdx⟩ := hany
      rw [isDispBy, Bool.and_eq_true, beq_iff_eq] at hdx
      have hxlt : isDispLt pos x = true := by
        rw [isDispLt, Bool.and_eq_true, decide_eq_true_iff]
        exact ⟨hdx.1, by omega⟩
      have hT : pr.events.any (fun e => isDispLt pos e) = true :=
        List.any_eq_true.mpr ⟨x, hx, hxlt⟩
      rw [hanyF] at hT
      simp at hT
    have hSepImpLtZero : pr.events.any (fun e => isImpDispLt pos e) = false →
        pr.events.countP (fun e => isSepImpLt pos e) = 0 := by
      intro hanyF
      rw [countP_zero_iff]
      intro e he hcon
      rw [isSepImpLt, Bool.and_eq_true, decide_eq_true_iff] at hcon
      obtain ⟨hsr, hlt⟩ := hcon
      have hby : isSepImpBy (evByGroup e) e = true := by
        rw [isSepImpBy, hsr]
        simp
      have hpos1 : 0 < pr.events.countP (fun x => isSepImpBy (evByGroup e) x) :=
        List.countP_pos.mpr ⟨e, he, hby⟩
      have hle1 := hC.sepIC pIdx pr (evByGroup e) hpr
      have heq1 : pr.events.countP (fun x => isSepImpBy (evByGroup e) x) = 1 := by omega
      obtain ⟨hany, _⟩ := (hC.sepIIff pIdx pr (evByGroup e) hpr).mp heq1
      rw [List.any_eq_true] at hany
      obtain ⟨x, hx, hdx⟩ := hany
      rw [isImpDispBy, Bool.and_eq_true, beq_iff_eq] at hdx
      have hxlt : isImpDispLt pos x = true := by
        rw [isImpDispLt, Bool.and_eq_true, decide_eq_true_iff]
        exact ⟨hdx.1, by omega⟩
      have hT : pr.events.any (fun e => isImpDispLt pos e) = true :=
        List.any_eq_true.mpr ⟨x, hx, hxlt⟩
      rw [hanyF] at hT
      simp at hT
    obtain ⟨hLsepRB, hLsepRLt, hLsepIB, hLsepILt, hLsepR, hLsepI⟩ :=
      countP_sep_tagged L (fun e he => (hLtag e he).1)
    have hOldSepI0 : g.importantShown = false →
        pr.events.countP (fun e => isSepImpBy pos e) = 0 :=
      hC.sepINone pIdx pr pos gIdx g hpr hattpos hg
    have hOldSepR0 : g.numShown = 0 →
        pr.events.countP (fun e => isSepRegBy pos e) = 0 := by
      intro hns0
      have hle := hC.sepRC pIdx pr pos hpr
      by_cases h1 : pr.events.countP (fun e => isSepRegBy pos e) = 1
      · obtain ⟨hany, _⟩ := (hC.sepRIff pIdx pr pos hpr).mp h1
        rw [any_iff_countP_pos, hCntPos] at hany
        omega
      · omega
    have hI_impF : hasSepImpF g = true → g.importantShown = false := by
      intro hI
      rw [hasSepImpF, Bool.and_eq_true, Bool.and_eq_true] at hI
      obtain ⟨⟨_, h2⟩, _⟩ := hI
      cases hv : g.importantShown
      · rfl
      · rw [hv] at h2
        simp at h2
    have hAllOld0 : g.numShown = 0 → ∀ x ∈ pr.events, isDispBy pos x = false := by
      intro hns0 x hx
      have h0 := hKey3 hns0
      rw [countP_zero_iff] at h0
      cases hv : isDispBy pos x
      · rfl
      · exact absurd hv (h0 x hx)
    have hpreSplit : ∀ i, (∃ x ∈ pr.events, isDispBy i x = true) →
        pre i (pr.events ++ S ++ L) = pre i pr.events := by
      intro i hex
      obtain ⟨x, hx, hdx⟩ := hex
      rw [pre, pre, hNewAssoc]
      exact takeWhile_append_stop _ _ _ ⟨x, hx, by simp [hdx]⟩
    have hpreAll : ∀ i, (∀ x ∈ pr.events, isDispBy i x = false) →
        pre i (pr.events ++ S ++ L) =
          pr.events ++ (S ++ L).takeWhile (fun e => !(isDispBy i e)) := by
      intro i hall
      rw [pre, hNewAssoc]
      exact takeWhile_append_all _ _ _ (fun x hx => by rw [hall x hx]; rfl)
    have hpreImpSplit : ∀ i, (∃ x ∈ pr.events, isImpDispBy i x = true) →
        preImp i (pr.events ++ S ++ L) = preImp i pr.events := by
      intro i hex
      obtain ⟨x, hx, hdx⟩ := hex
      rw [preImp, preImp, hNewAssoc]
      exact takeWhile_append_stop _ _ _ ⟨x, hx, by simp [hdx]⟩
    have hpreImpAll : ∀ i, (∀ x ∈ pr.events, isImpDispBy i x = false) →
        preImp i (pr.events ++ S ++ L) =
          pr.events ++ (S ++ L).takeWhile (fun e => !(isImpDispBy i e)) := by
      intro i hall
      rw [preImp, hNewAssoc]
      exact takeWhile_append_all _ _ _ (fun x hx => by rw [hall x hx]; rfl)
    have hSLstopR : (S ++ L).takeWhile (fun e => !(isDispBy pos e)) = S := by
      rw [takeWhile_append_all _ S L (fun x hx => by
        exact List.all_eq_true.mp (hs17 pos) x hx)]
      rw [takeWhile_nil_of_all_false _ L (fun x hx => by rw [hLallDispBy x hx]; rfl)]
      rw [List.append_nil]
    have hSLallR : ∀ i, i ≠ pos →
        (S ++ L).takeWhile (fun e => !(isDispBy i e)) = S ++ L := by
      intro i hine
      apply takeWhile_all
      intro x hx
      rw [List.mem_append] at hx
      cases hx with
      | inl h => exact List.all_eq_true.mp (hs17 i) x h
      | inr h =>
        have h0 : isDispBy i x = false := by
          have hz := countP_dispBy_tagged pos i L hLtag hine
          rw [countP_zero_iff] at hz
          cases hv : isDispBy i x
          · rfl
          · exact absurd hv (hz x h)
        rw [h0]
        rfl
    have hLtwTag : ∀ (p : PEvent → Bool) e, e ∈ L.takeWhile p →
        isDisp e = true ∧ evByGroup e = pos :=
      fun p e he => hLtag e (mem_of_mem_takeWhile _ _ _ he)
    have hSLstopI : (S ++ L).takeWhile (fun e => !(isImpDispBy pos e)) =
        S ++ L.takeWhile (fun e => !(isImpDispBy pos e)) :=
      takeWhile_append_all _ S L (fun x hx => by
        exact List.all_eq_true.mp (hs18 pos) x hx)
    have hSLallI : ∀ i, i ≠ pos →
        (S ++ L).takeWhile (fun e => !(isImpDispBy i e)) = S ++ L := by
      intro i hine
      apply takeWhile_all
      intro x hx
      rw [List.mem_append] at hx
      cases hx with
      | inl h => exact List.all_eq_true.mp (hs18 i) x h
      | inr h =>
        have h0 : isImpDispBy i x = false := by
          have hz := countP_impDispBy_tagged_ne pos i L hLtag hine
          rw [countP_zero_iff] at hz
          cases hv : isImpDispBy i x
          · rfl
          · exact absurd hv (hz x h)
        rw [h0]
        rfl
    have hpreNew0 : g.numShown = 0 →
        pre pos (pr.events ++ S ++ L) = pr.events ++ S := by
      intro hns0
      rw [hpreAll pos (hAllOld0 hns0), hSLstopR]
    have hpreNewPos : 0 < g.numShown →
        pre pos (pr.events ++ S ++ L) = pre pos pr.events := by
      intro h
      apply hpreSplit pos
      have hh := hKey3' h
      rw [List.any_eq_true] at hh
      exact hh
    have hG2cases : ∀ j h, G2.get? j = some h →
        (j = gIdx ∧ h = gAfter g) ∨
        (∃ h2 k, j ≠ gIdx ∧ pos + 1 ≤ k ∧ pr.attached.get? k = some j ∧
          w.groups.get? j = some h2 ∧ h2.provider = some pIdx ∧
          h2.myIndex = (k : Int) ∧
          h = { h2 with
                currentIndex := h2.currentIndex + c,
                currentIndexImportant := h2.currentIndexImportant + cimp }) ∨
        (j ≠ gIdx ∧ j ∉ drp ∧ w.groups.get? j = some h) := by
      intro j h hjh
      by_cases hje : j = gIdx
      · subst hje
        left
        rw [hG2g] at hjh
        exact ⟨rfl, (Option.some_inj.mp hjh).symm⟩
      · by_cases hjm : j ∈ drp
        · right
          left
          obtain ⟨k, hk1, hk2⟩ := hMemDrop j hjm
          obtain ⟨h2, hh2, hp2, hmy2⟩ := hC.attIdx pIdx pr k j hpr hk2
          refine ⟨h2, k, hje, hk1, hk2, hh2, hp2, hmy2, ?_⟩
          rw [hG2shift j h2 hjm hh2] at hjh
          exact (Option.some_inj.mp hjh).symm
        · right
          right
          refine ⟨hje, hjm, ?_⟩
          rw [hG2other j hje hjm] at hjh
          exact hjh
    have hG2att2 : ∀ i j, pr.attached.get? i = some j → i ≠ pos → ∃ h2 h3,
        w.groups.get? j = some h2 ∧ G2.get? j = some h3 ∧
        h2.provider = some pIdx ∧ h2.myIndex = (i : Int) ∧
        h3.actions = h2.actions ∧ h3.numShown = h2.numShown ∧
        h3.provider = h2.provider ∧ h3.myIndex = h2.myIndex ∧
        h3.importantShown = h2.importantShown ∧ h3.hasImportant = h2.hasImportant ∧
        h3.currentIndex = h2.currentIndex + (if pos < i then (c : Int) else 0) ∧
        h3.currentIndexImportant = h2.currentIndexImportant +
          (if pos < i then (cimp : Int) else 0) := by
      intro i j hij hine
      obtain ⟨h2, hh2, hp2, hmy2⟩ := hC.attIdx pIdx pr i j hpr hij
      have hjne : j ≠ gIdx := by
        intro he
        subst he
        exact hine (hPosUnique i hij)
      by_cases hcase : pos < i
      · have hjm : j ∈ drp := (hInDropIff i j hij).mpr (by omega)
        refine ⟨h2, _, hh2, hG2shift j h2 hjm hh2, hp2, hmy2, rfl, rfl, rfl, rfl,
          rfl, rfl, ?_, ?_⟩
        · rw [if_pos hcase]
        · rw [if_pos hcase]
      · have hjm : j ∉ drp := by
          intro hm
          have := (hInDropIff i j hij).mp hm
          omega
        have hG2j : G2.get? j = some h2 := by
          rw [hG2other j hjne hjm]
          exact hh2
        refine ⟨h2, h2, hh2, hG2j, hp2, hmy2, rfl, rfl, rfl, rfl, rfl, rfl, ?_, ?_⟩
        · rw [if_neg hcase]
          omega
        · rw [if_neg hcase]
          omega
    have hG2q : ∀ q pr1 i j, q ≠ pIdx → w.providers.get? q = some pr1 →
        pr1.attached.get? i = some j → G2.get? j = w.groups.get? j := by
      intro q pr1 i j hq hq1 hij
      obtain ⟨g2, hg2, hp2, _⟩ := hC.attIdx q pr1 i j hq1 hij
      have hjne : j ≠ gIdx := by
        intro he
        subst he
        rw [hg] at hg2
        have heq := Option.some_inj.mp hg2
        subst heq
        rw [hprov] at hp2
        exact hq (Option.some_inj.mp hp2).symm
      have hjnm : j ∉ drp := by
        intro hm
        obtain ⟨k, _, hk2⟩ := hMemDrop j hm
        obtain ⟨g3, hg3, hp3, _⟩ := hC.attIdx pIdx pr k j hpr hk2
        rw [hg2] at hg3
        have heq := Option.some_inj.mp hg3
        subst heq
        rw [hp2] at hp3
        exact hq (Option.some_inj.mp hp3)
      exact hG2other j hjne hjnm
    have Funat : ∀ j h, G2.get? j = some h → h.provider = none →
        h.numShown = 0 ∧ h.myIndex = -1 ∧ h.currentIndex = -1 ∧
        h.currentIndexImportant = -1 ∧ h.importantShown = false := by
      intro j h hjh hpn
      rcases hG2cases j h hjh with ⟨hje, hval⟩ |
        ⟨h2, k, hjne, hk1, hk2, hh2, hp2, hmy2, hval⟩ | ⟨hjne, hjnm, hh⟩
      · subst hval
        exact absurd (hprov.symm.trans hpn) (by simp)
      · subst hval
        exact absurd (hp2.symm.trans hpn) (by simp)
      · exact hC.unat j h hh hpn
    have Fhimp : ∀ j h, G2.get? j = some h →
        h.hasImportant = h.actions.any (fun p => p.2) := by
      intro j h hjh
      rcases hG2cases j h hjh with ⟨hje, hval⟩ |
        ⟨h2, k, hjne, hk1, hk2, hh2, hp2, hmy2, hval⟩ | ⟨hjne, hjnm, hh⟩
      · subst hval
        exact hHasImpG
      · subst hval
        exact hC.himp j h2 hh2
      · exact hC.himp j h hh
    have Fnsle : ∀ j h, G2.get? j = some h → h.numShown ≤ h.actions.length := by
      intro j h hjh
      rcases hG2cases j h hjh with ⟨hje, hval⟩ |
        ⟨h2, k, hjne, hk1, hk2, hh2, hp2, hmy2, hval⟩ | ⟨hjne, hjnm, hh⟩
      · subst hval
        show g.numShown + c ≤ g.actions.length
        omega
      · subst hval
        exact hC.nsle j h2 hh2
      · exact hC.nsle j h hh
    have FattOf : ∀ j h q, G2.get? j = some h → h.provider = some q →
        ∃ pr2, P2.get? q = some pr2 ∧ 0 ≤ h.myIndex ∧
          pr2.attached.get? h.myIndex.toNat = some j := by
      intro j h q hjh hpq
      rcases hG2cases j h hjh with ⟨hje, hval⟩ |
        ⟨h2, k, hjne, hk1, hk2, hh2, hp2, hmy2, hval⟩ | ⟨hjne, hjnm, hh⟩
      · subst hval
        have hje2 := hje.symm
        subst hje2
        have hq : pIdx = q := Option.some_inj.mp (hprov.symm.trans hpq)
        subst hq
        refine ⟨prAfter g pr, ?_, hmyNonneg, ?_⟩
        · rw [hPget pIdx, if_pos rfl]
        · show pr.attached.get? pos = some gIdx
          exact hattpos
      · subst hval
        have hq : pIdx = q := Option.some_inj.mp (hp2.symm.trans hpq)
        subst hq
        refine ⟨prAfter g pr, ?_, ?_, ?_⟩
        · rw [hPget pIdx, if_pos rfl]
        · show (0 : Int) ≤ h2.myIndex
          rw [hmy2]
          positivity
        · show pr.attached.get? h2.myIndex.toNat = some j
          rw [hmy2, Int.toNat_natCast]
          exact hk2
      · obtain ⟨pr1, hpr1, hnn, hat⟩ := hC.attOf j h q hh hpq
        by_cases hqe : q = pIdx
        · have hqe2 := hqe.symm
          subst hqe2
          rw [hpr] at hpr1
          have heq := Option.some_inj.mp hpr1
          subst heq
          refine ⟨prAfter g pr, ?_, hnn, ?_⟩
          · rw [hPget pIdx, if_pos rfl]
          · show pr.attached.get? h.myIndex.toNat = some j
            exact hat
        · refine ⟨pr1, ?_, hnn, hat⟩
          rw [hPget q, if_neg hqe]
          exact hpr1
    have FattIdx : ∀ q pr2 i j, P2.get? q = some pr2 → pr2.attached.get? i = some j →
        ∃ h, G2.get? j = some h ∧ h.provider = some q ∧ h.myIndex = (i : Int) := by
      intro q pr2 i j hq hij
      rw [hPget q] at hq
      by_cases hqe : q = pIdx
      · rw [if_pos hqe] at hq
        have hqe2 := hqe.symm
        subst hqe2
        have heq := Option.some_inj.mp hq
        subst heq
        have hij2 : pr.attached.get? i = some j := hij
        by_cases hipos : i = pos
        · subst hipos
          have hj : gIdx = j := by
            rw [hattpos] at hij2
            exact Option.some_inj.mp hij2
          subst hj
          exact ⟨gAfter g, hG2g, hprov, hposInt⟩
        · obtain ⟨h2, h3, hh2, hG3, hp2, hmy2, hact, hns, hprv, hmy3, himps, hhi,
            hci, hcii⟩ := hG2att2 i j hij2 hipos
          refine ⟨h3, hG3, ?_, ?_⟩
          · rw [hprv, hp2]
          · rw [hmy3, hmy2]
      · rw [if_neg hqe] at hq
        obtain ⟨h2, hh2, hp2, hmy2⟩ := hC.attIdx q pr2 i j hq hij
        have hG2j : G2.get? j = w.groups.get? j := hG2q q pr2 i j hqe hq hij
        refine ⟨h2, ?_, hp2, hmy2⟩
        rw [hG2j]
        exact hh2
    have FattNd : ∀ q pr2, P2.get? q = some pr2 → pr2.attached.Nodup := by
      intro q pr2 hq
      rw [hPget q] at hq
      by_cases hqe : q = pIdx
      · rw [if_pos hqe] at hq
        have heq := Option.some_inj.mp hq
        subst heq
        exact hC.attNd pIdx pr hpr
      · rw [if_neg hqe] at hq
        exact hC.attNd q pr2 hq
    have FbyLt : ∀ q pr2 e, P2.get? q = some pr2 → e ∈ pr2.events →
        evByGroup e < pr2.attached.length := by
      intro q pr2 e hq hme
      rw [hPget q] at hq
      by_cases hqe : q = pIdx
      · rw [if_pos hqe] at hq
        have heq := Option.some_inj.mp hq
        subst heq
        rw [hprE, hNewAssoc, List.mem_append, List.mem_append] at hme
        show evByGroup e < pr.attached.length
        rcases hme with hme | hme | hme
        · exact hC.byLt pIdx pr e hpr hme
        · rw [hs9 e hme]
          exact hposLt
        · rw [(hLtag e hme).2]
          exact hposLt
      · rw [if_neg hqe] at hq
        exact hC.byLt q pr2 e hq hme
    have Fctrs : ∀ q pr2, P2.get? q = some pr2 →
        pr2.maxIndex = pr2.events.countP (fun e => isDisp e) +
          pr2.events.countP (fun e => isSepReg e) ∧
        pr2.maxIndexImportant = pr2.events.countP (fun e => isImpDisp e) +
          pr2.events.countP (fun e => isSepImp e) := by
      intro q pr2 hq
      rw [hPget q] at hq
      by_cases hqe : q = pIdx
      · rw [if_pos hqe] at hq
        have heq := Option.some_inj.mp hq
        subst heq
        obtain ⟨hc1, hc2⟩ := hC.ctrs pIdx pr hpr
        constructor
        · rw [hprMax, hprE, hcntN, hcntN, hs10, hs7, hLdispCnt, hLsepR, hc1, hLc]
          cases hR : hasSepRegF g <;> simp <;> omega
        · rw [hprMaxI, hprE, hcntN, hcntN, hs11, hs8, hLimpCnt, hLsepI, hc2, hLcimp]
          cases hI : hasSepImpF g <;> simp <;> omega
      · rw [if_neg hqe] at hq
        exact hC.ctrs q pr2 hq
    have Fpairs : ∀ q pr2 i j h, P2.get? q = some pr2 →
        pr2.attached.get? i = some j → G2.get? j = some h →
        (pr2.events.filter (fun e => isDispBy i e)).filterMap pairOf? =
          h.actions.take h.numShown := by
      intro q pr2 i j h hq hij hjh
      rw [hPget q] at hq
      by_cases hqe : q = pIdx
      · rw [if_pos hqe] at hq
        have hqe2 := hqe.symm
        subst hqe2
        have heq := Option.some_inj.mp hq
        subst heq
        have hij2 : pr.attached.get? i = some j := hij
        rw [hprE, List.filter_append, List.filter_append, List.filterMap_append,
          List.filterMap_append, hs16 i, List.filterMap_nil]
        by_cases hipos : i = pos
        · subst hipos
          have hj : gIdx = j := by
            rw [hattpos] at hij2
            exact Option.some_inj.mp hij2
          subst hj
          rw [hG2g] at hjh
          have hval := Option.some_inj.mp hjh
          subst hval
          rw [hPairsG, filter_dispBy_tagged_self pos L hLtag, hLpair]
          show g.actions.take g.numShown ++ [] ++ g.actions.drop g.numShown =
            g.actions.take (g.numShown + c)
          rw [hnsfull, List.take_length]
          simp [List.take_append_drop]
        · rw [filter_dispBy_tagged_ne pos i L hLtag hipos, List.filterMap_nil]
          obtain ⟨h2, h3, hh2, hG3, hp2, hmy2, hact, hns, hprv, hmy3, himps, hhi,
            hci, hcii⟩ := hG2att2 i j hij2 hipos
          rw [hG3] at hjh
          have hval := Option.some_inj.mp hjh
          subst hval
          simp only [List.append_nil]
          rw [hact, hns]
          exact hC.pairs pIdx pr i j h2 hpr hij2 hh2
      · rw [if_neg hqe] at hq
        obtain ⟨h2, hh2, hp2, hmy2⟩ := hC.attIdx q pr2 i j hq hij
        have hG2j : G2.get? j = w.groups.get? j := hG2q q pr2 i j hqe hq hij
        rw [hG2j, hh2] at hjh
        have hval := Option.some_inj.mp hjh
        subst hval
        exact hC.pairs q pr2 i j h2 hq hij hh2
    have FimpSh : ∀ q pr2 i j h, P2.get? q = some pr2 →
        pr2.attached.get? i = some j → G2.get? j = some h →
        h.importantShown = pr2.events.any (fun e => isImpDispBy i e) := by
      intro q pr2 i j h hq hij hjh
      rw [hPget q] at hq
      by_cases hqe : q = pIdx
      · rw [if_pos hqe] at hq
        have hqe2 := hqe.symm
        subst hqe2
        have heq := Option.some_inj.mp hq
        subst heq
        have hij2 : pr.attached.get? i = some j := hij
        rw [hprE, hanyN, hs19 i]
        by_cases hipos : i = pos
        · subst hipos
          have hj : gIdx = j := by
            rw [hattpos] at hij2
            exact Option.some_inj.mp hij2
          subst hj
          rw [hG2g] at hjh
          have hval := Option.some_inj.mp hjh
          subst hval
          have hLanyImp : L.any (fun e => isImpDispBy pos e) =
              (g.actions.drop g.numShown).any (fun p => p.2) := by
            apply bool_eq_of_iff
            rw [any_iff_countP_pos, any_iff_countP_pos,
              countP_impDispBy_tagged_self pos L hLtag, hLimpCnt]
          show (loopF g).impShown = _
          rw [hLimpShown, hLanyImp, ← hImpShG]
          cases g.importantShown <;> simp
        · obtain ⟨h2, h3, hh2, hG3, hp2, hmy2, hact, hns, hprv, hmy3, himps, hhi,
            hci, hcii⟩ := hG2att2 i j hij2 hipos
          rw [hG3] at hjh
          have hval := Option.some_inj.mp hjh
          subst hval
          have hLanyNe : L.any (fun e => isImpDispBy i e) = false :=
            any_eq_false_of_countP_zero _ _
              (countP_impDispBy_tagged_ne pos i L hLtag hipos)
          rw [himps, hLanyNe, hC.impSh pIdx pr i j h2 hpr hij2 hh2]
          simp
      · rw [if_neg hqe] at hq
        obtain ⟨h2, hh2, hp2, hmy2⟩ := hC.attIdx q pr2 i j hq hij
        have hG2j : G2.get? j = w.groups.get? j := hG2q q pr2 i j hqe hq hij
        rw [hG2j, hh2] at hjh
        have hval := Option.some_inj.mp hjh
        subst hval
        exact hC.impSh q pr2 i j h2 hq hij hh2
    have FcurR : ∀ q pr2 i j h, P2.get? q = some pr2 →
        pr2.attached.get? i = some j → G2.get? j = some h →
        h.numShown = 0 →
        (pr2.events.countP (fun e => isDispLt i e) : Int) ≤ h.currentIndex ∧
        h.currentIndex ≤ (pr2.events.countP (fun e => isDispLt i e) : Int) +
          pr2.events.countP (fun e => isSepRegLt i e) := by
      intro q pr2 i j h hq hij hjh hns0
      rw [hPget q] at hq
      by_cases hqe : q = pIdx
      · rw [if_pos hqe] at hq
        have hqe2 := hqe.symm
        subst hqe2
        have heq := Option.some_inj.mp hq
        subst heq
        have hij2 : pr.attached.get? i = some j := hij
        by_cases hipos : i = pos
        · subst hipos
          have hj : gIdx = j := by
            rw [hattpos] at hij2
            exact Option.some_inj.mp hij2
          subst hj
          rw [hG2g] at hjh
          have hval := Option.some_inj.mp hjh
          subst hval
          have hns2 : g.numShown + c = 0 := hns0
          omega
        · obtain ⟨h2, h3, hh2, hG3, hp2, hmy2, hact, hns, hprv, hmy3, himps, hhi,
            hci, hcii⟩ := hG2att2 i j hij2 hipos
          rw [hG3] at hjh
          have hval := Option.some_inj.mp hjh
          subst hval
          have hns2 : h2.numShown = 0 := by
            rw [← hns]
            exact hns0
          obtain ⟨hlow, hhigh⟩ := hC.curR pIdx pr i j h2 hpr hij2 hh2 hns2
          have e1 : (pr.events ++ S ++ L).countP (fun e => isDispLt i e) =
              pr.events.countP (fun e => isDispLt i e) +
              (if pos < i then (g.actions.drop g.numShown).length else 0) := by
            rw [hcntN, hs13 i, countP_dispLt_tagged pos i L hLtag, hLlen, Nat.add_zero]
          have e2 : (pr.events ++ S ++ L).countP (fun e => isSepRegLt i e) =
              pr.events.countP (fun e => isSepRegLt i e) +
              (if hasSepRegF g = true ∧ pos < i then 1 else 0) := by
            rw [hcntN, hs3 i, hLsepRLt i, Nat.add_zero]
          rw [hprE, e1, e2, hci, hLc]
          refine ⟨?_, ?_⟩ <;> split_ifs <;> push_cast <;> omega
      · rw [if_neg hqe] at hq
        obtain ⟨h2, hh2, hp2, hmy2⟩ := hC.attIdx q pr2 i j hq hij
        have hG2j := hG2q q pr2 i j hqe hq hij
        rw [hG2j, hh2] at hjh
        have hval := Option.some_inj.mp hjh
        subst hval
        exact hC.curR q pr2 i j h2 hq hij hh2 hns0
    have FcurI : ∀ q pr2 i j h, P2.get? q = some pr2 →
        pr2.attached.get? i = some j → G2.get? j = some h →
        h.importantShown = false →
        (pr2.events.countP (fun e => isImpDispLt i e) : Int) ≤
          h.currentIndexImportant ∧
        h.currentIndexImportant ≤
          (pr2.events.countP (fun e => isImpDispLt i e) : Int) +
          pr2.events.countP (fun e => isSepImpLt i e) := by
      intro q pr2 i j h hq hij hjh himp0
      rw [hPget q] at hq
      by_cases hqe : q = pIdx
      · rw [if_pos hqe] at hq
        have hqe2 := hqe.symm
        subst hqe2
        have heq := Option.some_inj.mp hq
        subst heq
        have hij2 : pr.attached.get? i = some j := hij
        by_cases hipos : i = pos
        · subst hipos
          have hj : gIdx = j := by
            rw [hattpos] at hij2
            exact Option.some_inj.mp hij2
          subst hj
          rw [hG2g] at hjh
          have hval := Option.some_inj.mp hjh
          subst hval
          have himps0 : (g.importantShown ||
              (g.actions.drop g.numShown).any (fun p => p.2)) = false := by
            rw [← hLimpShown]
            exact himp0
          rw [Bool.or_eq_false_iff] at himps0
          obtain ⟨hgimp0, hremimp0⟩ := himps0
          have hrem0 : (g.actions.drop g.numShown).countP (fun p => p.2) = 0 :=
            countP_eq_zero_of_any_false _ _ hremimp0
          have hHI : g.hasImportant = false := by
            rw [hKey1 hgimp0]
            exact hremimp0
          have hSI : hasSepImpF g = false := by
            rw [hasSepImpF, hHI]
            rfl
          have hciiEq : (gAfter g).currentIndexImportant =
              g.currentIndexImportant := by
            show (loopF g).cii = _
            rw [hLcii, hrem0]
            rw [show cii1F g = g.currentIndexImportant from by rw [cii1F, hSI]; simp]
            simp
          have e1 : (pr.events ++ S ++ L).countP (fun e => isImpDispLt pos e) =
              pr.events.countP (fun e => isImpDispLt pos e) := by
            rw [hcntN, hs14 pos, countP_impDispLt_tagged pos pos L hLtag]
            simp
          have e2 : (pr.events ++ S ++ L).countP (fun e => isSepImpLt pos e) =
              pr.events.countP (fun e => isSepImpLt pos e) := by
            rw [hcntN, hs6 pos, hLsepILt pos]
            simp
          rw [hprE, e1, e2, hciiEq]
          exact hC.curI pIdx pr pos gIdx g hpr hattpos hg hgimp0
        · obtain ⟨h2, h3, hh2, hG3, hp2, hmy2, hact, hns, hprv, hmy3, himps, hhi,
            hci, hcii⟩ := hG2att2 i j hij2 hipos
          rw [hG3] at hjh
          have hval := Option.some_inj.mp hjh
          subst hval
          have himp2 : h2.importantShown = false := by
            rw [← himps]
            exact himp0
          obtain ⟨hlow, hhigh⟩ := hC.curI pIdx pr i j h2 hpr hij2 hh2 himp2
          have e1 : (pr.events ++ S ++ L).countP (fun e => isImpDispLt i e) =
              pr.events.countP (fun e => isImpDispLt i e) +
              (if pos < i then
                (g.actions.drop g.numShown).countP (fun p => p.2) else 0) := by
            rw [hcntN, hs14 i, countP_impDispLt_tagged pos i L hLtag, hLimpCnt,
              Nat.add_zero]
          have e2 : (pr.events ++ S ++ L).countP (fun e => isSepImpLt i e) =
              pr.events.countP (fun e => isSepImpLt i e) +
              (if hasSepImpF g = true ∧ pos < i then 1 else 0) := by
            rw [hcntN, hs6 i, hLsepILt i, Nat.add_zero]
          rw [hprE, e1, e2, hcii, hLcimp]
          refine ⟨?_, ?_⟩ <;> split_ifs <;> push_cast <;> omega
      · rw [if_neg hqe] at hq
        obtain ⟨h2, hh2, hp2, hmy2⟩ := hC.attIdx q pr2 i j hq hij
        have hG2j := hG2q q pr2 i j hqe hq hij
        rw [hG2j, hh2] at hjh
        have hval := Option.some_inj.mp hjh
        subst hval
        exact hC.curI q pr2 i j h2 hq hij hh2 himp0
    have FsepRC : ∀ q pr2 i, P2.get? q = some pr2 →
        pr2.events.countP (fun e => isSepRegBy i e) ≤ 1 := by
      intro q pr2 i hq
      rw [hPget q] at hq
      by_cases hqe : q = pIdx
      · rw [if_pos hqe] at hq
        have hqe2 := hqe.symm
        subst hqe2
        have heq := Option.some_inj.mp hq
        subst heq
        rw [hprE, hcntN, hLsepRB i]
        by_cases hipos : i = pos
        · subst hipos
          rw [hs1]
          by_cases hR : hasSepRegF g = true
          · rw [if_pos hR]
            have hns0 : g.numShown = 0 := by
              rw [hasSepRegF, Bool.and_eq_true, beq_iff_eq] at hR
              exact hR.1
            rw [hOldSepR0 hns0]
          · rw [if_neg hR]
            have := hC.sepRC pIdx pr pos hpr
            omega
        · rw [hs2 i hipos]
          have := hC.sepRC pIdx pr i hpr
          omega
      · rw [if_neg hqe] at hq
        exact hC.sepRC q pr2 i hq
    have FsepRP : ∀ q pr2 i, P2.get? q = some pr2 →
        pr2.events.countP (fun e => isSepRegBy i e) =
          (pre i pr2.events).countP (fun e => isSepRegBy i e) := by
      intro q pr2 i hq
      rw [hPget q] at hq
      by_cases hqe : q = pIdx
      · rw [if_pos hqe] at hq
        have hqe2 := hqe.symm
        subst hqe2
        have heq := Option.some_inj.mp hq
        subst heq
        rw [hprE]
        by_cases hipos : i = pos
        · subst hipos
          by_cases hns0 : g.numShown = 0
          · rw [hpreNew0 hns0, hcntN, List.countP_append, hLsepRB pos,
              hOldSepR0 hns0]
            omega
          · have hR : hasSepRegF g = false := by
              rw [hasSepRegF]
              have hb : (g.numShown == 0) = false := by
                rw [beq_eq_false_iff_ne]
                exact hns0
              rw [hb]
              rfl
            have hS0 : S.countP (fun e => isSepRegBy pos e) = 0 := by
              rw [hs1, hR]
              rfl
            rw [hpreNewPos (by omega), hcntN, hLsepRB pos, hS0,
              hC.sepRP pIdx pr pos hpr]
            omega
        · by_cases hex : ∃ x ∈ pr.events, isDispBy i x = true
          · rw [hpreSplit i hex, hcntN, hs2 i hipos, hLsepRB i,
              hC.sepRP pIdx pr i hpr]
            omega
          · have hall : ∀ x ∈ pr.events, isDispBy i x = false := by
              intro x hx
              cases hv : isDispBy i x
              · rfl
              · exact absurd ⟨x, hx, hv⟩ hex
            rw [hpreAll i hall, hSLallR i hipos, ← hNewAssoc]
      · rw [if_neg hqe] at hq
        exact hC.sepRP q pr2 i hq
    have FsepRIff : ∀ q pr2 i, P2.get? q = some pr2 →
        (pr2.events.countP (fun e => isSepRegBy i e) = 1 ↔
          (pr2.events.any (fun e => isDispBy i e) = true ∧
            (pre i pr2.events).any (fun e => isDispLt i e) = true)) := by
      intro q pr2 i hq
      rw [hPget q] at hq
      by_cases hqe : q = pIdx
      · rw [if_pos hqe] at hq
        have hqe2 := hqe.symm
        subst hqe2
        have heq := Option.some_inj.mp hq
        subst heq
        rw [hprE]
        by_cases hipos : i = pos
        · subst hipos
          by_cases hns0 : g.numShown = 0
          · have hCeq : (pr.events ++ S ++ L).countP (fun e => isSepRegBy pos e) =
                (if hasSepRegF g = true then 1 else 0) := by
              rw [hcntN, hLsepRB pos, hs1, hOldSepR0 hns0]
              omega
            have hLanyT : L.any (fun e => isDispBy pos e) = true := by
              rw [any_iff_countP_pos, countP_dispBy_tagged_self pos L hLtag, hLlen,
                List.length_drop]
              omega
            have hAeq : (pr.events ++ S ++ L).any (fun e => isDispBy pos e) =
                true := by
              rw [hanyN, hLanyT]
              simp
            have hPreAny : (pr.events ++ S).any (fun e => isDispLt pos e) =
                pr.events.any (fun e => isDispLt pos e) := by
              rw [List.any_append, hs20 pos]
              simp
            rw [hCeq, hAeq, hpreNew0 hns0, hPreAny]
            obtain ⟨hlow, hhigh⟩ := hC.curR pIdx pr pos gIdx g hpr hattpos hg hns0
            have hRval : hasSepRegF g = (g.currentIndex != 0) := by
              rw [hasSepRegF, hns0]
              simp
            constructor
            · intro h1
              refine ⟨rfl, ?_⟩
              have hRtrue : hasSepRegF g = true := by
                by_cases hv : hasSepRegF g = true
                · exact hv
                · rw [if_neg hv] at h1
                  exact absurd h1 (by omega)
              have hci0 : g.currentIndex ≠ 0 := by
                rw [hRval, bne_iff_ne] at hRtrue
                exact hRtrue
              cases hv : pr.events.any (fun e => isDispLt pos e)
              · exfalso
                have hd0 := countP_eq_zero_of_any_false _ _ hv
                have hsz := hSepLtZero hv
                rw [hd0] at hlow
                rw [hd0, hsz] at hhigh
                omega
              · rfl
            · rintro ⟨-, hany⟩
              have hci0 : g.currentIndex ≠ 0 := by
                rw [any_iff_countP_pos] at hany
                omega
              have hRtrue : hasSepRegF g = true := by
                rw [hRval, bne_iff_ne]
                exact hci0
              rw [if_pos hRtrue]
          · have hR : hasSepRegF g = false := by
              rw [hasSepRegF]
              have hb : (g.numShown == 0) = false := by
                rw [beq_eq_false_iff_ne]
                exact hns0
              rw [hb]
              rfl
            have hS0 : S.countP (fun e => isSepRegBy pos e) = 0 := by
              rw [hs1, hR]
              rfl
            have hCeq : (pr.events ++ S ++ L).countP (fun e => isSepRegBy pos e) =
                pr.events.countP (fun e => isSepRegBy pos e) := by
              rw [hcntN, hS0, hLsepRB pos]
              omega
            have hOldAny := hKey3' (by omega)
            have hAeq : (pr.events ++ S ++ L).any (fun e => isDispBy pos e) =
                true := by
              rw [hanyN, hOldAny]
              simp
            rw [hCeq, hAeq, hpreNewPos (by omega)]
            have hiff := hC.sepRIff pIdx pr pos hpr
            rw [hOldAny] at hiff
            exact hiff
        · have hCeq : (pr.events ++ S ++ L).countP (fun e => isSepRegBy i e) =
              pr.events.countP (fun e => isSepRegBy i e) := by
            rw [hcntN, hs2 i hipos, hLsepRB i]
            omega
          have hLanyF : L.any (fun e => isDispBy i e) = false :=
            any_eq_false_of_countP_zero _ _
              (countP_dispBy_tagged pos i L hLtag hipos)
          have hSanyF : S.any (fun e => isDispBy i e) = false :=
            any_eq_false_of_countP_zero _ _ (hs12 i)
          have hAeq : (pr.events ++ S ++ L).any (fun e => isDispBy i e) =
              pr.events.any (fun e => isDispBy i e) := by
            rw [hanyN, hLanyF, hSanyF]
            simp
          by_cases hex : ∃ x ∈ pr.events, isDispBy i x = true
          · rw [hCeq, hAeq, hpreSplit i hex]
            exact hC.sepRIff pIdx pr i hpr
          · have hanyF : pr.events.any (fun e => isDispBy i e) = false := by
              cases hv : pr.events.any (fun e => isDispBy i e)
              · rfl
              · rw [List.any_eq_true] at hv
                exact absurd hv hex
            have hCne : pr.events.countP (fun e => isSepRegBy i e) ≠ 1 := by
              intro h1
              obtain ⟨hany, _⟩ := (hC.sepRIff pIdx pr i hpr).mp h1
              rw [hanyF] at hany
              exact absurd hany (by simp)
            rw [hCeq, hAeq, hanyF]
            exact ⟨fun h1 => absurd h1 hCne, fun h1 => absurd h1.1 (by simp)⟩
      · rw [if_neg hqe] at hq
        exact hC.sepRIff q pr2 i hq
    have FsepIC : ∀ q pr2 i, P2.get? q = some pr2 →
        pr2.events.countP (fun e => isSepImpBy i e) ≤ 1 := by
      intro q pr2 i hq
      rw [hPget q] at hq
      by_cases hqe : q = pIdx
      · rw [if_pos hqe] at hq
        have hqe2 := hqe.symm
        subst hqe2
        have heq := Option.some_inj.mp hq
        subst heq
        rw [hprE, hcntN, hLsepIB i]
        by_cases hipos : i = pos
        · subst hipos
          rw [hs4]
          by_cases hI : hasSepImpF g = true
          · rw [if_pos hI]
            rw [hOldSepI0 (hI_impF hI)]
          · rw [if_neg hI]
            have := hC.sepIC pIdx pr pos hpr
            omega
        · rw [hs5 i hipos]
          have := hC.sepIC pIdx pr i hpr
          omega
      · rw [if_neg hqe] at hq
        exact hC.sepIC q pr2 i hq
    have FsepIP : ∀ q pr2 i, P2.get? q = some pr2 →
        pr2.events.countP (fun e => isSepImpBy i e) =
          (preImp i pr2.events).countP (fun e => isSepImpBy i e) := by
      intro q pr2 i hq
      rw [hPget q] at hq
      by_cases hqe : q = pIdx
      · rw [if_pos hqe] at hq
        have hqe2 := hqe.symm
        subst hqe2
        have heq := Option.some_inj.mp hq
        subst heq
        rw [hprE]
        by_cases hipos : i = pos
        · subst hipos
          by_cases himp0 : g.importantShown = false
          · have hanyOldF : pr.events.any (fun e => isImpDispBy pos e) = false := by
              rw [← hImpShG]
              exact himp0
            have hall : ∀ x ∈ pr.events, isImpDispBy pos x = false := by
              intro x hx
              cases hv : isImpDispBy pos x
              · rfl
              · exact absurd (List.any_eq_true.mpr ⟨x, hx, hv⟩)
                  (by rw [hanyOldF]; simp)
            rw [hpreImpAll pos hall, hSLstopI, hcntN, List.countP_append,
              List.countP_append, hLsepIB pos, hOldSepI0 himp0,
              (countP_sep_tagged _ (fun e he => (hLtwTag _ e he).1)).2.2.1 pos]
            omega
          · have himpT : g.importantShown = true := by
              cases hv : g.importantShown
              · exact absurd hv himp0
              · rfl
            have hex : ∃ x ∈ pr.events, isImpDispBy pos x = true := by
              have hany : pr.events.any (fun e => isImpDispBy pos e) = true := by
                rw [← hImpShG]
                exact himpT
              rw [List.any_eq_true] at hany
              exact hany
            have hI : hasSepImpF g = false := by
              cases hv : hasSepImpF g
              · rfl
              · have h1 := hI_impF hv
                rw [h1] at himpT
                exact absurd himpT (by simp)
            rw [hpreImpSplit pos hex, hcntN, hLsepIB pos, hs4, hI,
              hC.sepIP pIdx pr pos hpr]
            simp
        · by_cases hex : ∃ x ∈ pr.events, isImpDispBy i x = true
          · rw [hpreImpSplit i hex, hcntN, hs5 i hipos, hLsepIB i,
              hC.sepIP pIdx pr i hpr]
            omega
          · have hall : ∀ x ∈ pr.events, isImpDispBy i x = false := by
              intro x hx
              cases hv : isImpDispBy i x
              · rfl
              · exact absurd ⟨x, hx, hv⟩ hex
            rw [hpreImpAll i hall, hSLallI i hipos, ← hNewAssoc]
      · rw [if_neg hqe] at hq
        exact hC.sepIP q pr2 i hq
    have FsepIIff : ∀ q pr2 i, P2.get? q = some pr2 →
        (pr2.events.countP (fun e => isSepImpBy i e) = 1 ↔
          (pr2.events.any (fun e => isImpDispBy i e) = true ∧
            (preImp i pr2.events).any (fun e => isImpDispLt i e) = true)) := by
      intro q pr2 i hq
      rw [hPget q] at hq
      by_cases hqe : q = pIdx
      · rw [if_pos hqe] at hq
        have hqe2 := hqe.symm
        subst hqe2
        have heq := Option.some_inj.mp hq
        subst heq
        rw [hprE]
        by_cases hipos : i = pos
        · subst hipos
          by_cases himp0 : g.importantShown = false
          · have hold0 := hOldSepI0 himp0
            have hanyOldF : pr.events.any (fun e => isImpDispBy pos e) = false := by
              rw [← hImpShG]
              exact himp0
            have hall : ∀ x ∈ pr.events, isImpDispBy pos x = false := by
              intro x hx
              cases hv : isImpDispBy pos x
              · rfl
              · exact absurd (List.any_eq_true.mpr ⟨x, hx, hv⟩)
                  (by rw [hanyOldF]; simp)
            have hCeq : (pr.events ++ S ++ L).countP (fun e => isSepImpBy pos e) =
                (if hasSepImpF g = true then 1 else 0) := by
              rw [hcntN, hLsepIB pos, hs4, hold0]
              omega
            have hLanyImp : L.any (fun e => isImpDispBy pos e) =
                (g.actions.drop g.numShown).any (fun p => p.2) := by
              apply bool_eq_of_iff
              rw [any_iff_countP_pos, any_iff_countP_pos,
                countP_impDispBy_tagged_self pos L hLtag, hLimpCnt]
            have hAeq : (pr.events ++ S ++ L).any (fun e => isImpDispBy pos e) =
                (g.actions.drop g.numShown).any (fun p => p.2) := by
              rw [hanyN, hanyOldF, hs19 pos, hLanyImp]
              simp
            have hLtwAnyF : (L.takeWhile (fun e => !(isImpDispBy pos e))).any
                (fun e => isImpDispLt pos e) = false := by
              apply any_eq_false_of_countP_zero
              rw [countP_impDispLt_tagged pos pos _ (fun e he => hLtwTag _ e he)]
              simp
            have hPreAny : (pr.events ++ (S ++ L.takeWhile
                (fun e => !(isImpDispBy pos e)))).any
                (fun e => isImpDispLt pos e) =
                pr.events.any (fun e => isImpDispLt pos e) := by
              rw [List.any_append, List.any_append, hs21 pos, hLtwAnyF]
              simp
            rw [hCeq, hAeq, hpreImpAll pos hall, hSLstopI, hPreAny]
            obtain ⟨hlow, hhigh⟩ := hC.curI pIdx pr pos gIdx g hpr hattpos hg himp0
            have hIval : hasSepImpF g =
                ((g.actions.drop g.numShown).any (fun p => p.2) &&
                 (g.currentIndexImportant != 0)) := by
              rw [hasSepImpF, hKey1 himp0, himp0]
              simp
            constructor
            · intro h1
              have hIT : hasSepImpF g = true := by
                by_cases hv : hasSepImpF g = true
                · exact hv
                · rw [if_neg hv] at h1
                  exact absurd h1 (by omega)
              rw [hIval, Bool.and_eq_true, bne_iff_ne] at hIT
              obtain ⟨hrem, hcii⟩ := hIT
              refine ⟨hrem, ?_⟩
              cases hv : pr.events.any (fun e => isImpDispLt pos e)
              · exfalso
                have hd0 := countP_eq_zero_of_any_false _ _ hv
                have hsz := hSepImpLtZero hv
                rw [hd0] at hlow
                rw [hd0, hsz] at hhigh
                omega
              · rfl
            · rintro ⟨hrem, hany⟩
              have hcii : g.currentIndexImportant ≠ 0 := by
                rw [any_iff_countP_pos] at hany
                omega
              have hIT : hasSepImpF g = true := by
                rw [hIval, Bool.and_eq_true, bne_iff_ne]
                exact ⟨hrem, hcii⟩
              rw [if_pos hIT]
          · have himpT : g.importantShown = true := by
              cases hv : g.importantShown
              · exact absurd hv himp0
              · rfl
            have hOldAnyT : pr.events.any (fun e => isImpDispBy pos e) = true := by
              rw [← hImpShG]
              exact himpT
            have hex : ∃ x ∈ pr.events, isImpDispBy pos x = true := by
              have h2 := hOldAnyT
              rw [List.any_eq_true] at h2
              exact h2
            have hI : hasSepImpF g = false := by
              cases hv : hasSepImpF g
              · rfl
              · have h1 := hI_impF hv
                rw [h1] at himpT
                exact absurd himpT (by simp)
            have hCeq : (pr.events ++ S ++ L).countP (fun e => isSepImpBy pos e) =
                pr.events.countP (fun e => isSepImpBy pos e) := by
              rw [hcntN, hLsepIB pos, hs4, hI]
              simp
            have hAeq : (pr.events ++ S ++ L).any (fun e => isImpDispBy pos e) =
                true := by
              rw [hanyN, hOldAnyT]
              simp
            rw [hCeq, hAeq, hpreImpSplit pos hex]
            have hiff := hC.sepIIff pIdx pr pos hpr
            rw [hOldAnyT] at hiff
            exact hiff
        · have hCeq : (pr.events ++ S ++ L).countP (fun e => isSepImpBy i e) =
              pr.events.countP (fun e => isSepImpBy i e) := by
            rw [hcntN, hs5 i hipos, hLsepIB i]
            omega
          have hLanyF : L.any (fun e => isImpDispBy i e) = false :=
            any_eq_false_of_countP_zero _ _
              (countP_impDispBy_tagged_ne pos i L hLtag hipos)
          have hAeq : (pr.events ++ S ++ L).any (fun e => isImpDispBy i e) =
              pr.events.any (fun e => isImpDispBy i e) := by
            rw [hanyN, hLanyF, hs19 i]
            simp
          by_cases hex : ∃ x ∈ pr.events, isImpDispBy i x = true
          · rw [hCeq, hAeq, hpreImpSplit i hex]
            exact hC.sepIIff pIdx pr i hpr
          · have hanyF : pr.events.any (fun e => isImpDispBy i e) = false := by
              cases hv : pr.events.any (fun e => isImpDispBy i e)
              · rfl
              · rw [List.any_eq_true] at hv
                exact absurd hv hex
            have hCne : pr.events.countP (fun e => isSepImpBy i e) ≠ 1 := by
              intro h1
              obtain ⟨hany, _⟩ := (hC.sepIIff pIdx pr i hpr).mp h1
              rw [hanyF] at hany
              exact absurd hany (by simp)
            rw [hCeq, hAeq, hanyF]
            exact ⟨fun h1 => absurd h1 hCne, fun h1 => absurd h1.1 (by simp)⟩
      · rw [if_neg hqe] at hq
        exact hC.sepIIff q pr2 i hq
    have FsepINone : ∀ q pr2 i j h, P2.get? q = some pr2 →
        pr2.attached.get? i = some j → G2.get? j = some h →
        h.importantShown = false →
        pr2.events.countP (fun e => isSepImpBy i e) = 0 := by
      intro q pr2 i j h hq hij hjh himp0
      rw [hPget q] at hq
      by_cases hqe : q = pIdx
      · rw [if_pos hqe] at hq
        have hqe2 := hqe.symm
        subst hqe2
        have heq := Option.some_inj.mp hq
        subst heq
        have hij2 : pr.attached.get? i = some j := hij
        rw [hprE, hcntN, hLsepIB i]
        by_cases hipos : i = pos
        · subst hipos
          have hj : gIdx = j := by
            rw [hattpos] at hij2
            exact Option.some_inj.mp hij2
          subst hj
          rw [hG2g] at hjh
          have hval := Option.some_inj.mp hjh
          subst hval
          have himps0 : (g.importantShown ||
              (g.actions.drop g.numShown).any (fun p => p.2)) = false := by
            rw [← hLimpShown]
            exact himp0
          rw [Bool.or_eq_false_iff] at himps0
          obtain ⟨hgimp0, hremimp0⟩ := himps0
          have hI : hasSepImpF g = false := by
            rw [hasSepImpF, hKey1 hgimp0, hremimp0]
            rfl
          rw [hs4, hI, hOldSepI0 hgimp0]
          rfl
        · obtain ⟨h2, h3, hh2, hG3, hp2, hmy2, hact, hns, hprv, hmy3, himps, hhi,
            hci, hcii⟩ := hG2att2 i j hij2 hipos
          rw [hG3] at hjh
          have hval := Option.some_inj.mp hjh
          subst hval
          have himp2 : h2.importantShown = false := by
            rw [← himps]
            exact himp0
          rw [hs5 i hipos, hC.sepINone pIdx pr i j h2 hpr hij2 hh2 himp2]
      · rw [if_neg hqe] at hq
        obtain ⟨h2, hh2, hp2, hmy2⟩ := hC.attIdx q pr2 i j hq hij
        have hG2j := hG2q q pr2 i j hqe hq hij
        rw [hG2j, hh2] at hjh
        have hval := Option.some_inj.mp hjh
        subst hval
        exact hC.sepINone q pr2 i j h2 hq hij hh2 himp0
    have Fshw : ∀ j h, G2.get? j = some h → h.provider.isSome = true →
        h.numShown = h.actions.length := by
      intro j h hjh hjs
      rcases hG2cases j h hjh with ⟨hje, hval⟩ |
        ⟨h2, k, hjne, hk1, hk2, hh2, hp2, hmy2, hval⟩ | ⟨hjne, hjnm, hh⟩
      · subst hval
        exact hnsfull
      · subst hval
        exact hshw j h2 hh2 hjs hjne
      · exact hshw j h hh hjs hjne
    exact ⟨⟨Funat, Fhimp, Fnsle, FattOf, FattIdx, FattNd, FbyLt, Fctrs, Fpairs,
      FimpSh, FcurR, FcurI, FsepRC, FsepRP, FsepRIff, FsepIC, FsepIP, FsepIIff,
      FsepINone⟩, Fshw⟩

theorem get?_append_singleton {α : Type} (l : List α) (x : α) (j : Nat) :
    (l ++ [x]).get? j =
      if j < l.length then l.get? j else if j = l.length then some x else none := by
  by_cases h1 : j < l.length
  · rw [if_pos h1, List.get?_append h1]
  · rw [if_neg h1]
    by_cases h2 : j = l.length
    · subst h2
      rw [if_pos rfl]
      exact List.get?_concat_length l x
    · rw [if_neg h2, List.get?_eq_none.mpr (by simp; omega)]

/-- `ActionGroup::ActionGroup` preserves the invariant: a fresh group is
unattached and empty. -/
theorem newGroup_preserves (w : PWorld) (hW : WInv w) : WInv (newGroup w) := by
  obtain ⟨hC, hshw⟩ := hW
  have hget : ∀ j h, (w.groups ++ [emptyGroup]).get? j = some h →
      w.groups.get? j = some h ∨ (j = w.groups.length ∧ h = emptyGroup) := by
    intro j h hj
    rw [get?_append_singleton] at hj
    by_cases h1 : j < w.groups.length
    · rw [if_pos h1] at hj
      exact Or.inl hj
    · rw [if_neg h1] at hj
      by_cases h2 : j = w.groups.length
      · rw [if_pos h2] at hj
        exact Or.inr ⟨h2, (Option.some_inj.mp hj).symm⟩
      · rw [if_neg h2] at hj
        exact absurd hj (by simp)
  have hget2 : ∀ j h, w.groups.get? j = some h →
      (w.groups ++ [emptyGroup]).get? j = some h := by
    intro j h hj
    rw [get?_append_singleton, if_pos (List.get?_eq_some.mp hj).1]
    exact hj
  refine ⟨⟨?_, ?_, ?_, ?_, ?_, ?_, ?_, ?_, ?_, ?_, ?_, ?_, ?_, ?_, ?_, ?_, ?_, ?_,
    ?_⟩, ?_⟩
  · intro j h hj hpn
    rcases hget j h hj with hj2 | ⟨hje, hval⟩
    · exact hC.unat j h hj2 hpn
    · subst hval
      exact ⟨rfl, rfl, rfl, rfl, rfl⟩
  · intro j h hj
    rcases hget j h hj with hj2 | ⟨hje, hval⟩
    · exact hC.himp j h hj2
    · subst hval
      rfl
  · intro j h hj
    rcases hget j h hj with hj2 | ⟨hje, hval⟩
    · exact hC.nsle j h hj2
    · subst hval
      exact le_refl _
  · intro j h q hj hpq
    rcases hget j h hj with hj2 | ⟨hje, hval⟩
    · exact hC.attOf j h q hj2 hpq
    · subst hval
      exact absurd hpq (by simp [emptyGroup])
  · intro q pr i j hq hij
    obtain ⟨g2, hg2, hp2, hmy2⟩ := hC.attIdx q pr i j hq hij
    exact ⟨g2, hget2 j g2 hg2, hp2, hmy2⟩
  · exact hC.attNd
  · exact hC.byLt
  · exact hC.ctrs
  · intro q pr i j h hq hij hjh
    obtain ⟨g2, hg2, hp2, hmy2⟩ := hC.attIdx q pr i j hq hij
    have hjh2 : (w.groups ++ [emptyGroup]).get? j = some h := hjh
    rw [hget2 j g2 hg2] at hjh2
    have hval := Option.some_inj.mp hjh2
    subst hval
    exact hC.pairs q pr i j g2 hq hij hg2
  · intro q pr i j h hq hij hjh
    obtain ⟨g2, hg2, hp2, hmy2⟩ := hC.attIdx q pr i j hq hij
    have hjh2 : (w.groups ++ [emptyGroup]).get? j = some h := hjh
    rw [hget2 j g2 hg2] at hjh2
    have hval := Option.some_inj.mp hjh2
    subst hval
    exact hC.impSh q pr i j g2 hq hij hg2
  · intro q pr i j h hq hij hjh hns0
    obtain ⟨g2, hg2, hp2, hmy2⟩ := hC.attIdx q pr i j hq hij
    have hjh2 : (w.groups ++ [emptyGroup]).get? j = some h := hjh
    rw [hget2 j g2 hg2] at hjh2
    have hval := Option.some_inj.mp hjh2
    subst hval
    exact hC.curR q pr i j g2 hq hij hg2 hns0
  · intro q pr i j h hq hij hjh himp0
    obtain ⟨g2, hg2, hp2, hmy2⟩ := hC.attIdx q pr i j hq hij
    have hjh2 : (w.groups ++ [emptyGroup]).get? j = some h := hjh
    rw [hget2 j g2 hg2] at hjh2
    have hval := Option.some_inj.mp hjh2
    subst hval
    exact hC.curI q pr i j g2 hq hij hg2 himp0
  · exact hC.sepRC
  · exact hC.sepRP
  · exact hC.sepRIff
  · exact hC.sepIC
  · exact hC.sepIP
  · exact hC.sepIIff
  · intro q pr i j h hq hij hjh himp0
    obtain ⟨g2, hg2, hp2, hmy2⟩ := hC.attIdx q pr i j hq hij
    have hjh2 : (w.groups ++ [emptyGroup]).get? j = some h := hjh
    rw [hget2 j g2 hg2] at hjh2
    have hval := Option.some_inj.mp hjh2
    subst hval
    exact hC.sepINone q pr i j g2 hq hij hg2 himp0
  · intro j h hj hjs
    rcases hget j h hj with hj2 | ⟨hje, hval⟩
    · exact hshw j h hj2 hjs
    · subst hval
      simp [emptyGroup] at hjs

/-- Replacing an unattached group by another unattached group with consistent
bookkeeping preserves the invariant. -/
theorem set_unattached_preserves (w : PWorld) (gIdx : Nat) (g g2' : AGroup)
    (hW : WInv w)
    (hg : w.groups.get? gIdx = some g)
    (hprovN : g.provider = none)
    (hp' : g2'.provider = none)
    (hhi : g2'.hasImportant = g2'.actions.any (fun p => p.2))
    (hns : g2'.numShown = 0) (hmy : g2'.myIndex = -1) (hci : g2'.currentIndex = -1)
    (hcii : g2'.currentIndexImportant = -1) (his : g2'.importantShown = false) :
    WInv ⟨w.groups.set gIdx g2', w.providers⟩ := by
  obtain ⟨hC, hshw⟩ := hW
  have hlt : gIdx < w.groups.length := (List.get?_eq_some.mp hg).1
  have hsetg : (w.groups.set gIdx g2').get? gIdx = some g2' :=
    List.get?_set_eq_of_lt _ hlt
  have hsetne : ∀ j, j ≠ gIdx → (w.groups.set gIdx g2').get? j = w.groups.get? j :=
    fun j hj => List.get?_set_ne _ _ (fun he => hj he.symm)
  have hcases : ∀ j h, (w.groups.set gIdx g2').get? j = some h →
      (j = gIdx ∧ h = g2') ∨ (j ≠ gIdx ∧ w.groups.get? j = some h) := by
    intro j h hj
    by_cases hje : j = gIdx
    · refine Or.inl ⟨hje, ?_⟩
      rw [hje, hsetg] at hj
      exact (Option.some_inj.mp hj).symm
    · refine Or.inr ⟨hje, ?_⟩
      rw [hsetne j hje] at hj
      exact hj
  have hnotatt : ∀ q pr i, w.providers.get? q = some pr →
      pr.attached.get? i = some gIdx → False := by
    intro q pr i hq hi
    obtain ⟨g2, hg2, hp2, _⟩ := hC.attIdx q pr i gIdx hq hi
    rw [hg] at hg2
    have heq := Option.some_inj.mp hg2
    subst heq
    rw [hprovN] at hp2
    exact absurd hp2 (by simp)
  have hattne : ∀ q pr i j, w.providers.get? q = some pr →
      pr.attached.get? i = some j → j ≠ gIdx :=
    fun q pr i j hq hi he => hnotatt q pr i hq (he ▸ hi)
  refine ⟨⟨?_, ?_, ?_, ?_, ?_, ?_, ?_, ?_, ?_, ?_, ?_, ?_, ?_, ?_, ?_, ?_, ?_, ?_,
    ?_⟩, ?_⟩
  · intro j h hj hpn
    rcases hcases j h hj with ⟨hje, hval⟩ | ⟨hje, hj2⟩
    · subst hval
      exact ⟨hns, hmy, hci, hcii, his⟩
    · exact hC.unat j h hj2 hpn
  · intro j h hj
    rcases hcases j h hj with ⟨hje, hval⟩ | ⟨hje, hj2⟩
    · subst hval
      exact hhi
    · exact hC.himp j h hj2
  · intro j h hj
    rcases hcases j h hj with ⟨hje, hval⟩ | ⟨hje, hj2⟩
    · subst hval
      rw [hns]
      exact Nat.zero_le _
    · exact hC.nsle j h hj2
  · intro j h q hj hpq
    rcases hcases j h hj with ⟨hje, hval⟩ | ⟨hje, hj2⟩
    · subst hval
      rw [hp'] at hpq
      exact absurd hpq (by simp)
    · exact hC.attOf j h q hj2 hpq
  · intro q pr i j hq hij
    obtain ⟨g2, hg2, hp2, hmy2⟩ := hC.attIdx q pr i j hq hij
    have hjne : j ≠ gIdx := hattne q pr i j hq hij
    refine ⟨g2, ?_, hp2, hmy2⟩
    rw [hsetne j hjne]
    exact hg2
  · exact hC.attNd
  · exact hC.byLt
  · exact hC.ctrs
  · intro q pr i j h hq hij hjh
    have hjne : j ≠ gIdx := hattne q pr i j hq hij
    obtain ⟨g2, hg2, hp2, hmy2⟩ := hC.attIdx q pr i j hq hij
    have hjh2 : (w.groups.set gIdx g2').get? j = some h := hjh
    rw [hsetne j hjne, hg2] at hjh2
    have hval := Option.some_inj.mp hjh2
    subst hval
    exact hC.pairs q pr i j g2 hq hij hg2
  · intro q pr i j h hq hij hjh
    have hjne : j ≠ gIdx := hattne q pr i j hq hij
    obtain ⟨g2, hg2, hp2, hmy2⟩ := hC.attIdx q pr i j hq hij
    have hjh2 : (w.groups.set gIdx g2').get? j = some h := hjh
    rw [hsetne j hjne, hg2] at hjh2
    have hval := Option.some_inj.mp hjh2
    subst hval
    exact hC.impSh q pr i j g2 hq hij hg2
  · intro q pr i j h hq hij hjh hns0
    have hjne : j ≠ gIdx := hattne q pr i j hq hij
    obtain ⟨g2, hg2, hp2, hmy2⟩ := hC.attIdx q pr i j hq hij
    have hjh2 : (w.groups.set gIdx g2').get? j = some h := hjh
    rw [hsetne j hjne, hg2] at hjh2
    have hval := Option.some_inj.mp hjh2
    subst hval
    exact hC.curR q pr i j g2 hq hij hg2 hns0
  · intro q pr i j h hq hij hjh himp0
    have hjne : j ≠ gIdx := hattne q pr i j hq hij
    obtain ⟨g2, hg2, hp2, hmy2⟩ := hC.attIdx q pr i j hq hij
    have hjh2 : (w.groups.set gIdx g2').get? j = some h := hjh
    rw [hsetne j hjne, hg2] at hjh2
    have hval := Option.some_inj.mp hjh2
    subst hval
    exact hC.curI q pr i j g2 hq hij hg2 himp0
  · exact hC.sepRC
  · exact hC.sepRP
  · exact hC.sepRIff
  · exact hC.sepIC
  · exact hC.sepIP
  · exact hC.sepIIff
  · intro q pr i j h hq hij hjh himp0
    have hjne : j ≠ gIdx := hattne q pr i j hq hij
    obtain ⟨g2, hg2, hp2, hmy2⟩ := hC.attIdx q pr i j hq hij
    have hjh2 : (w.groups.set gIdx g2').get? j = some h := hjh
    rw [hsetne j hjne, hg2] at hjh2
    have hval := Option.some_inj.mp hjh2
    subst hval
    exact hC.sepINone q pr i j g2 hq hij hg2 himp0
  · intro j h hj hjs
    rcases hcases j h hj with ⟨hje, hval⟩ | ⟨hje, hj2⟩
    · subst hval
      rw [hp'] at hjs
      simp at hjs
    · exact hshw j h hj2 hjs

/-- Replacing a group by one that agrees on all cursor and bookkeeping fields
(and whose shown prefix is unchanged) preserves the core invariant. -/
theorem set_compat_core (w : PWorld) (gIdx : Nat) (g g2' : AGroup) (hC : WCore w)
    (hg : w.groups.get? gIdx = some g)
    (hpv : g2'.provider = g.provider) (hmy : g2'.myIndex = g.myIndex)
    (hns : g2'.numShown = g.numShown) (hci : g2'.currentIndex = g.currentIndex)
    (hcii : g2'.currentIndexImportant = g.currentIndexImportant)
    (his : g2'.importantShown = g.importantShown)
    (hhi : g2'.hasImportant = g2'.actions.any (fun p => p.2))
    (hnsle2 : g2'.numShown ≤ g2'.actions.length)
    (htake : g2'.actions.take g2'.numShown = g.actions.take g.numShown) :
    WCore ⟨w.groups.set gIdx g2', w.providers⟩ := by
  have hlt : gIdx < w.groups.length := (List.get?_eq_some.mp hg).1
  have hsetg : (w.groups.set gIdx g2').get? gIdx = some g2' :=
    List.get?_set_eq_of_lt _ hlt
  have hsetne : ∀ j, j ≠ gIdx → (w.groups.set gIdx g2').get? j = w.groups.get? j :=
    fun j hj => List.get?_set_ne _ _ (fun he => hj he.symm)
  have hcases : ∀ j h, (w.groups.set gIdx g2').get? j = some h →
      (j = gIdx ∧ h = g2') ∨ (j ≠ gIdx ∧ w.groups.get? j = some h) := by
    intro j h hj
    by_cases hje : j = gIdx
    · refine Or.inl ⟨hje, ?_⟩
      rw [hje, hsetg] at hj
      exact (Option.some_inj.mp hj).symm
    · refine Or.inr ⟨hje, ?_⟩
      rw [hsetne j hje] at hj
      exact hj
  refine ⟨?_, ?_, ?_, ?_, ?_, ?_, ?_, ?_, ?_, ?_, ?_, ?_, ?_, ?_, ?_, ?_, ?_, ?_,
    ?_⟩
  · intro j h hj hpn
    rcases hcases j h hj with ⟨hje, hval⟩ | ⟨hje, hj2⟩
    · subst hval
      rw [hpv] at hpn
      obtain ⟨hu1, hu2, hu3, hu4, hu5⟩ := hC.unat gIdx g hg hpn
      exact ⟨hns.trans hu1, hmy.trans hu2, hci.trans hu3, hcii.trans hu4,
        his.trans hu5⟩
    · exact hC.unat j h hj2 hpn
  · intro j h hj
    rcases hcases j h hj with ⟨hje, hval⟩ | ⟨hje, hj2⟩
    · subst hval
      exact hhi
    · exact hC.himp j h hj2
  · intro j h hj
    rcases hcases j h hj with ⟨hje, hval⟩ | ⟨hje, hj2⟩
    · subst hval
      exact hnsle2
    · exact hC.nsle j h hj2
  · intro j h q hj hpq
    rcases hcases j h hj with ⟨hje, hval⟩ | ⟨hje, hj2⟩
    · subst hval
      have hje2 := hje.symm
      subst hje2
      rw [hpv] at hpq
      obtain ⟨pr1, hpr1, hnn, hat⟩ := hC.attOf gIdx g q hg hpq
      refine ⟨pr1, hpr1, ?_, ?_⟩
      · rw [hmy]
        exact hnn
      · rw [hmy]
        exact hat
    · exact hC.attOf j h q hj2 hpq
  · intro q pr i j hq hij
    obtain ⟨g2, hg2, hp2, hmy2⟩ := hC.attIdx q pr i j hq hij
    by_cases hje : j = gIdx
    · have hje2 := hje.symm
      subst hje2
      rw [hg] at hg2
      have heq := Option.some_inj.mp hg2
      subst heq
      refine ⟨g2', hsetg, ?_, ?_⟩
      · rw [hpv]
        exact hp2
      · rw [hmy]
        exact hmy2
    · refine ⟨g2, ?_, hp2, hmy2⟩
      rw [hsetne j hje]
      exact hg2
  · exact hC.attNd
  · exact hC.byLt
  · exact hC.ctrs
  · intro q pr i j h hq hij hjh
    rcases hcases j h hjh with ⟨hje, hval⟩ | ⟨hje, hj2⟩
    · subst hval
      have hje2 := hje.symm
      subst hje2
      rw [htake]
      exact hC.pairs q pr i gIdx g hq hij hg
    · exact hC.pairs q pr i j h hq hij hj2
  · intro q pr i j h hq hij hjh
    rcases hcases j h hjh with ⟨hje, hval⟩ | ⟨hje, hj2⟩
    · subst hval
      have hje2 := hje.symm
      subst hje2
      rw [his]
      exact hC.impSh q pr i gIdx g hq hij hg
    · exact hC.impSh q pr i j h hq hij hj2
  · intro q pr i j h hq hij hjh hns0
    rcases hcases j h hjh with ⟨hje, hval⟩ | ⟨hje, hj2⟩
    · subst hval
      have hje2 := hje.symm
      subst hje2
      rw [hci]
      rw [hns] at hns0
      exact hC.curR q pr i gIdx g hq hij hg hns0
    · exact hC.curR q pr i j h hq hij hj2 hns0
  · intro q pr i j h hq hij hjh himp0
    rcases hcases j h hjh with ⟨hje, hval⟩ | ⟨hje, hj2⟩
    · subst hval
      have hje2 := hje.symm
      subst hje2
      rw [hcii]
      rw [his] at himp0
      exact hC.curI q pr i gIdx g hq hij hg himp0
    · exact hC.curI q pr i j h hq hij hj2 himp0
  · exact hC.sepRC
  · exact hC.sepRP
  · exact hC.sepRIff
  · exact hC.sepIC
  · exact hC.sepIP
  · exact hC.sepIIff
  · intro q pr i j h hq hij hjh himp0
    rcases hcases j h hjh with ⟨hje, hval⟩ | ⟨hje, hj2⟩
    · subst hval
      have hje2 := hje.symm
      subst hje2
      rw [his] at himp0
      exact hC.sepINone q pr i gIdx g hq hij hg himp0
    · exact hC.sepINone q pr i j h hq hij hj2 himp0

/-- The attached case of `AddAction`: append the pair and re-render. -/
theorem addAction_attached_preserves (w : PWorld) (gIdx a pIdx : Nat) (imp : Bool)
    (g : AGroup) (hW : WInv w) (hg : w.groups.get? gIdx = some g)
    (hprov : g.provider = some pIdx) :
    WInv (showAllRemaining
      ⟨w.groups.set gIdx { g with
          actions := g.actions ++ [(a, imp)],
          hasImportant := g.hasImportant || imp }, w.providers⟩ gIdx) := by
  obtain ⟨hC, hshw⟩ := hW
  set gna := { g with
    actions := g.actions ++ [(a, imp)],
    hasImportant := g.hasImportant || imp } with hgnadef
  obtain ⟨pr, hpr, hmyNN, hattpos⟩ := hC.attOf gIdx g pIdx hg hprov
  have hlt : gIdx < w.groups.length := (List.get?_eq_some.mp hg).1
  refine batch_preserves _ gIdx gna pIdx pr ?_ ?_ ?_ ?_ ?_
  · apply set_compat_core w gIdx g gna hC hg rfl rfl rfl rfl rfl rfl
    · show (g.hasImportant || imp) = ((g.actions ++ [(a, imp)]).any fun p => p.2)
      rw [List.any_append, ← hC.himp gIdx g hg]
      simp
    · show g.numShown ≤ (g.actions ++ [(a, imp)]).length
      rw [List.length_append]
      have := hC.nsle gIdx g hg
      omega
    · show (g.actions ++ [(a, imp)]).take g.numShown = g.actions.take g.numShown
      exact List.take_append_of_le_length (hC.nsle gIdx g hg)
  · intro j h hj hjs hjne
    have hj2 : (w.groups.set gIdx gna).get? j = some h := hj
    rw [List.get?_set_ne _ _ (fun he => hjne he.symm)] at hj2
    exact hshw j h hj2 hjs
  · exact List.get?_set_eq_of_lt _ hlt
  · exact hprov
  · exact hpr

/-- `ActionGroup::AddAction` preserves the invariant. -/
theorem addAction_preserves (w : PWorld) (gIdx a : Nat) (imp : Bool)
    (hW : WInv w) : WInv (addAction w gIdx a imp) := by
  obtain ⟨hC, hshw⟩ := hW
  cases hg : w.groups.get? gIdx with
  | none =>
    simp only [addAction, hg]
    exact ⟨hC, hshw⟩
  | some g =>
    simp only [addAction, hg]
    cases hprov : g.provider with
    | none =>
      simp only []
      apply set_unattached_preserves w gIdx g _ ⟨hC, hshw⟩ hg hprov
      · rfl
      · show (g.hasImportant || imp) = ((g.actions ++ [(a, imp)]).any fun p => p.2)
        rw [List.any_append, ← hC.himp gIdx g hg]
        simp
      · exact (hC.unat gIdx g hg hprov).1
      · exact (hC.unat gIdx g hg hprov).2.1
      · exact (hC.unat gIdx g hg hprov).2.2.1
      · exact (hC.unat gIdx g hg hprov).2.2.2.1
      · exact (hC.unat gIdx g hg hprov).2.2.2.2
    | some pIdx =>
      simp only []
      rw [← hprov]
      exact addAction_attached_preserves w gIdx a pIdx imp g ⟨hC, hshw⟩ hg hprov

/-- Attaching an unattached group to a provider (the else-branch of
`ShowActionGroup`) and re-rendering preserves the invariant. -/
theorem attach_preserves (w : PWorld) (gIdx pIdx : Nat) (g : AGroup) (pr : Provider)
    (hW : WInv w) (hg : w.groups.get? gIdx = some g)
    (hpr : w.providers.get? pIdx = some pr)
    (hprovN : g.provider = none) :
    WInv (showAllRemaining
      ⟨w.groups.set gIdx { g with
          provider := some pIdx,
          myIndex := (pr.attached.length : Int),
          currentIndex := (pr.maxIndex : Int),
          currentIndexImportant := (pr.maxIndexImportant : Int) },
        w.providers.set pIdx { pr with attached := pr.attached ++ [gIdx] }⟩ gIdx) := by
  obtain ⟨hC, hshw⟩ := hW
  set g2 := { g with
    provider := some pIdx,
    myIndex := (pr.attached.length : Int),
    currentIndex := (pr.maxIndex : Int),
    currentIndexImportant := (pr.maxIndexImportant : Int) } with hg2def
  set pr2 := { pr with attached := pr.attached ++ [gIdx] } with hpr2def
  obtain ⟨hu1, hu2, hu3, hu4, hu5⟩ := hC.unat gIdx g hg hprovN
  obtain ⟨hc1, hc2⟩ := hC.ctrs pIdx pr hpr
  have hlt : gIdx < w.groups.length := (List.get?_eq_some.mp hg).1
  have hplt : pIdx < w.providers.length := (List.get?_eq_some.mp hpr).1
  have hsetg : (w.groups.set gIdx g2).get? gIdx = some g2 :=
    List.get?_set_eq_of_lt _ hlt
  have hsetne : ∀ j, j ≠ gIdx → (w.groups.set gIdx g2).get? j = w.groups.get? j :=
    fun j hj => List.get?_set_ne _ _ (fun he => hj he.symm)
  have hGcases : ∀ j h, (w.groups.set gIdx g2).get? j = some h →
      (j = gIdx ∧ h = g2) ∨ (j ≠ gIdx ∧ w.groups.get? j = some h) := by
    intro j h hj
    by_cases hje : j = gIdx
    · refine Or.inl ⟨hje, ?_⟩
      rw [hje, hsetg] at hj
      exact (Option.some_inj.mp hj).symm
    · refine Or.inr ⟨hje, ?_⟩
      rw [hsetne j hje] at hj
      exact hj
  have hPget : ∀ q, (w.providers.set pIdx pr2).get? q =
      if q = pIdx then some pr2 else w.providers.get? q := by
    intro q
    by_cases hq : q = pIdx
    · subst hq
      rw [if_pos rfl]
      exact List.get?_set_eq_of_lt _ hplt
    · rw [if_neg hq]
      exact List.get?_set_ne _ _ (fun he => hq he.symm)
  have hnotatt : ∀ q pr1 i, w.providers.get? q = some pr1 →
      pr1.attached.get? i = some gIdx → False := by
    intro q pr1 i hq hi
    obtain ⟨g3, hg3, hp3, _⟩ := hC.attIdx q pr1 i gIdx hq hi
    rw [hg] at hg3
    have heq := Option.some_inj.mp hg3
    subst heq
    rw [hprovN] at hp3
    exact absurd hp3 (by simp)
  have hattne : ∀ q pr1 i j, w.providers.get? q = some pr1 →
      pr1.attached.get? i = some j → j ≠ gIdx :=
    fun q pr1 i j hq hi he => hnotatt q pr1 i hq (he ▸ hi)
  have hattCases : ∀ i j, (pr.attached ++ [gIdx]).get? i = some j →
      (i < pr.attached.length ∧ pr.attached.get? i = some j) ∨
      (i = pr.attached.length ∧ j = gIdx) := by
    intro i j hij
    rw [get?_append_singleton] at hij
    by_cases h1 : i < pr.attached.length
    · rw [if_pos h1] at hij
      exact Or.inl ⟨h1, hij⟩
    · rw [if_neg h1] at hij
      by_cases h2 : i = pr.attached.length
      · rw [if_pos h2] at hij
        exact Or.inr ⟨h2, (Option.some_inj.mp hij).symm⟩
      · rw [if_neg h2] at hij
        exact absurd hij (by simp)
  have hbyLtOld : ∀ e ∈ pr.events, evByGroup e < pr.attached.length :=
    fun e he => hC.byLt pIdx pr e hpr he
  have hDispLenF : ∀ e ∈ pr.events, isDispBy pr.attached.length e = false := by
    intro e he
    rw [isDispBy]
    have hne : (evByGroup e == pr.attached.length) = false := by
      rw [beq_eq_false_iff_ne]
      have := hbyLtOld e he
      omega
    rw [hne, Bool.and_false]
  have hImpDispLenF : ∀ e ∈ pr.events,
      isImpDispBy pr.attached.length e = false := by
    intro e he
    rw [isImpDispBy]
    have hne : (evByGroup e == pr.attached.length) = false := by
      rw [beq_eq_false_iff_ne]
      have := hbyLtOld e he
      omega
    rw [hne, Bool.and_false]
  have hSepImpLenF : ∀ e ∈ pr.events,
      isSepImpBy pr.attached.length e = false := by
    intro e he
    rw [isSepImpBy]
    have hne : (evByGroup e == pr.attached.length) = false := by
      rw [beq_eq_false_iff_ne]
      have := hbyLtOld e he
      omega
    rw [hne, Bool.and_false]
  have hAnyImpLenF : pr.events.any
      (fun e => isImpDispBy pr.attached.length e) = false := by
    apply any_eq_false_of_countP_zero
    rw [countP_zero_iff]
    intro e he hcon
    rw [hImpDispLenF e he] at hcon
    simp at hcon
  have hDispLtLen : pr.events.countP (fun e => isDispLt pr.attached.length e) =
      pr.events.countP (fun e => isDisp e) := by
    apply List.countP_congr
    intro e he
    rw [isDispLt, decide_eq_true (hbyLtOld e he), Bool.and_true]
  have hSepRegLtLen : pr.events.countP (fun e => isSepRegLt pr.attached.length e) =
      pr.events.countP (fun e => isSepReg e) := by
    apply List.countP_congr
    intro e he
    rw [isSepRegLt, decide_eq_true (hbyLtOld e he), Bool.and_true]
  have hImpDispLtLen : pr.events.countP
      (fun e => isImpDispLt pr.attached.length e) =
      pr.events.countP (fun e => isImpDisp e) := by
    apply List.countP_congr
    intro e he
    rw [isImpDispLt, decide_eq_true (hbyLtOld e he), Bool.and_true]
  have hSepImpLtLen : pr.events.countP
      (fun e => isSepImpLt pr.attached.length e) =
      pr.events.countP (fun e => isSepImp e) := by
    apply List.countP_congr
    intro e he
    rw [isSepImpLt, decide_eq_true (hbyLtOld e he), Bool.and_true]
  refine batch_preserves _ gIdx g2 pIdx pr2 ?_ ?_ hsetg rfl ?_
  · refine ⟨?_, ?_, ?_, ?_, ?_, ?_, ?_, ?_, ?_, ?_, ?_, ?_, ?_, ?_, ?_, ?_, ?_,
      ?_, ?_⟩
    · intro j h hj hpn
      rcases hGcases j h hj with ⟨hje, hval⟩ | ⟨hje, hj2⟩
      · subst hval
        exact absurd (show some pIdx = (none : Option Nat) from hpn) (by simp)
      · exact hC.unat j h hj2 hpn
    · intro j h hj
      rcases hGcases j h hj with ⟨hje, hval⟩ | ⟨hje, hj2⟩
      · subst hval
        exact hC.himp gIdx g hg
      · exact hC.himp j h hj2
    · intro j h hj
      rcases hGcases j h hj with ⟨hje, hval⟩ | ⟨hje, hj2⟩
      · subst hval
        exact hC.nsle gIdx g hg
      · exact hC.nsle j h hj2
    · intro j h q hj hpq
      rcases hGcases j h hj with ⟨hje, hval⟩ | ⟨hje, hj2⟩
      · subst hval
        have hje2 := hje.symm
        subst hje2
        have hq : pIdx = q := Option.some_inj.mp hpq
        subst hq
        refine ⟨pr2, ?_, ?_, ?_⟩
        · rw [hPget pIdx, if_pos rfl]
        · show (0 : Int) ≤ (pr.attached.length : Int)
          positivity
        · show (pr.attached ++ [gIdx]).get?
            ((pr.attached.length : Int)).toNat = some gIdx
          rw [Int.toNat_natCast]
          exact List.get?_concat_length _ _
      · obtain ⟨pr1, hpr1, hnn, hat⟩ := hC.attOf j h q hj2 hpq
        by_cases hqe : q = pIdx
        · have hqe2 := hqe.symm
          subst hqe2
          rw [hpr] at hpr1
          have heq := Option.some_inj.mp hpr1
          subst heq
          refine ⟨pr2, ?_, hnn, ?_⟩
          · rw [hPget pIdx, if_pos rfl]
          · show (pr.attached ++ [gIdx]).get? h.myIndex.toNat = some j
            rw [List.get?_append (List.get?_eq_some.mp hat).1]
            exact hat
        · refine ⟨pr1, ?_, hnn, hat⟩
          rw [hPget q, if_neg hqe]
          exact hpr1
    · intro q pr3 i j hq hij
      rw [hPget q] at hq
      by_cases hqe : q = pIdx
      · rw [if_pos hqe] at hq
        have hqe2 := hqe.symm
        subst hqe2
        have heq := Option.some_inj.mp hq
        subst heq
        have hij2 : (pr.attached ++ [gIdx]).get? i = some j := hij
        rcases hattCases i j hij2 with ⟨hilt, hi2⟩ | ⟨hie, hje⟩
        · obtain ⟨g3, hg3, hp3, hmy3⟩ := hC.attIdx pIdx pr i j hpr hi2
          have hjne : j ≠ gIdx := hattne pIdx pr i j hpr hi2
          refine ⟨g3, ?_, hp3, hmy3⟩
          rw [hsetne j hjne]
          exact hg3
        · have hje2 := hje.symm
          subst hje2
          refine ⟨g2, hsetg, rfl, ?_⟩
          show (pr.attached.length : Int) = (i : Int)
          rw [hie]
      · rw [if_neg hqe] at hq
        obtain ⟨g3, hg3, hp3, hmy3⟩ := hC.attIdx q pr3 i j hq hij
        have hjne : j ≠ gIdx := hattne q pr3 i j hq hij
        refine ⟨g3, ?_, hp3, hmy3⟩
        rw [hsetne j hjne]
        exact hg3
    · intro q pr3 hq
      rw [hPget q] at hq
      by_cases hqe : q = pIdx
      · rw [if_pos hqe] at hq
        have heq := Option.some_inj.mp hq
        subst heq
        show (pr.attached ++ [gIdx]).Nodup
        rw [List.nodup_append]
        refine ⟨hC.attNd pIdx pr hpr, by simp, ?_⟩
        intro x hx hx2
        rw [List.mem_singleton] at hx2
        subst hx2
        obtain ⟨i, hi⟩ := List.mem_iff_get?.mp hx
        exact hnotatt pIdx pr i hpr hi
      · rw [if_neg hqe] at hq
        exact hC.attNd q pr3 hq
    · intro q pr3 e hq hme
      rw [hPget q] at hq
      by_cases hqe : q = pIdx
      · rw [if_pos hqe] at hq
        have heq := Option.some_inj.mp hq
        subst heq
        have hme2 : e ∈ pr.events := hme
        have := hbyLtOld e hme2
        show evByGroup e < (pr.attached ++ [gIdx]).length
        rw [List.length_append]
        simp
        omega
      · rw [if_neg hqe] at hq
        exact hC.byLt q pr3 e hq hme
    · intro q pr3 hq
      rw [hPget q] at hq
      by_cases hqe : q = pIdx
      · rw [if_pos hqe] at hq
        have heq := Option.some_inj.mp hq
        subst heq
        exact ⟨hc1, hc2⟩
      · rw [if_neg hqe] at hq
        exact hC.ctrs q pr3 hq
    · intro q pr3 i j h hq hij hjh
      rw [hPget q] at hq
      by_cases hqe : q = pIdx
      · rw [if_pos hqe] at hq
        have hqe2 := hqe.symm
        subst hqe2
        have heq := Option.some_inj.mp hq
        subst heq
        have hij2 : (pr.attached ++ [gIdx]).get? i = some j := hij
        rcases hattCases i j hij2 with ⟨hilt, hi2⟩ | ⟨hie, hje⟩
        · have hjne : j ≠ gIdx := hattne pIdx pr i j hpr hi2
          obtain ⟨g3, hg3, hp3, hmy3⟩ := hC.attIdx pIdx pr i j hpr hi2
          have hjh2 : (w.groups.set gIdx g2).get? j = some h := hjh
          rw [hsetne j hjne, hg3] at hjh2
          have hval := Option.some_inj.mp hjh2
          subst hval
          exact hC.pairs pIdx pr i j g3 hpr hi2 hg3
        · have hje2 := hje.symm
          subst hje2
          rw [hsetg] at hjh
          have hval := Option.some_inj.mp hjh
          subst hval
          subst hie
          rw [List.filter_eq_nil.mpr
            (fun e he => by rw [hDispLenF e he]; simp), List.filterMap_nil]
          show ([] : List (Nat × Bool)) = g.actions.take g.numShown
          rw [hu1, List.take_zero]
      · rw [if_neg hqe] at hq
        obtain ⟨g3, hg3, hp3, hmy3⟩ := hC.attIdx q pr3 i j hq hij
        have hjne : j ≠ gIdx := hattne q pr3 i j hq hij
        have hjh2 : (w.groups.set gIdx g2).get? j = some h := hjh
        rw [hsetne j hjne, hg3] at hjh2
        have hval := Option.some_inj.mp hjh2
        subst hval
        exact hC.pairs q pr3 i j g3 hq hij hg3
    · intro q pr3 i j h hq hij hjh
      rw [hPget q] at hq
      by_cases hqe : q = pIdx
      · rw [if_pos hqe] at hq
        have hqe2 := hqe.symm
        subst hqe2
        have heq := Option.some_inj.mp hq
        subst heq
        have hij2 : (pr.attached ++ [gIdx]).get? i = some j := hij
        rcases hattCases i j hij2 with ⟨hilt, hi2⟩ | ⟨hie, hje⟩
        · have hjne : j ≠ gIdx := hattne pIdx pr i j hpr hi2
          obtain ⟨g3, hg3, hp3, hmy3⟩ := hC.attIdx pIdx pr i j hpr hi2
          have hjh2 : (w.groups.set gIdx g2).get? j = some h := hjh
          rw [hsetne j hjne, hg3] at hjh2
          have hval := Option.some_inj.mp hjh2
          subst hval
          exact hC.impSh pIdx pr i j g3 hpr hi2 hg3
        · have hje2 := hje.symm
          subst hje2
          rw [hsetg] at hjh
          have hval := Option.some_inj.mp hjh
          subst hval
          subst hie
          show g.importantShown = pr.events.any
            (fun e => isImpDispBy pr.attached.length e)
          rw [hu5, hAnyImpLenF]
      · rw [if_neg hqe] at hq
        obtain ⟨g3, hg3, hp3, hmy3⟩ := hC.attIdx q pr3 i j hq hij
        have hjne : j ≠ gIdx := hattne q pr3 i j hq hij
        have hjh2 : (w.groups.set gIdx g2).get? j = some h := hjh
        rw [hsetne j hjne, hg3] at hjh2
        have hval := Option.some_inj.mp hjh2
        subst hval
        exact hC.impSh q pr3 i j g3 hq hij hg3
    · intro q pr3 i j h hq hij hjh hns0
      rw [hPget q] at hq
      by_cases hqe : q = pIdx
      · rw [if_pos hqe] at hq
        have hqe2 := hqe.symm
        subst hqe2
        have heq := Option.some_inj.mp hq
        subst heq
        have hij2 : (pr.attached ++ [gIdx]).get? i = some j := hij
        rcases hattCases i j hij2 with ⟨hilt, hi2⟩ | ⟨hie, hje⟩
        · have hjne : j ≠ gIdx := hattne pIdx pr i j hpr hi2
          obtain ⟨g3, hg3, hp3, hmy3⟩ := hC.attIdx pIdx pr i j hpr hi2
          have hjh2 : (w.groups.set gIdx g2).get? j = some h := hjh
          rw [hsetne j hjne, hg3] at hjh2
          have hval := Option.some_inj.mp hjh2
          subst hval
          exact hC.curR pIdx pr i j g3 hpr hi2 hg3 hns0
        · have hje2 := hje.symm
          subst hje2
          rw [hsetg] at hjh
          have hval := Option.some_inj.mp hjh
          subst hval
          subst hie
          show (pr.events.countP (fun e => isDispLt pr.attached.length e) : Int) ≤
              (pr.maxIndex : Int) ∧
            (pr.maxIndex : Int) ≤
              (pr.events.countP (fun e => isDispLt pr.attached.length e) : Int) +
              pr.events.countP (fun e => isSepRegLt pr.attached.length e)
          rw [hDispLtLen, hSepRegLtLen]
          constructor <;> push_cast <;> omega
      · rw [if_neg hqe] at hq
        obtain ⟨g3, hg3, hp3, hmy3⟩ := hC.attIdx q pr3 i j hq hij
        have hjne : j ≠ gIdx := hattne q pr3 i j hq hij
        have hjh2 : (w.groups.set gIdx g2).get? j = some h := hjh
        rw [hsetne j hjne, hg3] at hjh2
        have hval := Option.some_inj.mp hjh2
        subst hval
        exact hC.curR q pr3 i j g3 hq hij hg3 hns0
    · intro q pr3 i j h hq hij hjh himp0
      rw [hPget q] at hq
      by_cases hqe : q = pIdx
      · rw [if_pos hqe] at hq
        have hqe2 := hqe.symm
        subst hqe2
        have heq := Option.some_inj.mp hq
        subst heq
        have hij2 : (pr.attached ++ [gIdx]).get? i = some j := hij
        rcases hattCases i j hij2 with ⟨hilt, hi2⟩ | ⟨hie, hje⟩
        · have hjne : j ≠ gIdx := hattne pIdx pr i j hpr hi2
          obtain ⟨g3, hg3, hp3, hmy3⟩ := hC.attIdx pIdx pr i j hpr hi2
          have hjh2 : (w.groups.set gIdx g2).get? j = some h := hjh
          rw [hsetne j hjne, hg3] at hjh2
          have hval := Option.some_inj.mp hjh2
          subst hval
          exact hC.curI pIdx pr i j g3 hpr hi2 hg3 himp0
        · have hje2 := hje.symm
          subst hje2
          rw [hsetg] at hjh
          have hval := Option.some_inj.mp hjh
          subst hval
          subst hie
          show (pr.events.countP (fun e => isImpDispLt pr.attached.length e) : Int) ≤
              (pr.maxIndexImportant : Int) ∧
            (pr.maxIndexImportant : Int) ≤
              (pr.events.countP (fun e => isImpDispLt pr.attached.length e) : Int) +
              pr.events.countP (fun e => isSepImpLt pr.attached.length e)
          rw [hImpDispLtLen, hSepImpLtLen]
          constructor <;> push_cast <;> omega
      · rw [if_neg hqe] at hq
        obtain ⟨g3, hg3, hp3, hmy3⟩ := hC.attIdx q pr3 i j hq hij
        have hjne : j ≠ gIdx := hattne q pr3 i j hq hij
        have hjh2 : (w.groups.set gIdx g2).get? j = some h := hjh
        rw [hsetne j hjne, hg3] at hjh2
        have hval := Option.some_inj.mp hjh2
        subst hval
        exact hC.curI q pr3 i j g3 hq hij hg3 himp0
    · intro q pr3 i hq
      rw [hPget q] at hq
      by_cases hqe : q = pIdx
      · rw [if_pos hqe] at hq
        have heq := Option.some_inj.mp hq
        subst heq
        exact hC.sepRC pIdx pr i hpr
      · rw [if_neg hqe] at hq
        exact hC.sepRC q pr3 i hq
    · intro q pr3 i hq
      rw [hPget q] at hq
      by_cases hqe : q = pIdx
      · rw [if_pos hqe] at hq
        have heq := Option.some_inj.mp hq
        subst heq
        exact hC.sepRP pIdx pr i hpr
      · rw [if_neg hqe] at hq
        exact hC.sepRP q pr3 i hq
    · intro q pr3 i hq
      rw [hPget q] at hq
      by_cases hqe : q = pIdx
      · rw [if_pos hqe] at hq
        have heq := Option.some_inj.mp hq
        subst heq
        exact hC.sepRIff pIdx pr i hpr
      · rw [if_neg hqe] at hq
        exact hC.sepRIff q pr3 i hq
    · intro q pr3 i hq
      rw [hPget q] at hq
      by_cases hqe : q = pIdx
      · rw [if_pos hqe] at hq
        have heq := Option.some_inj.mp hq
        subst heq
        exact hC.sepIC pIdx pr i hpr
      · rw [if_neg hqe] at hq
        exact hC.sepIC q pr3 i hq
    · intro q pr3 i hq
      rw [hPget q] at hq
      by_cases hqe : q = pIdx
      · rw [if_pos hqe] at hq
        have heq := Option.some_inj.mp hq
        subst heq
        exact hC.sepIP pIdx pr i hpr
      · rw [if_neg hqe] at hq
        exact hC.sepIP q pr3 i hq
    · intro q pr3 i hq
      rw [hPget q] at hq
      by_cases hqe : q = pIdx
      · rw [if_pos hqe] at hq
        have heq := Option.some_inj.mp hq
        subst heq
        exact hC.sepIIff pIdx pr i hpr
      · rw [if_neg hqe] at hq
        exact hC.sepIIff q pr3 i hq
    · intro q pr3 i j h hq hij hjh himp0
      rw [hPget q] at hq
      by_cases hqe : q = pIdx
      · rw [if_pos hqe] at hq
        have hqe2 := hqe.symm
        subst hqe2
        have heq := Option.some_inj.mp hq
        subst heq
        have hij2 : (pr.attached ++ [gIdx]).get? i = some j := hij
        rcases hattCases i j hij2 with ⟨hilt, hi2⟩ | ⟨hie, hje⟩
        · have hjne : j ≠ gIdx := hattne pIdx pr i j hpr hi2
          obtain ⟨g3, hg3, hp3, hmy3⟩ := hC.attIdx pIdx pr i j hpr hi2
          have hjh2 : (w.groups.set gIdx g2).get? j = some h := hjh
          rw [hsetne j hjne, hg3] at hjh2
          have hval := Option.some_inj.mp hjh2
          subst hval
          exact hC.sepINone pIdx pr i j g3 hpr hi2 hg3 himp0
        · subst hie
          rw [countP_zero_iff]
          intro e he hcon
          rw [hSepImpLenF e he] at hcon
          simp at hcon
      · rw [if_neg hqe] at hq
        obtain ⟨g3, hg3, hp3, hmy3⟩ := hC.attIdx q pr3 i j hq hij
        have hjne : j ≠ gIdx := hattne q pr3 i j hq hij
        have hjh2 : (w.groups.set gIdx g2).get? j = some h := hjh
        rw [hsetne j hjne, hg3] at hjh2
        have hval := Option.some_inj.mp hjh2
        subst hval
        exact hC.sepINone q pr3 i j g3 hq hij hg3 himp0
  · intro j h hj hjs hjne
    have hj2 : (w.groups.set gIdx g2).get? j = some h := hj
    rw [hsetne j hjne] at hj2
    exact hshw j h hj2 hjs
  · rw [hPget pIdx, if_pos rfl]

/-- `ActionProvider::ShowActionGroup` preserves the invariant. -/
theorem showActionGroup_preserves (w : PWorld) (pIdx gIdx : Nat) (hW : WInv w) :
    WInv (showActionGroup w pIdx gIdx).1 := by
  cases hg : w.groups.get? gIdx with
  | none =>
    simp only [showActionGroup, hg]
    exact hW
  | some g =>
    cases hpr : w.providers.get? pIdx with
    | none =>
      simp only [showActionGroup, hg, hpr]
      exact hW
    | some pr =>
      simp only [showActionGroup, hg, hpr]
      cases hprov : g.provider with
      | some q =>
        simp only [Option.isSome_some, if_pos]
        exact hW
      | none =>
        simp only [Option.isSome_none, Bool.false_eq_true, if_false]
        exact attach_preserves w gIdx pIdx g pr hW hg hpr hprov

/-- Every client operation preserves the invariant. -/
theorem pstep_preserves (w : PWorld) (op : POp) (hW : WInv w) :
    WInv (pstep w op) := by
  cases op with
  | addGroup => exact newGroup_preserves w hW
  | addCmd gIdx a imp => exact addAction_preserves w gIdx a imp hW
  | showGroup pIdx gIdx => exact showActionGroup_preserves w pIdx gIdx hW

/-- The initial world satisfies the invariant. -/
theorem initWorld_inv (nP : Nat) : WInv (initWorld nP) := by
  have hrep : ∀ q pr, (List.replicate nP emptyProvider).get? q = some pr →
      pr = emptyProvider := by
    intro q pr h
    have h2 := List.get?_mem h
    rw [List.mem_replicate] at h2
    exact h2.2
  refine ⟨⟨?_, ?_, ?_, ?_, ?_, ?_, ?_, ?_, ?_, ?_, ?_, ?_, ?_, ?_, ?_, ?_, ?_, ?_,
    ?_⟩, ?_⟩
  · intro j h hj _
    simp [initWorld] at hj
  · intro j h hj
    simp [initWorld] at hj
  · intro j h hj
    simp [initWorld] at hj
  · intro j h q hj _
    simp [initWorld] at hj
  · intro q pr i j hq hij
    have := hrep q pr hq
    subst this
    simp [emptyProvider] at hij
  · intro q pr hq
    have := hrep q pr hq
    subst this
    simp [emptyProvider]
  · intro q pr e hq hme
    have := hrep q pr hq
    subst this
    simp [emptyProvider] at hme
  · intro q pr hq
    have := hrep q pr hq
    subst this
    simp [emptyProvider]
  · intro q pr i j h hq hij
    have := hrep q pr hq
    subst this
    simp [emptyProvider] at hij
  · intro q pr i j h hq hij
    have := hrep q pr hq
    subst this
    simp [emptyProvider] at hij
  · intro q pr i j h hq hij
    have := hrep q pr hq
    subst this
    simp [emptyProvider] at hij
  · intro q pr i j h hq hij
    have := hrep q pr hq
    subst this
    simp [emptyProvider] at hij
  · intro q pr i hq
    have := hrep q pr hq
    subst this
    simp [emptyProvider]
  · intro q pr i hq
    have := hrep q pr hq
    subst this
    simp [emptyProvider, pre]
  · intro q pr i hq
    have := hrep q pr hq
    subst this
    simp [emptyProvider, pre]
  · intro q pr i hq
    have := hrep q pr hq
    subst this
    simp [emptyProvider]
  · intro q pr i hq
    have := hrep q pr hq
    subst this
    simp [emptyProvider, preImp]
  · intro q pr i hq
    have := hrep q pr hq
    subst this
    simp [emptyProvider, preImp]
  · intro q pr i j h hq hij
    have := hrep q pr hq
    subst this
    simp [emptyProvider] at hij
  · intro j h hj _
    simp [initWorld] at hj

/-- The provider/group invariant holds after every sequence of client
operations. -/
theorem prun_inv (nP : Nat) (ops : List POp) : WInv (prun nP ops) := by
  rw [prun]
  induction ops using List.reverseRecOn with
  | nil => exact initWorld_inv nP
  | append_singleton ops op ih =>
    rw [List.foldl_append, List.foldl_cons, List.foldl_nil]
    exact pstep_preserves _ op ih

theorem filterMap_regIdx_sepEvents (g : AGroup) :
    (sepEventsF g).filterMap regIdxOf? = [] := by
  rw [sepEventsF]
  split_ifs <;> simp [regIdxOf?]

theorem filterMap_impIdx_sepEvents (g : AGroup) :
    (sepEventsF g).filterMap impIdxOf? = [] := by
  rw [sepEventsF]
  split_ifs <;> simp [impIdxOf?]

/-- C3 (amended): after any sequence of operations, the display events of a
provider partition by attached position; each attached group's commands have
been displayed exactly once, in order; and every single `ShowAllRemaining`
batch passes strictly increasing regular and important position indices. -/
theorem display_counts_and_order (nP : Nat) (ops : List POp) (q : Nat)
    (pr : Provider) (hq : (prun nP ops).providers.get? q = some pr) :
    (pr.events.countP (fun e => isDisp e) =
      ∑ i ∈ Finset.range pr.attached.length,
        pr.events.countP (fun e => isDispBy i e)) ∧
    (∀ i gIdx g, pr.attached.get? i = some gIdx →
      (prun nP ops).groups.get? gIdx = some g →
      (pr.events.filter (fun e => isDispBy i e)).filterMap pairOf? = g.actions ∧
      pr.events.countP (fun e => isDispBy i e) = g.actions.length) ∧
    (∀ (w : PWorld) (gIdx : Nat) (g : AGroup) (pIdx : Nat) (pr1 : Provider),
      w.groups.get? gIdx = some g → g.provider = some pIdx →
      w.providers.get? pIdx = some pr1 → g.actions.isEmpty = false →
      ∃ evs, ((showAllRemaining w gIdx).providers.get? pIdx).map Provider.events =
          some (pr1.events ++ evs) ∧
        (evs.filterMap regIdxOf?).Pairwise (fun x y => x < y) ∧
        (evs.filterMap impIdxOf?).Pairwise (fun x y => x < y)) := by
  obtain ⟨hC, hshw⟩ := prun_inv nP ops
  refine ⟨?_, ?_, ?_⟩
  · exact countP_disp_partition pr.attached.length pr.events
      (fun e he => hC.byLt q pr e hq he)
  · intro i gIdx g hi hg
    obtain ⟨g2, hg2, hp2, hmy2⟩ := hC.attIdx q pr i gIdx hq hi
    rw [hg] at hg2
    have heq := Option.some_inj.mp hg2
    subst heq
    have hfull : g.numShown = g.actions.length :=
      hshw gIdx g hg (by rw [hp2]; rfl)
    have hpairs := hC.pairs q pr i gIdx g hq hi hg
    rw [hfull, List.take_length] at hpairs
    refine ⟨hpairs, ?_⟩
    rw [countP_dispBy_filterMap_len, hpairs]
  · intro w gIdx g pIdx pr1 hg hprov hpr1 hne
    refine ⟨sepEventsF g ++ (loopF g).events, ?_, ?_, ?_⟩
    · rw [showAllRemaining_eq w gIdx g pIdx pr1 hg hprov hpr1 hne]
      have hplt : pIdx < w.providers.length := (List.get?_eq_some.mp hpr1).1
      show ((w.providers.set pIdx (prAfter g pr1)).get? pIdx).map Provider.events =
        some (pr1.events ++ (sepEventsF g ++ (loopF g).events))
      rw [List.get?_set_eq_of_lt _ hplt, Option.map_some']
      show some (pr1.events ++ sepEventsF g ++ (loopF g).events) = _
      rw [List.append_assoc]
    · rw [List.filterMap_append, filterMap_regIdx_sepEvents, List.nil_append]
      obtain ⟨-, -, -, -, -, -, h7, -, -, -, -⟩ := showLoop_spec g.myIndex.toNat
        (g.actions.drop g.numShown) (ci1F g) (cii1F g) g.importantShown
      have h7F : (loopF g).events.filterMap regIdxOf? =
          consecFrom (ci1F g) (g.actions.drop g.numShown).length := h7
      rw [h7F]
      exact consecFrom_pairwise _ _
    · rw [List.filterMap_append, filterMap_impIdx_sepEvents, List.nil_append]
      obtain ⟨-, -, -, -, -, -, -, h8, -, -, -⟩ := showLoop_spec g.myIndex.toNat
        (g.actions.drop g.numShown) (ci1F g) (cii1F g) g.importantShown
      have h8F : (loopF g).events.filterMap impIdxOf? =
          consecFrom (cii1F g)
            ((g.actions.drop g.numShown).countP (fun p => p.2)) := h8
      rw [h8F]
      exact consecFrom_pairwise _ _

/-- C3 counterexample: a command added to a never-attached group is not
displayed, so the display count can differ from the total number of commands
added across all groups. -/
theorem display_count_not_all_groups :
    ((prun 1 [POp.addGroup, POp.addCmd 0 7 false]).groups.map
      (fun g => g.actions.length)).sum = 1 ∧
    ((prun 1 [POp.addGroup, POp.addCmd 0 7 false]).providers.map
      (fun p => p.events.countP (fun e => isDisp e))).sum = 0 := by
  decide

/-- C4: the separator laws. For every reachable provider trace and every
attached position, a regular-projection separator is emitted at most once,
only before the position's first displayed command, and exactly once iff the
position displays a command and a smaller position displayed a command before
it (i.e. the group is not the first content of the regular projection); the
same laws hold for the important projection, which covers the retroactive
important separator. -/
theorem separator_iff_rules (nP : Nat) (ops : List POp) (q : Nat) (pr : Provider)
    (hq : (prun nP ops).providers.get? q = some pr) (i : Nat) :
    (pr.events.countP (fun e => isSepRegBy i e) ≤ 1 ∧
     pr.events.countP (fun e => isSepRegBy i e) =
       (pre i pr.events).countP (fun e => isSepRegBy i e) ∧
     (pr.events.countP (fun e => isSepRegBy i e) = 1 ↔
       (pr.events.any (fun e => isDispBy i e) = true ∧
         (pre i pr.events).any (fun e => isDispLt i e) = true))) ∧
    (pr.events.countP (fun e => isSepImpBy i e) ≤ 1 ∧
     pr.events.countP (fun e => isSepImpBy i e) =
       (preImp i pr.events).countP (fun e => isSepImpBy i e) ∧
     (pr.events.countP (fun e => isSepImpBy i e) = 1 ↔
       (pr.events.any (fun e => isImpDispBy i e) = true ∧
         (preImp i pr.events).any (fun e => isImpDispLt i e) = true))) := by
  obtain ⟨hC, _⟩ := prun_inv nP ops
  exact ⟨⟨hC.sepRC q pr i hq, hC.sepRP q pr i hq, hC.sepRIff q pr i hq⟩,
    ⟨hC.sepIC q pr i hq, hC.sepIP q pr i hq, hC.sepIIff q pr i hq⟩⟩

/-- A concrete run for the display-count witness: one group, attached, two
commands (one important). -/
def c3ops : List POp :=
  [POp.addGroup, POp.showGroup 0 0, POp.addCmd 0 5 false, POp.addCmd 0 6 true]

/-- The provider state reached by `c3ops`. -/
def c3pr : Provider :=
  ⟨[0], 2, 1, [PEvent.displayAction 0 5 0 false (-1),
    PEvent.displayAction 0 6 1 true 0]⟩

theorem display_counts_and_order_witness :
    (prun 1 c3ops).providers.get? 0 = some c3pr ∧
    ((c3pr.events.countP (fun e => isDisp e) =
      ∑ i ∈ Finset.range c3pr.attached.length,
        c3pr.events.countP (fun e => isDispBy i e)) ∧
    (∀ i gIdx g, c3pr.attached.get? i = some gIdx →
      (prun 1 c3ops).groups.get? gIdx = some g →
      (c3pr.events.filter (fun e => isDispBy i e)).filterMap pairOf? = g.actions ∧
      c3pr.events.countP (fun e => isDispBy i e) = g.actions.length) ∧
    (∀ (w : PWorld) (gIdx : Nat) (g : AGroup) (pIdx : Nat) (pr1 : Provider),
      w.groups.get? gIdx = some g → g.provider = some pIdx →
      w.providers.get? pIdx = some pr1 → g.actions.isEmpty = false →
      ∃ evs, ((showAllRemaining w gIdx).providers.get? pIdx).map Provider.events =
          some (pr1.events ++ evs) ∧
        (evs.filterMap regIdxOf?).Pairwise (fun x y => x < y) ∧
        (evs.filterMap impIdxOf?).Pairwise (fun x y => x < y))) :=
  ⟨by decide, display_counts_and_order 1 c3ops 0 c3pr (by decide)⟩

/-- A concrete run for the separator witness: two groups attached to the same
provider; the second one displays after the first, so it gets a regular
separator, and its later important command triggers the retroactive important
separator. -/
def c4ops : List POp :=
  [POp.addGroup, POp.addGroup, POp.showGroup 0 0, POp.showGroup 0 1,
   POp.addCmd 0 1 true, POp.addCmd 1 2 false, POp.addCmd 1 3 true]

/-- The provider state reached by `c4ops`. -/
def c4pr : Provider :=
  ⟨[0, 1], 4, 3,
   [PEvent.displayAction 0 1 0 true 0,
    PEvent.displaySeparators 1 true 1 false (-1),
    PEvent.displayAction 1 2 2 false (-1),
    PEvent.displaySeparators 1 false (-1) true 1,
    PEvent.displayAction 1 3 3 true 2]⟩

theorem separator_iff_rules_witness :
    (prun 1 c4ops).providers.get? 0 = some c4pr ∧
    ((c4pr.events.countP (fun e => isSepRegBy 1 e) ≤ 1 ∧
     c4pr.events.countP (fun e => isSepRegBy 1 e) =
       (pre 1 c4pr.events).countP (fun e => isSepRegBy 1 e) ∧
     (c4pr.events.countP (fun e => isSepRegBy 1 e) = 1 ↔
       (c4pr.events.any (fun e => isDispBy 1 e) = true ∧
         (pre 1 c4pr.events).any (fun e => isDispLt 1 e) = true))) ∧
    (c4pr.events.countP (fun e => isSepImpBy 1 e) ≤ 1 ∧
     c4pr.events.countP (fun e => isSepImpBy 1 e) =
       (preImp 1 c4pr.events).countP (fun e => isSepImpBy 1 e) ∧
     (c4pr.events.countP (fun e => isSepImpBy 1 e) = 1 ↔
       (c4pr.events.any (fun e => isImpDispBy 1 e) = true ∧
         (preImp 1 c4pr.events).any (fun e => isImpDispLt 1 e) = true)))) :=
  ⟨by decide, separator_iff_rules 1 c4ops 0 c4pr (by decide) 1⟩

end Actions
end Nova
